import Mathlib

/-!
# Verification of the in-memory RDBMS core

Shallow embedding of the TypeScript sources of the repository
(`src/rdbms/Table.ts`, `index.ts` (the `Index` class), `Database.ts`,
`QueryParser.ts`, `QueryExecutor.ts`, `RDBMS.ts`) as executable Lean
definitions, followed by theorems about the claims of the specification.

Modelling conventions:
* A JavaScript primitive value (`string | number | boolean`) is `Value`.
  Numbers are modelled as `Int`: every numeric literal appearing in the
  modelled query fragment is an integer, and the claims under study do not
  depend on float behaviour.
* A nullable cell (`string | number | boolean | null`) is `Cell := Option Value`
  with `none` standing for `null`.
* A JS object used as a row (`Row = Record<string, ...>`) is an insertion
  ordered association list `Row := List (String × Cell)`.  Property reads
  return `Option Cell`, where `none` stands for `undefined` (key absent).
  Column names in the modelled fragment are not integer-like, so JS
  insertion order coincides with the list order.
* A JS `Map` is likewise an insertion ordered association list; `Map.set`
  replaces in place or appends, `Map.delete` removes the entry.
-/

inductive Value where
  | str (s : String)
  | num (n : Int)
  | bool (b : Bool)
deriving DecidableEq, Repr

abbrev Cell := Option Value

abbrev Row := List (String × Cell)

/-- Generic association list lookup (JS `Map.get` / property read),
`none` = absent. -/
def alistGet {κ α : Type} [DecidableEq κ] (m : List (κ × α)) (k : κ) : Option α :=
  (m.find? (fun p => p.1 = k)).map (·.2)

/-- JS `Map.set` / property write: replace the entry in place if the key
exists, else append. -/
def alistSet {κ α : Type} [DecidableEq κ] (m : List (κ × α)) (k : κ) (v : α) :
    List (κ × α) :=
  if (m.find? (fun p => p.1 = k)).isSome then
    m.map (fun p => if p.1 = k then (k, v) else p)
  else
    m ++ [(k, v)]

/-- JS `Map.delete`: remove the entry for the key (order of others kept). -/
def alistDelete {κ α : Type} [DecidableEq κ] (m : List (κ × α)) (k : κ) :
    List (κ × α) :=
  m.filter (fun p => ¬ p.1 = k)

/-- JS property read `row[k]` : `none` = the key is absent (`undefined`). -/
def rowGet (r : Row) (k : String) : Option Cell :=
  alistGet r k

/-- JS read collapsing `undefined` and `null` into `none`
(used where the source treats them alike). -/
def jsGet (r : Row) (k : String) : Option Value :=
  (rowGet r k).join

/-- JS property write `row[k] = v`: replaces in place, or appends a new key. -/
def rowSet (r : Row) (k : String) (v : Cell) : Row :=
  alistSet r k v

/-! ## Index (class `Index`, exported next to `RDBMS`/`REPL`)

A hash-based mapping from a scalar value to the list of row positions
holding that value.  JS `Map` iteration order is insertion order, kept by
the association list. -/

structure Index where
  entries : List (Value × List Nat)
deriving DecidableEq, Repr

def Index.empty : Index := ⟨[]⟩

/-- `find(value)`: the positions stored for `value`, `[]` if absent. -/
def Index.find (ix : Index) (v : Value) : List Nat :=
  (alistGet ix.entries v).getD []

/-- `add(value, rowIndex)`: no-op on `null`; otherwise push the position onto
the (possibly fresh) list for the value. -/
def Index.add (ix : Index) (v : Cell) (rowIndex : Nat) : Index :=
  match v with
  | none => ix
  | some v => ⟨alistSet ix.entries v (ix.find v ++ [rowIndex])⟩

/-- `remove(value, rowIndex)`: no-op on `null` or an absent value; otherwise
filter the position out, deleting the entry if its list becomes empty. -/
def Index.remove (ix : Index) (v : Cell) (rowIndex : Nat) : Index :=
  match v with
  | none => ix
  | some v =>
    match alistGet ix.entries v with
    | none => ix
    | some l =>
      let filtered := l.filter (fun i => ¬ i = rowIndex)
      if filtered.isEmpty then ⟨alistDelete ix.entries v⟩
      else ⟨alistSet ix.entries v filtered⟩

/-- `clear()`. -/
def Index.clear (_ : Index) : Index := Index.empty

/-! ## Schema types (`types.ts`) -/

inductive ColumnType where
  | string
  | number
  | boolean
deriving DecidableEq, Repr

def ColumnType.render : ColumnType → String
  | .string => "string"
  | .number => "number"
  | .boolean => "boolean"

structure ColumnDefinition where
  name : String
  type : ColumnType
  primaryKey : Bool := false
  unique : Bool := false
  nullable : Bool := false
deriving DecidableEq, Repr

structure TableSchema where
  name : String
  columns : List ColumnDefinition
  primaryKey : Option String := none
deriving DecidableEq, Repr

/-! ## Table (`Table.ts`) -/

structure Table where
  schema : TableSchema
  rows : List Row
  indexes : List (String × Index)
deriving DecidableEq, Repr

/-- One step of the constructor loop: install an empty index for a
primary-key/unique column. -/
def newIndexStep (m : List (String × Index)) (col : ColumnDefinition) :
    List (String × Index) :=
  if col.primaryKey || col.unique then alistSet m col.name Index.empty else m

/-- The constructor: one empty index per primary-key/unique column. -/
def Table.new (schema : TableSchema) : Table :=
  { schema := schema
    rows := []
    indexes := schema.columns.foldl newIndexStep [] }

/-- `validateType(value, type)`. -/
def validateType (v : Value) (t : ColumnType) : Bool :=
  match t, v with
  | .string, .str _ => true
  | .number, .num _ => true
  | .boolean, .bool _ => true
  | _, _ => false

/-- The column loop in `Table.insert`, building `newRow`; errors return
before any mutation of the table.  `jsGet` collapses `undefined` and `null`
exactly as `value === undefined || value === null` does. -/
def insertLoop (t : Table) (row : Row) :
    List ColumnDefinition → Row → Except String Row
  | [], acc => .ok acc
  | col :: rest, acc =>
    match jsGet row col.name with
    | none =>
      if ¬ col.nullable && ¬ col.primaryKey then
        .error ("Column " ++ col.name ++ " cannot be null")
      else
        insertLoop t row rest (rowSet acc col.name none)
    | some v =>
      if ¬ validateType v col.type then
        .error ("Invalid type for column " ++ col.name)
      else if col.unique || col.primaryKey then
        match alistGet t.indexes col.name with
        | some ix =>
          if 0 < (ix.find v).length then
            .error ("Duplicate value for "
              ++ (if col.primaryKey then "primary key" else "unique")
              ++ " column " ++ col.name)
          else
            insertLoop t row rest (rowSet acc col.name (some v))
        | none => insertLoop t row rest (rowSet acc col.name (some v))
      else
        insertLoop t row rest (rowSet acc col.name (some v))

/-- The index-update pass after a successful insert: `add` the new row's
value for every primary-key/unique column when it is not `null` (the rows
built by `insertLoop` carry every schema column, so the value is never
`undefined`; a missing key is skipped like the guarded `if (index && ...)`). -/
def indexPassStep (newRow : Row) (rowIndex : Nat)
    (m : List (String × Index)) (col : ColumnDefinition) :
    List (String × Index) :=
  if col.primaryKey || col.unique then
    match alistGet m col.name with
    | some ix =>
      match rowGet newRow col.name with
      | some (some v) => alistSet m col.name (ix.add (some v) rowIndex)
      | _ => m
    | none => m
  else m

def insertIndexPass (schema : TableSchema) (newRow : Row) (rowIndex : Nat)
    (idxs : List (String × Index)) : List (String × Index) :=
  schema.columns.foldl (indexPassStep newRow rowIndex) idxs

/-- `insert(row)`: returns the error message (if any) and the table after the
call; every error path of the source returns before mutating the table. -/
def Table.insert (t : Table) (row : Row) : Option String × Table :=
  match insertLoop t row t.schema.columns [] with
  | .error e => (some e, t)
  | .ok newRow =>
    let rowIndex := t.rows.length
    (none,
      { t with
        rows := t.rows ++ [newRow]
        indexes := insertIndexPass t.schema newRow rowIndex t.indexes })

/-- `select(columns)`: copies of all rows, projected when an explicit
column list (not `[]`, first element not `*`) is given; `hasOwnProperty`
is the `rowGet _ _ ≠ none` test. -/
def Table.select (t : Table) (columns : List String := []) : List Row :=
  if columns.length = 0 || columns.headD "" = "*" then
    t.rows
  else
    t.rows.map (fun row =>
      columns.foldl
        (fun sel c =>
          match rowGet row c with
          | some cell => rowSet sel c cell
          | none => sel)
        [])

/-- One `(key, value)` pair of the `updates` object applied to the row at
position `idx` (the body of the `for (const [key, value] of ...)` loop).
`undefined`-valued entries of the source are skipped by the loop, which is
the same as leaving them out of the list, so updates carry `Cell`s. -/
def applyUpdateEntry (schema : TableSchema) (idx : Nat)
    (st : Row × List (String × Index)) (kv : String × Cell) :
    Row × List (String × Index) :=
  match schema.columns.find? (fun c => c.name = kv.1) with
  | none => st
  | some col =>
    match kv.2 with
    | some w =>
      if ¬ validateType w col.type then st
      else
        if (col.unique || col.primaryKey) && ¬ (rowGet st.1 kv.1 = some (some w)) then
          match alistGet st.2 kv.1 with
          | some ix =>
            (rowSet st.1 kv.1 (some w), alistSet st.2 kv.1
              ((ix.remove (jsGet st.1 kv.1) idx).add (some w) idx))
          | none => (rowSet st.1 kv.1 (some w), st.2)
        else (rowSet st.1 kv.1 (some w), st.2)
    | none =>
      -- `v === null` skips the type check (`v !== null && ...`) and proceeds
      if (col.unique || col.primaryKey) && ¬ (rowGet st.1 kv.1 = some none) then
        match alistGet st.2 kv.1 with
        | some ix =>
          (rowSet st.1 kv.1 none, alistSet st.2 kv.1
            ((ix.remove (jsGet st.1 kv.1) idx).add none idx))
        | none => (rowSet st.1 kv.1 none, st.2)
      else (rowSet st.1 kv.1 none, st.2)

/-- All update pairs applied to one matching row. -/
def applyUpdates (schema : TableSchema) (updates : List (String × Cell))
    (row : Row) (idxs : List (String × Index)) (idx : Nat) :
    Row × List (String × Index) :=
  updates.foldl (applyUpdateEntry schema idx) (row, idxs)

/-- The `rows.forEach((row, idx) => ...)` loop of `update`; positions do not
shift during an update. -/
def updateLoop (schema : TableSchema) (updates : List (String × Cell))
    (pred : Row → Bool) :
    List Row → List (String × Index) → Nat →
      List Row × List (String × Index) × Nat
  | [], idxs, _ => ([], idxs, 0)
  | r :: rest, idxs, i =>
    if pred r then
      let (r', idxs') := applyUpdates schema updates r idxs i
      let (rest', idxs'', c) := updateLoop schema updates pred rest idxs' (i + 1)
      (r' :: rest', idxs'', c + 1)
    else
      let (rest', idxs'', c) := updateLoop schema updates pred rest idxs (i + 1)
      (r :: rest', idxs'', c)

/-- `update(updates, predicate)`: returns the count of matched rows and the
table after the call. -/
def Table.update (t : Table) (updates : List (String × Cell))
    (pred : Row → Bool) : Nat × Table :=
  let (rows', idxs', count) := updateLoop t.schema updates pred t.rows t.indexes 0
  (count, { t with rows := rows', indexes := idxs' })

/-- First phase of `delete`: collect the positions of all matching rows, in
ascending order (the `rows.forEach` collection loop). -/
def collectIdx (pred : Row → Bool) : List Row → Nat → List Nat
  | [], _ => []
  | r :: rest, i =>
    if pred r then i :: collectIdx pred rest (i + 1)
    else collectIdx pred rest (i + 1)

/-- One indexed column's removal for one deleted row. -/
def deleteIndexStep (row : Row) (i : Nat) (m : List (String × Index))
    (col : ColumnDefinition) : List (String × Index) :=
  if col.primaryKey || col.unique then
    match alistGet m col.name with
    | some ix => alistSet m col.name (ix.remove (jsGet row col.name) i)
    | none => m
  else m

/-- Second phase of `delete`: for each recorded position (descending order),
remove the row's indexed values and splice the row out. -/
def deleteLoop (schema : TableSchema) :
    List Nat → List Row → List (String × Index) →
      List Row × List (String × Index)
  | [], rows, idxs => (rows, idxs)
  | i :: rest, rows, idxs =>
    let row := rows.getD i []
    let idxs' := schema.columns.foldl (deleteIndexStep row i) idxs
    deleteLoop schema rest (rows.eraseIdx i) idxs'

/-- The row scan of `rebuildIndexes`: add every non-null indexed value of
every row, positions ascending from `i`.  Its per-row body is the same
guarded `add` loop as the index pass of `insert`. -/
def rebuildAdd (schema : TableSchema) :
    List Row → Nat → List (String × Index) → List (String × Index)
  | [], _, idxs => idxs
  | row :: rest, i, idxs =>
    rebuildAdd schema rest (i + 1) (insertIndexPass schema row i idxs)

/-- `rebuildIndexes()`: clear every index, then re-scan the rows. -/
def rebuildIndexes (t : Table) : Table :=
  let cleared := t.indexes.map (fun p => (p.1, Index.empty))
  { t with indexes := rebuildAdd t.schema t.rows 0 cleared }

/-- `delete(predicate)`: collect, splice descending, then rebuild every index
from scratch; returns the number of deleted rows and the table after. -/
def Table.delete (t : Table) (pred : Row → Bool) : Nat × Table :=
  let toDelete := collectIdx pred t.rows 0
  let (rows', idxs') := deleteLoop t.schema toDelete.reverse t.rows t.indexes
  let t' := rebuildIndexes { t with rows := rows', indexes := idxs' }
  (toDelete.length, t')

/-- `findByIndex(columnName, value)`: copies of the rows at the indexed
positions (`{...this.rows[idx]}` of an out-of-range position is `{}`). -/
def Table.findByIndex (t : Table) (c : String) (v : Value) : List Row :=
  match alistGet t.indexes c with
  | none => []
  | some ix => (ix.find v).map (fun i => t.rows.getD i [])

/-! ## Database (`Database.ts`) -/

structure Database where
  tables : List (String × Table)
deriving Repr

def Database.empty : Database := ⟨[]⟩

/-- `createTable(schema)`. -/
def Database.createTable (db : Database) (schema : TableSchema) :
    Option String × Database :=
  if (alistGet db.tables schema.name).isSome then
    (some ("Table " ++ schema.name ++ " already exists"), db)
  else
    let primaryKeys := schema.columns.filter (·.primaryKey)
    if 1 < primaryKeys.length then
      (some "Multiple primary keys not supported", db)
    else
      let schema :=
        if primaryKeys.length = 1 then
          { schema with
            primaryKey :=
              some ((primaryKeys.headD ⟨"", .string, false, false, false⟩).name) }
        else schema
      (none, ⟨alistSet db.tables schema.name (Table.new schema)⟩)

/-- `dropTable(name)`. -/
def Database.dropTable (db : Database) (tableName : String) :
    Option String × Database :=
  if (alistGet db.tables tableName).isSome then
    (none, ⟨alistDelete db.tables tableName⟩)
  else
    (some ("Table " ++ tableName ++ " does not exist"), db)

def Database.getTable (db : Database) (tableName : String) : Option Table :=
  alistGet db.tables tableName

def Database.getTables (db : Database) : List String :=
  db.tables.map (·.1)

/-- Replace the (mutated-in-place in the source) table value in the map. -/
def Database.putTable (db : Database) (tableName : String) (t : Table) :
    Database :=
  ⟨alistSet db.tables tableName t⟩

/-! ## Query AST (`QueryParser.ts` interfaces, `types.ts`) -/

inductive Operator where
  | eq | ne | gt | lt | ge | le
deriving DecidableEq, Repr

structure WhereClause where
  column : String
  operator : Operator
  value : Value
deriving DecidableEq, Repr

inductive JoinType where
  | inner | left
deriving DecidableEq, Repr

structure JoinClause where
  type : JoinType
  table : String
  leftColumn : String
  rightColumn : String
deriving DecidableEq, Repr

inductive ParsedQuery where
  | createTable (tableName : String) (columns : List ColumnDefinition)
  | dropTable (tableName : String)
  | insert (tableName : String) (columns : Option (List String))
      (values : List Value)
  | select (columns : List String) (fromTable : String)
      (whereClauses : Option (List WhereClause)) (join : Option JoinClause)
  | update (tableName : String) (set : List (String × Value))
      (whereClauses : Option (List WhereClause))
  | delete (fromTable : String) (whereClauses : Option (List WhereClause))
  | showTables
  | describe (tableName : String)
deriving DecidableEq, Repr

structure QueryResult where
  success : Bool
  rows : Option (List Row) := none
  rowCount : Option Nat := none
  message : Option String := none
  error : Option String := none
deriving DecidableEq, Repr

/-! ## JS comparison semantics used by `evaluateWhere`

`=` / `!=` are JS strict (in)equality, which on our primitive values is
structural equality (with `undefined ≠ null ≠ any value`).  The relational
operators follow the JS Abstract Relational Comparison: if both operands are
strings the comparison is lexicographic, otherwise both are converted with
`ToNumber` and the comparison is false when either converts to `NaN`.
`ToNumber` is modelled on its integer fragment: the numeric strings appearing
in the modelled query fragment are optionally signed decimal integer
literals; any other non-empty non-numeric string converts to `NaN` (`none`). -/

/-- JS `String.prototype.trim` on a character list. -/
def trimChars (cs : List Char) : List Char :=
  ((cs.dropWhile Char.isWhitespace).reverse.dropWhile Char.isWhitespace).reverse

/-- JS `split(sep)` for a one-character separator (the only separators the
source splits on are `","`, `"="` and `"."`). -/
def splitOnChar (sep : Char) (cs : List Char) : List (List Char) :=
  cs.foldr
    (fun x acc =>
      match acc with
      | t :: ts => if x = sep then [] :: t :: ts else (x :: t) :: ts
      | [] => [[x]])
    [[]]

/-- JS string `<` (code-unit lexicographic; the modelled strings are ASCII,
where code units and code points agree). -/
def charListLt : List Char → List Char → Bool
  | [], [] => false
  | [], _ :: _ => true
  | _ :: _, [] => false
  | a :: as, b :: bs =>
    if a < b then true else if b < a then false else charListLt as bs

def digitsToNat : List Char → Option Nat
  | [] => none
  | cs =>
    cs.foldl
      (fun acc c =>
        match acc with
        | none => none
        | some n => if c.isDigit then some (n * 10 + (c.toNat - '0'.toNat)) else none)
      (some 0)

/-- Integer fragment of the JS string-to-number conversion: trimmed empty
string is `0`, an optionally signed decimal literal is its value, anything
else is `NaN` (`none`). -/
def strToNumber (s : List Char) : Option Int :=
  let t := trimChars s
  match t with
  | [] => some 0
  | c :: ds =>
    if c = '-' then (digitsToNat ds).map (fun n => -(n : Int))
    else if c = '+' then (digitsToNat ds).map (fun n => (n : Int))
    else (digitsToNat (c :: ds)).map (fun n => (n : Int))

/-- JS `ToNumber` on a possibly-undefined, possibly-null value:
`undefined → NaN`, `null → 0`, booleans to `0`/`1`, strings as above. -/
def toNumber : Option Cell → Option Int
  | none => none
  | some none => some 0
  | some (some (.num n)) => some n
  | some (some (.bool b)) => some (if b then 1 else 0)
  | some (some (.str s)) => strToNumber s.data

/-- JS `x < y` (and friends) for a row value against a condition literal. -/
def jsLess (x : Option Cell) (y : Value) : Bool :=
  match x, y with
  | some (some (.str a)), .str b => charListLt a.data b.data
  | _, _ =>
    match toNumber x, toNumber (some (some y)) with
    | some a, some b => decide (a < b)
    | _, _ => false

def jsGreater (x : Option Cell) (y : Value) : Bool :=
  match x, y with
  | some (some (.str a)), .str b => charListLt b.data a.data
  | _, _ =>
    match toNumber x, toNumber (some (some y)) with
    | some a, some b => decide (b < a)
    | _, _ => false

def jsLessEq (x : Option Cell) (y : Value) : Bool :=
  match x, y with
  | some (some (.str a)), .str b => !charListLt b.data a.data
  | _, _ =>
    match toNumber x, toNumber (some (some y)) with
    | some a, some b => decide (a ≤ b)
    | _, _ => false

def jsGreaterEq (x : Option Cell) (y : Value) : Bool :=
  match x, y with
  | some (some (.str a)), .str b => !charListLt a.data b.data
  | _, _ =>
    match toNumber x, toNumber (some (some y)) with
    | some a, some b => decide (b ≤ a)
    | _, _ => false

/-! ## QueryExecutor (`QueryExecutor.ts`) -/

/-- `evaluateWhere(row, conditions)`: all conditions ANDed. -/
def evaluateWhere (row : Row) (conditions : List WhereClause) : Bool :=
  conditions.all (fun condition =>
    let rowValue := rowGet row condition.column
    match condition.operator with
    | .eq => rowValue = some (some condition.value)
    | .ne => ¬ (rowValue = some (some condition.value))
    | .gt => jsGreater rowValue condition.value
    | .lt => jsLess rowValue condition.value
    | .ge => jsGreaterEq rowValue condition.value
    | .le => jsLessEq rowValue condition.value)

def filterRows (rows : List Row) (whereClauses : List WhereClause) : List Row :=
  rows.filter (fun row => evaluateWhere row whereClauses)

/-- Requalify one side's row into the joined row under construction. -/
def addQualified (tableName : String) (src : Row) (dst : Row) : Row :=
  src.foldl (fun acc p => rowSet acc (tableName ++ "." ++ p.1) p.2) dst

/-- The inner loop of `executeJoin` for one left row: the combined rows for
every matching right row, and whether any matched. -/
def joinOneLeft (leftTableName rightTableName : String) (leftCol rightCol : String)
    (leftRow : Row) : List Row → List Row × Bool
  | [] => ([], false)
  | rightRow :: rest =>
    let (tail, matched) :=
      joinOneLeft leftTableName rightTableName leftCol rightCol leftRow rest
    if rowGet leftRow leftCol = rowGet rightRow rightCol then
      (addQualified rightTableName rightRow (addQualified leftTableName leftRow [])
        :: tail, true)
    else (tail, matched)

/-- `executeJoin(leftRows, rightRows, join, leftTableName, rightTableName)`:
nested loop; LEFT join emits an unmatched left row requalified with only its
own columns.  The join columns are the part after the `.` of the parsed
`table.column` strings. -/
def executeJoin (leftRows rightRows : List Row) (joinType : JoinType)
    (onLeftColumn onRightColumn : String)
    (leftTableName rightTableName : String) : List Row :=
  let leftCol := String.mk ((splitOnChar '.' onLeftColumn.data).getD 1 [])
  let rightCol := String.mk ((splitOnChar '.' onRightColumn.data).getD 1 [])
  leftRows.foldr
    (fun leftRow acc =>
      let pr :=
        joinOneLeft leftTableName rightTableName leftCol rightCol leftRow rightRows
      if !pr.2 && joinType = JoinType.left then
        pr.1 ++ [addQualified leftTableName leftRow []] ++ acc
      else pr.1 ++ acc)
    []

def executeCreateTable (db : Database) (tableName : String)
    (columns : List ColumnDefinition) : QueryResult × Database :=
  let (err, db') := db.createTable { name := tableName, columns := columns }
  match err with
  | none => ({ success := true, message := some ("Table " ++ tableName ++ " created") }, db')
  | some e => ({ success := false, error := some e }, db')

def executeDropTable (db : Database) (tableName : String) :
    QueryResult × Database :=
  let (err, db') := db.dropTable tableName
  match err with
  | none => ({ success := true, message := some ("Table " ++ tableName ++ " dropped") }, db')
  | some e => ({ success := false, error := some e }, db')

/-- `executeInsert`: zip the (explicit or schema) column list positionally
with the parsed values; a missing value is `undefined`, which `insert` reads
exactly like an absent key, so such keys are left out of the built row. -/
def executeInsert (db : Database) (tableName : String)
    (columns : Option (List String)) (values : List Value) :
    QueryResult × Database :=
  match db.getTable tableName with
  | none => ({ success := false, error := some ("Table " ++ tableName ++ " does not exist") }, db)
  | some table =>
    let names : List String :=
      match columns with
      | some cols => cols
      | none => table.schema.columns.map (·.name)
    let row := (names.enum.foldl
      (fun r (p : Nat × String) =>
        match values.get? p.1 with
        | some v => rowSet r p.2 (some v)
        | none => r)
      [])
    let (err, table') := table.insert row
    match err with
    | none =>
      ({ success := true, message := some "1 row inserted", rowCount := some 1 },
        db.putTable tableName table')
    | some e => ({ success := false, error := some e }, db.putTable tableName table')

def executeSelect (db : Database) (columns : List String) (fromTable : String)
    (whereClauses : Option (List WhereClause)) (join : Option JoinClause) :
    QueryResult × Database :=
  match db.getTable fromTable with
  | none => ({ success := false, error := some ("Table " ++ fromTable ++ " does not exist") }, db)
  | some table =>
    let rows := table.select columns
    let rows :=
      match whereClauses with
      | some w => filterRows rows w
      | none => rows
    match join with
    | none => ({ success := true, rows := some rows, rowCount := some rows.length }, db)
    | some j =>
      match db.getTable j.table with
      | none =>
        ({ success := false, error := some ("Join table " ++ j.table ++ " does not exist") }, db)
      | some joinTable =>
        let rows := executeJoin rows (joinTable.select) j.type
          j.leftColumn j.rightColumn fromTable j.table
        ({ success := true, rows := some rows, rowCount := some rows.length }, db)

def executeUpdate (db : Database) (tableName : String)
    (set : List (String × Value)) (whereClauses : Option (List WhereClause)) :
    QueryResult × Database :=
  match db.getTable tableName with
  | none => ({ success := false, error := some ("Table " ++ tableName ++ " does not exist") }, db)
  | some table =>
    let pred : Row → Bool :=
      match whereClauses with
      | some w => fun row => evaluateWhere row w
      | none => fun _ => true
    let (count, table') := table.update (set.map (fun p => (p.1, some p.2))) pred
    ({ success := true
       message := some (toString count ++ " row(s) updated")
       rowCount := some count }, db.putTable tableName table')

def executeDelete (db : Database) (fromTable : String)
    (whereClauses : Option (List WhereClause)) : QueryResult × Database :=
  match db.getTable fromTable with
  | none => ({ success := false, error := some ("Table " ++ fromTable ++ " does not exist") }, db)
  | some table =>
    let pred : Row → Bool :=
      match whereClauses with
      | some w => fun row => evaluateWhere row w
      | none => fun _ => true
    let (count, table') := table.delete pred
    ({ success := true
       message := some (toString count ++ " row(s) deleted")
       rowCount := some count }, db.putTable fromTable table')

def executeShowTables (db : Database) : QueryResult × Database :=
  let rows := db.getTables.map (fun name => [("table_name", some (Value.str name))])
  ({ success := true, rows := some rows, rowCount := some rows.length }, db)

def executeDescribe (db : Database) (tableName : String) :
    QueryResult × Database :=
  match db.getTable tableName with
  | none => ({ success := false, error := some ("Table " ++ tableName ++ " does not exist") }, db)
  | some table =>
    let rows := table.schema.columns.map (fun col =>
      [("column", some (Value.str col.name)),
       ("type", some (Value.str col.type.render)),
       ("nullable", some (Value.str (if col.nullable then "YES" else "NO"))),
       ("key", some (Value.str
         (if col.primaryKey then "PRI" else if col.unique then "UNI" else "")))])
    ({ success := true, rows := some rows, rowCount := some rows.length }, db)

/-- `QueryExecutor.execute`: dispatch on the AST variant.  The surrounding
`try`/`catch` of the source catches runtime exceptions; the embedded
branches are total, so it has no effect here. -/
def execute (db : Database) (query : ParsedQuery) : QueryResult × Database :=
  match query with
  | .createTable n cols => executeCreateTable db n cols
  | .dropTable n => executeDropTable db n
  | .insert n cols vals => executeInsert db n cols vals
  | .select cols f w j => executeSelect db cols f w j
  | .update n s w => executeUpdate db n s w
  | .delete f w => executeDelete db f w
  | .showTables => executeShowTables db
  | .describe n => executeDescribe db n

/-! ## QueryParser (`QueryParser.ts`)

The parser's regular expressions are embedded as hand-rolled matchers over
`List Char`, reproducing the JS engine's behaviour on the constructs they
use: leftmost-match scanning for unanchored patterns, ordered alternation,
greedy `\s+`/`\s*`/`\w+` with backtracking where a following token could
claim the same characters, lazy `(.*?)`/`(.+?)`, `.` not matching a newline
(no `s` flag), and `$` matching only the very end of the string.  `\w` is
`[A-Za-z0-9_]`, `\s` is whitespace, case-insensitive literals compare by
`Char.toLower` (the modelled queries are ASCII). -/

def isWordChar (c : Char) : Bool := c.isAlpha || c.isDigit || c = '_'

def isSpaceChar (c : Char) : Bool := c.isWhitespace

/-- Case-insensitive literal: consume `kw`, return the rest. -/
def matchCI : List Char → List Char → Option (List Char)
  | [], cs => some cs
  | _, [] => none
  | k :: ks, c :: cs => if k.toLower = c.toLower then matchCI ks cs else none

/-- `\s+` (greedy, maximal run; callers needing backtracking enumerate runs
explicitly). -/
def ws1 : List Char → Option (List Char)
  | [] => none
  | c :: cs => if isSpaceChar c then some (cs.dropWhile isSpaceChar) else none

/-- `\s*` (greedy, maximal run). -/
def ws0 (cs : List Char) : List Char := cs.dropWhile isSpaceChar

/-- `(\w+)` (greedy, maximal run; the following token is never a word
character in the patterns below, except in `tryInsert`, which backtracks). -/
def word1 (cs : List Char) : Option (List Char × List Char) :=
  let w := cs.takeWhile isWordChar
  if w.isEmpty then none else some (w, cs.dropWhile isWordChar)

/-- Leftmost-match scan of an unanchored pattern. -/
def scanFor {α : Type} (attempt : List Char → Option α) : List Char → Option α
  | [] => attempt []
  | c :: cs =>
    match attempt (c :: cs) with
    | some a => some a
    | none => scanFor attempt cs

/-- Split at the last occurrence of a character: greedy `([\s\S]*)ch`. -/
def lastSplit (ch : Char) : List Char → Option (List Char × List Char)
  | [] => none
  | c :: rest =>
    match lastSplit ch rest with
    | some (b, a) => some (c :: b, a)
    | none => if c = ch then some ([], rest) else none

/-- All `(before, after)` splits at a character, leftmost first:
the candidate order of a lazy `(.*?)ch`. -/
def splitsAt (ch : Char) : List Char → List (List Char × List Char)
  | [] => []
  | c :: rest =>
    let tail := (splitsAt ch rest).map (fun p => (c :: p.1, p.2))
    if c = ch then ([], rest) :: tail else tail

/-- Substring search (`String.prototype.includes` on pre-case-mapped text). -/
def containsSeq (needle : List Char) : List Char → Bool
  | [] => needle.isEmpty
  | c :: rest => needle.isPrefixOf (c :: rest) || containsSeq needle rest

/-- JS `split(/\s+/)` on trimmed text: maximal non-whitespace fields. -/
def fieldsBy (p : Char → Bool) (cs : List Char) : List (List Char) :=
  (cs.foldr
    (fun c acc =>
      if p c then [] :: acc
      else
        match acc with
        | [] => [[c]]
        | t :: ts => (c :: t) :: ts)
    []).filter (fun t => ¬ t.isEmpty)

/-- The column-type normalization of `parseCreateTable`, on the lowercased
raw type token.  `/^int(er)?$/i` matches exactly `int` and `inter`. -/
def normalizeColumnType (rawType : List Char) : ColumnType :=
  if "varchar(".data.isPrefixOf rawType || "char(".data.isPrefixOf rawType
      || rawType = "text".data || "timestamp".data.isPrefixOf rawType then
    .string
  else if "serial".data.isPrefixOf rawType || rawType = "int".data
      || rawType = "inter".data || rawType = "number".data
      || "bigint".data.isPrefixOf rawType then
    .number
  else if rawType = "bool".data || rawType = "boolean".data then
    .boolean
  else
    .string

/-- One column definition of CREATE TABLE: whitespace tokenization, type
normalization, then case-insensitive substring search for the constraint
keywords. -/
def parseColumnDef (defStr : List Char) : ColumnDefinition :=
  let parts := fieldsBy isSpaceChar defStr
  let name := String.mk (parts.headD [])
  let rawType :=
    match parts.get? 1 with
    | some t => t.map Char.toLower
    | none => "string".data
  let type := normalizeColumnType rawType
  let upperDef := defStr.map Char.toUpper
  let primaryKey := containsSeq "PRIMARY KEY".data upperDef
  let unique := containsSeq "UNIQUE".data upperDef
  let notNull := containsSeq "NOT NULL".data upperDef
  { name := name
    type := type
    primaryKey := primaryKey
    unique := unique
    nullable := ¬ primaryKey && ¬ notNull }

/-- `/CREATE TABLE\s+(\w+)\s*\(([\s\S]*)\)/i` at one position. -/
def tryCreateTable (cs : List Char) : Option (List Char × List Char) :=
  (matchCI "create table".data cs).bind fun r1 =>
  (ws1 r1).bind fun r2 =>
  (word1 r2).bind fun p =>
  match ws0 p.2 with
  | '(' :: r3 => (lastSplit ')' r3).map fun q => (p.1, q.1)
  | _ => none

def parseCreateTable (cs : List Char) : Except String ParsedQuery :=
  match scanFor tryCreateTable cs with
  | none => .error "Invalid CREATE TABLE syntax"
  | some (name, content) =>
    let columnDefs := ((splitOnChar ',' content).map trimChars).filter
      (fun s => ¬ s.isEmpty)
    .ok (.createTable (String.mk name) (columnDefs.map parseColumnDef))

/-- `/DROP TABLE\s+(\w+)/i` at one position. -/
def tryDropTable (cs : List Char) : Option String :=
  (matchCI "drop table".data cs).bind fun r1 =>
  (ws1 r1).bind fun r2 =>
  (word1 r2).map fun p => String.mk p.1

def parseDropTable (cs : List Char) : Except String ParsedQuery :=
  match scanFor tryDropTable cs with
  | none => .error "Invalid DROP TABLE syntax"
  | some name => .ok (.dropTable name)

/-- `parseValue`: case-insensitive booleans, quote stripping (no escape
processing), then the numeric conversion, else the raw token as a string. -/
def parseValue (value : List Char) : Value :=
  let v := trimChars value
  if v.map Char.toLower = "true".data then .bool true
  else if v.map Char.toLower = "false".data then .bool false
  else if v.head? = some '\'' && v.getLast? = some '\'' then
    .str (String.mk (v.drop 1).dropLast)
  else if v.head? = some '"' && v.getLast? = some '"' then
    .str (String.mk (v.drop 1).dropLast)
  else
    match strToNumber v with
    | some n => .num n
    | none => .str (String.mk v)

def parseValues (valuesStr : List Char) : List Value :=
  (splitOnChar ',' valuesStr).map (fun v => parseValue (trimChars v))

/-- The `\s*VALUES\s*\((.*?)\)` tail of the INSERT pattern. -/
def tryValuesPart (cs : List Char) : Option (List Char) :=
  (matchCI "values".data (ws0 cs)).bind fun r1 =>
  match ws0 r1 with
  | '(' :: r2 =>
    (splitsAt ')' r2).findSome? fun p =>
      if p.1.any (· = '\n') then none else some p.1
  | _ => none

/-- Word candidates longest-first: the backtracking of a greedy `(\w+)`
whose follower could also claim word characters. -/
def wordSplits (cs : List Char) : List (List Char × List Char) :=
  let w := cs.takeWhile isWordChar
  let r := cs.dropWhile isWordChar
  (List.range w.length).map
    (fun k => (w.take (w.length - k), w.drop (w.length - k) ++ r))

/-- `/INSERT INTO\s+(\w+)\s*(?:\((.*?)\))?\s*VALUES\s*\((.*?)\)/i` at one
position; the optional column group is tried before being skipped. -/
def tryInsert (cs : List Char) :
    Option (String × Option (List Char) × List Char) :=
  (matchCI "insert into".data cs).bind fun r1 =>
  (ws1 r1).bind fun r2 =>
  (wordSplits r2).findSome? fun p =>
    let name := String.mk p.1
    let r3 := ws0 p.2
    let withGroup : Option (Option (List Char) × List Char) :=
      match r3 with
      | '(' :: r4 =>
        (splitsAt ')' r4).findSome? fun q =>
          if q.1.any (· = '\n') then none
          else (tryValuesPart q.2).map fun vals => (some q.1, vals)
      | _ => none
    match withGroup with
    | some (cols, vals) => some (name, cols, vals)
    | none => (tryValuesPart r3).map fun vals => (name, none, vals)

def parseInsert (cs : List Char) : Except String ParsedQuery :=
  match scanFor tryInsert cs with
  | none => .error "Invalid INSERT syntax"
  | some (name, cols, vals) =>
    let columns := cols.map fun c =>
      ((splitOnChar ',' c).map (fun s => String.mk (trimChars s)))
    .ok (.insert name columns (parseValues vals))

/-- `(=|!=|>|<|>=|<=)`: ordered alternation, so `>=`/`<=` are shadowed by
`>`/`<` (a leading `>` always matches the third alternative first). -/
def opAlt : List Char → Option (Operator × List Char)
  | '=' :: r => some (.eq, r)
  | '!' :: '=' :: r => some (.ne, r)
  | '>' :: r => some (.gt, r)
  | '<' :: r => some (.lt, r)
  | _ => none

/-- `/(\w+)\s*(=|!=|>|<|>=|<=)\s*(.+)/` at one position; the trailing `\s*`
backtracks from its maximal run until `(.+)` can start on a non-newline. -/
def tryCondAt (cs : List Char) : Option (String × Operator × List Char) :=
  (word1 cs).bind fun p =>
  (opAlt (ws0 p.2)).bind fun q =>
  let w := (q.2).takeWhile isSpaceChar
  (List.range (w.length + 1)).findSome? fun k =>
    let rest := q.2.drop (w.length - k)
    match rest with
    | [] => none
    | c :: _ =>
      if c = '\n' then none
      else some (String.mk p.1, q.1, rest.takeWhile (fun x => ¬ x = '\n'))

/-- The first `\s+AND\s+` separator (case-insensitive), if any. -/
def findAndSep (acc : List Char) : List Char → Option (List Char × List Char)
  | [] => none
  | c :: rest =>
    if isSpaceChar c then
      match (matchCI "and".data ((c :: rest).dropWhile isSpaceChar)).bind ws1 with
      | some r => some (acc.reverse, r)
      | none => findAndSep (c :: acc) rest
    else findAndSep (c :: acc) rest

/-- `split(/\s+AND\s+/i)`; the fuel is an upper bound on the number of
separators, each separator consuming at least one character. -/
def splitAndFuel : Nat → List Char → List (List Char)
  | 0, cs => [cs]
  | fuel + 1, cs =>
    match findAndSep [] cs with
    | none => [cs]
    | some (b, a) => b :: splitAndFuel fuel a

def splitAnd (cs : List Char) : List (List Char) :=
  splitAndFuel cs.length cs

/-- `parseWhere`: split on AND, then match each condition. -/
def parseWhere (whereChars : List Char) : Except String (List WhereClause) :=
  (splitAnd whereChars).mapM fun condition =>
    match scanFor tryCondAt condition with
    | none => .error ("Invalid WHERE condition: " ++ String.mk condition)
    | some (col, op, valueStr) =>
      .ok { column := col, operator := op, value := parseValue valueStr }

/-- The `\s+FROM\s+(\w+)` separator of the SELECT pattern, at one position;
the trailing `(.*)` stops at a newline. -/
def tryFromPart (cs : List Char) : Option (List Char × List Char) :=
  (ws1 cs).bind fun r1 =>
  (matchCI "from".data r1).bind fun r2 =>
  (ws1 r2).bind fun r3 =>
  (word1 r3).map fun p => (p.1, p.2.takeWhile (fun x => ¬ x = '\n'))

/-- The lazy `(.*?)` column capture: grow from the empty capture, trying the
FROM separator at each point, never crossing a newline. -/
def selScan (acc : List Char) :
    List Char → Option (List Char × List Char × List Char)
  | [] =>
    (tryFromPart []).map fun q => (acc.reverse, q.1, q.2)
  | c :: rest' =>
    match tryFromPart (c :: rest') with
    | some (name, tail) => some (acc.reverse, name, tail)
    | none => if c = '\n' then none else selScan (c :: acc) rest'

/-- `/SELECT\s+(.*?)\s+FROM\s+(\w+)(.*)/i` at one position: the leading
`\s+` is greedy and backtracks (runs longest-first), the capture is lazy. -/
def trySelect (cs : List Char) :
    Option (List Char × List Char × List Char) :=
  (matchCI "select".data cs).bind fun r1 =>
  let w := r1.takeWhile isSpaceChar
  (List.range w.length).findSome? fun k =>
    selScan [] (r1.drop (w.length - k))

/-- `/(?:INNER|LEFT)\s+JOIN\s+(\w+)\s+ON\s+(\w+)\.(\w+)\s*=\s*(\w+)\.(\w+)/i`
at one position (INNER tried before LEFT). -/
def tryJoinAt (cs : List Char) :
    Option (String × String × String × String × String) :=
  (match matchCI "inner".data cs with
   | some r => some r
   | none => matchCI "left".data cs).bind fun r1 =>
  (ws1 r1).bind fun r2 =>
  (matchCI "join".data r2).bind fun r3 =>
  (ws1 r3).bind fun r4 =>
  (word1 r4).bind fun ptbl =>
  (ws1 ptbl.2).bind fun r5 =>
  (matchCI "on".data r5).bind fun r6 =>
  (ws1 r6).bind fun r7 =>
  (word1 r7).bind fun plt =>
  match plt.2 with
  | '.' :: r8 =>
    (word1 r8).bind fun plc =>
    match ws0 plc.2 with
    | '=' :: r9 =>
      (word1 (ws0 r9)).bind fun prt =>
      match prt.2 with
      | '.' :: r10 =>
        (word1 r10).map fun (prc : List Char × List Char) =>
          (String.mk ptbl.1, String.mk plt.1, String.mk plc.1,
           String.mk prt.1, String.mk prc.1)
      | _ => none
    | _ => none
  | _ => none

/-- The lazy `(.+?)` WHERE capture growing toward a terminator
(`ORDER BY` / `GROUP BY` / end of string), never crossing a newline. -/
def whereCap (acc : List Char) : List Char → Option (List Char)
  | [] => if ¬ acc.isEmpty then some acc.reverse else none
  | c :: rest' =>
    if ¬ acc.isEmpty
        && ((matchCI "order by".data (c :: rest')).isSome
          || (matchCI "group by".data (c :: rest')).isSome) then
      some acc.reverse
    else if c = '\n' then none
    else whereCap (c :: acc) rest'

/-- `/WHERE\s+(.+?)(?:ORDER BY|GROUP BY|$)/i` at one position: greedy `\s+`
backtracks runs longest-first, capture is lazy. -/
def tryWhereAt (cs : List Char) : Option (List Char) :=
  (matchCI "where".data cs).bind fun r1 =>
  let w := r1.takeWhile isSpaceChar
  (List.range w.length).findSome? fun k =>
    whereCap [] (r1.drop (w.length - k))

def parseSelect (cs : List Char) : Except String ParsedQuery := do
  match scanFor trySelect cs with
  | none => .error "Invalid SELECT syntax"
  | some (colsChars, fromChars, restRaw) =>
    let columnsStr := trimChars colsChars
    let columns :=
      if columnsStr = "*".data then ["*"]
      else (splitOnChar ',' columnsStr).map (fun s => String.mk (trimChars s))
    let rest := trimChars restRaw
    let join : Option JoinClause :=
      (scanFor tryJoinAt rest).map fun j =>
        { type :=
            if containsSeq "LEFT".data (rest.map Char.toUpper) then .left
            else .inner
          table := j.1
          leftColumn := j.2.1 ++ "." ++ j.2.2.1
          rightColumn := j.2.2.2.1 ++ "." ++ j.2.2.2.2 }
    let whereClauses ←
      match scanFor tryWhereAt rest with
      | none => pure none
      | some w => (parseWhere w).map some
    .ok (.select columns (String.mk fromChars) whereClauses join)

/-- The `(?:\s+WHERE\s+(.+))?$` tail shared by UPDATE and DELETE: `$` only
matches the very end, and `(.+)` cannot contain a newline. -/
def tryWhereTail (cs : List Char) : Option (List Char) :=
  (ws1 cs).bind fun r1 =>
  (matchCI "where".data r1).bind fun r2 =>
  let w := r2.takeWhile isSpaceChar
  (List.range w.length).findSome? fun k =>
    let rest := r2.drop (w.length - k)
    if rest.isEmpty || rest.any (· = '\n') then none else some rest

/-- The lazy `(.*?)` SET capture: at each length, the optional WHERE tail is
tried before accepting the end of the string. -/
def setSplit (acc : List Char) :
    List Char → Option (List Char × Option (List Char))
  | [] =>
    match tryWhereTail [] with
    | some w => some (acc.reverse, some w)
    | none => some (acc.reverse, none)
  | c :: rest' =>
    match tryWhereTail (c :: rest') with
    | some w => some (acc.reverse, some w)
    | none => if c = '\n' then none else setSplit (c :: acc) rest'

/-- `/UPDATE\s+(\w+)\s+SET\s+(.*?)(?:\s+WHERE\s+(.+))?$/i` at one position. -/
def tryUpdate (cs : List Char) :
    Option (String × List Char × Option (List Char)) :=
  (matchCI "update".data cs).bind fun r1 =>
  (ws1 r1).bind fun r2 =>
  (word1 r2).bind fun p =>
  (ws1 p.2).bind fun r3 =>
  (matchCI "set".data r3).bind fun r4 =>
  (ws1 r4).bind fun r5 =>
  (setSplit [] r5).map fun q => (String.mk p.1, q.1, q.2)

/-- The SET clause: split on commas, each pair destructured around its first
`=`.  A pair without `=` makes the source call `parseValue(undefined)`,
which throws a runtime `TypeError`; the embedded parser returns that
failure as an error value. -/
def parseSetClause (setStr : List Char) :
    Except String (List (String × Value)) :=
  (splitOnChar ',' setStr).foldlM
    (fun m pair =>
      let ps := (splitOnChar '=' pair).map trimChars
      match ps.get? 1 with
      | some v => .ok (alistSet m (String.mk (ps.headD [])) (parseValue v))
      | none => .error "value.trim is not a function")
    []

def parseUpdate (cs : List Char) : Except String ParsedQuery := do
  match scanFor tryUpdate cs with
  | none => .error "Invalid UPDATE syntax"
  | some (name, setChars, whereChars) =>
    let set ← parseSetClause setChars
    let whereClauses ←
      match whereChars with
      | none => pure none
      | some w => (parseWhere w).map some
    .ok (.update name set whereClauses)

/-- `/DELETE FROM\s+(\w+)(?:\s+WHERE\s+(.+))?$/i` at one position. -/
def tryDelete (cs : List Char) : Option (String × Option (List Char)) :=
  (matchCI "delete from".data cs).bind fun r1 =>
  (ws1 r1).bind fun r2 =>
  (word1 r2).bind fun p =>
  match tryWhereTail p.2 with
  | some w => some (String.mk p.1, some w)
  | none => if p.2.isEmpty then some (String.mk p.1, none) else none

def parseDelete (cs : List Char) : Except String ParsedQuery := do
  match scanFor tryDelete cs with
  | none => .error "Invalid DELETE syntax"
  | some (name, whereChars) =>
    let whereClauses ←
      match whereChars with
      | none => pure none
      | some w => (parseWhere w).map some
    .ok (.delete name whereClauses)

/-- `/(?:DESCRIBE|DESC)\s+(\w+)/i` at one position. -/
def tryDescribe (cs : List Char) : Option String :=
  (match matchCI "describe".data cs with
   | some r => some r
   | none => matchCI "desc".data cs).bind fun r1 =>
  (ws1 r1).bind fun r2 =>
  (word1 r2).map fun (p : List Char × List Char) => String.mk p.1

def parseDescribe (cs : List Char) : Except String ParsedQuery :=
  match scanFor tryDescribe cs with
  | none => .error "Invalid DESCRIBE syntax"
  | some name => .ok (.describe name)

def startsWithCI (kw : String) (cs : List Char) : Bool :=
  (matchCI kw.data cs).isSome

/-- `QueryParser.parse`: trim, strip one trailing `;`, dispatch on the
leading keyword of the uppercased text. -/
def parse (sql : String) : Except String ParsedQuery :=
  let trimmed := trimChars sql.data
  let cs := if trimmed.getLast? = some ';' then trimmed.dropLast else trimmed
  if startsWithCI "create table" cs then parseCreateTable cs
  else if startsWithCI "drop table" cs then parseDropTable cs
  else if startsWithCI "insert into" cs then parseInsert cs
  else if startsWithCI "select" cs then parseSelect cs
  else if startsWithCI "update" cs then parseUpdate cs
  else if startsWithCI "delete from" cs then parseDelete cs
  else if cs.map Char.toUpper = "SHOW TABLES".data then .ok .showTables
  else if startsWithCI "describe" cs || startsWithCI "desc" cs then
    parseDescribe cs
  else .error ("Unsupported query: " ++ sql)

/-! ## RDBMS facade (`RDBMS.ts`) -/

/-- `RDBMS.query`: parse inside a `try`, turning a parser exception into a
`success: false` result with the exception's message. -/
def RDBMS.query (db : Database) (sql : String) : QueryResult × Database :=
  match parse sql with
  | .error e => ({ success := false, error := some e }, db)
  | .ok q => execute db q

/-! ## Invariants and operation sequences (for the theorems below) -/

/-- Position `i` of `rows` holds a row whose value at column `c` is the
non-null value `v`. -/
def matchesAt (rows : List Row) (c : String) (v : Value) (i : Nat) : Prop :=
  ∃ r, rows[i]? = some r ∧ jsGet r c = some v

/-- Index/row synchronisation: every primary-key/unique column of the schema
has an index whose position list for each value is duplicate-free and holds
exactly the positions of the rows carrying that value. -/
def SyncRI (schema : TableSchema) (rows : List Row)
    (idxs : List (String × Index)) : Prop :=
  ∀ col ∈ schema.columns, (col.primaryKey || col.unique) = true →
    ∃ ix, alistGet idxs col.name = some ix ∧
      ∀ v : Value, (ix.find v).Nodup ∧
        ∀ i : Nat, i ∈ ix.find v ↔ matchesAt rows col.name v i

def SyncP (t : Table) : Prop := SyncRI t.schema t.rows t.indexes

/-- Column names are unique within a schema (§3 of the specification). -/
def NodupCols (schema : TableSchema) : Prop :=
  (schema.columns.map (·.name)).Nodup

/-- No two rows hold the same non-null value at column `c`. -/
def UniqAt (rows : List Row) (c : String) : Prop :=
  rows.Pairwise (fun r₁ r₂ =>
    jsGet r₁ c = none ∨ jsGet r₂ c = none ∨ ¬ jsGet r₁ c = jsGet r₂ c)

/-- The uniqueness invariant: no two live rows share a non-null value in any
primary-key/unique column. -/
def Uniq (t : Table) : Prop :=
  ∀ col ∈ t.schema.columns, (col.primaryKey || col.unique) = true →
    UniqAt t.rows col.name

/-- A table mutation (the three mutating operations of `Table`). -/
inductive Op where
  | ins (row : Row)
  | upd (updates : List (String × Cell)) (pred : Row → Bool)
  | del (pred : Row → Bool)

def applyOp (t : Table) : Op → Table
  | .ins row => (t.insert row).2
  | .upd updates pred => (t.update updates pred).2
  | .del pred => (t.delete pred).2

def applyOps (t : Table) (ops : List Op) : Table := ops.foldl applyOp t

/-! ## Concrete fixtures used by witnesses and counterexamples -/

/-- `CREATE TABLE t (id number PRIMARY KEY, name string)`. -/
def schemaT : TableSchema :=
  { name := "t"
    columns := [⟨"id", .number, true, false, false⟩,
                ⟨"name", .string, false, false, true⟩] }

/-- The table `t` after `INSERT (1, 'a')`. -/
def tableT1 : Table :=
  ((Table.new schemaT).insert
    [("id", some (.num 1)), ("name", some (.str "a"))]).2

/-- The table `t` after `INSERT (1, 'a')` and `INSERT (2, 'b')`. -/
def tableT2 : Table :=
  (tableT1.insert [("id", some (.num 2)), ("name", some (.str "b"))]).2

/-- The ascending positions (starting from `i`) of the rows holding the
non-null value `v` at column `c`: the order in which `rebuildIndexes`
re-adds them. -/
def posOf (c : String) (v : Value) : List Row → Nat → List Nat
  | [], _ => []
  | r :: rest, i =>
    if jsGet r c = some v then i :: posOf c v rest (i + 1)
    else posOf c v rest (i + 1)

/-- A result as the facade reports it: either success, or failure carrying
a non-empty error message. -/
def UniformResult (r : QueryResult) : Prop :=
  r.success = true ∨
    (r.success = false ∧
      r.error.map (fun e => decide (0 < e.data.length)) = some true)

/-! # Theorems

## Association list and Index lemmas -/

theorem alistGet_cons {κ α : Type} [DecidableEq κ] (p : κ × α)
    (m : List (κ × α)) (k : κ) :
    alistGet (p :: m) k = if p.1 = k then some p.2 else alistGet m k := by
  by_cases h : p.1 = k <;> simp [alistGet, List.find?_cons, h]

theorem alistSet_cons_ne {κ α : Type} [DecidableEq κ] {p : κ × α}
    {m : List (κ × α)} {k : κ} (v : α) (h : ¬ p.1 = k) :
    alistSet (p :: m) k v = p :: alistSet m k v := by
  by_cases h2 : (m.find? (fun q => q.1 = k)).isSome <;>
    simp [alistSet, List.find?_cons, h, h2]

theorem alistGet_mapReplace_ne {κ α : Type} [DecidableEq κ]
    (m : List (κ × α)) (k k' : κ) (v : α) (h : ¬ k' = k) :
    alistGet (m.map (fun q => if q.1 = k then (k, v) else q)) k'
      = alistGet m k' := by
  induction m with
  | nil => rfl
  | cons p rest ih =>
    by_cases hp : p.1 = k
    · have hk : ¬ (k = k') := fun hx => h hx.symm
      have hp' : ¬ (p.1 = k') := fun hx => h (by rw [← hx]; exact hp)
      simp only [List.map_cons, if_pos hp, alistGet_cons, if_neg hk, if_neg hp', ih]
    · simp only [List.map_cons, if_neg hp, alistGet_cons, ih]

theorem alistGet_set {κ α : Type} [DecidableEq κ] (m : List (κ × α))
    (k : κ) (v : α) (k' : κ) :
    alistGet (alistSet m k v) k' = if k' = k then some v else alistGet m k' := by
  induction m with
  | nil =>
    by_cases h : k' = k
    · simp [alistSet, alistGet_cons, h]
    · simp only [alistSet, List.find?_nil, Option.isSome_none, Bool.false_eq_true,
        if_false, List.nil_append, alistGet_cons, if_neg h]
      rw [if_neg (fun hx => h (hx : k = k').symm)]
  | cons p rest ih =>
    by_cases hp : p.1 = k
    · have hfind : ((p :: rest).find? (fun q => q.1 = k)).isSome := by
        simp [List.find?_cons, hp]
      simp only [alistSet, hfind, if_true, List.map_cons, if_pos hp]
      by_cases h : k' = k
      · subst h; simp [alistGet_cons]
      · have hk : ¬ (k = k') := fun hx => h hx.symm
        simp only [alistGet_cons, if_neg hk, if_neg h,
          alistGet_mapReplace_ne rest k k' v h]
        simp [if_neg (fun hx => h (by rw [← hx]; exact hp) : ¬ p.1 = k')]
    · rw [alistSet_cons_ne v hp, alistGet_cons, alistGet_cons, ih]
      by_cases h : k' = k
      · simp [h, hp]
      · simp [h]

theorem alistGet_delete {κ α : Type} [DecidableEq κ] (m : List (κ × α))
    (k k' : κ) :
    alistGet (alistDelete m k) k' = if k' = k then none else alistGet m k' := by
  induction m with
  | nil => by_cases h : k' = k <;> simp [alistDelete, alistGet, h]
  | cons p rest ih =>
    by_cases hp : p.1 = k
    · have : alistDelete (p :: rest) k = alistDelete rest k := by
        simp [alistDelete, List.filter_cons, hp]
      rw [this, ih]
      by_cases h : k' = k
      · simp [h]
      · have hp' : ¬ p.1 = k' := fun hx => h (by rw [← hx]; exact hp)
        simp [alistGet_cons, h, hp']
    · have : alistDelete (p :: rest) k = p :: alistDelete rest k := by
        simp [alistDelete, List.filter_cons, hp]
      rw [this, alistGet_cons, alistGet_cons, ih]
      by_cases h : k' = k
      · have hp' : ¬ p.1 = k' := fun hx => hp (by rw [hx]; exact h)
        simp [h, hp', hp]
      · simp [h]

theorem Index.find_empty (v : Value) : Index.empty.find v = [] := rfl

theorem Index.add_none (ix : Index) (n : Nat) : ix.add none n = ix := rfl

theorem Index.remove_none (ix : Index) (n : Nat) : ix.remove none n = ix := rfl

theorem Index.find_add_self (ix : Index) (v : Value) (n : Nat) :
    (ix.add (some v) n).find v = ix.find v ++ [n] := by
  simp [Index.add, Index.find, alistGet_set]

theorem Index.find_add_ne (ix : Index) (v u : Value) (n : Nat) (h : ¬ u = v) :
    (ix.add (some v) n).find u = ix.find u := by
  simp [Index.add, Index.find, alistGet_set, h]

theorem Index.find_remove_self (ix : Index) (v : Value) (n : Nat) :
    (ix.remove (some v) n).find v = (ix.find v).filter (fun i => ¬ i = n) := by
  cases hg : alistGet ix.entries v with
  | none => simp [Index.remove, Index.find, hg]
  | some l =>
    simp only [Index.remove, hg]
    by_cases he : (l.filter (fun i => ¬ i = n)).isEmpty
    · rw [if_pos he]
      have hnil : l.filter (fun i => ¬ i = n) = [] := by
        simpa using he
      simp only [Index.find, alistGet_delete, hg, if_true, Option.getD_none,
        Option.getD_some, hnil, if_pos trivial]
    · rw [if_neg he]
      simp [Index.find, alistGet_set, hg]

theorem Index.find_remove_ne (ix : Index) (v u : Value) (n : Nat)
    (h : ¬ u = v) :
    (ix.remove (some v) n).find u = ix.find u := by
  cases hg : alistGet ix.entries v with
  | none => simp [Index.remove, hg]
  | some l =>
    simp only [Index.remove, hg]
    by_cases he : (l.filter (fun i => ¬ i = n)).isEmpty
    · rw [if_pos he]
      simp [Index.find, alistGet_delete, h]
    · rw [if_neg he]
      simp [Index.find, alistGet_set, h]

/-! ## Row and index-fold step lemmas -/

theorem rowGet_rowSet_self (r : Row) (k : String) (v : Cell) :
    rowGet (rowSet r k v) k = some v := by
  simp [rowGet, rowSet, alistGet_set]

theorem rowGet_rowSet_ne (r : Row) (k k' : String) (v : Cell)
    (h : ¬ k' = k) : rowGet (rowSet r k v) k' = rowGet r k' := by
  simp [rowGet, rowSet, alistGet_set, h]

theorem jsGet_rowSet_self (r : Row) (k : String) (v : Cell) :
    jsGet (rowSet r k v) k = v := by
  simp [jsGet, rowGet_rowSet_self]

theorem jsGet_rowSet_ne (r : Row) (k k' : String) (v : Cell)
    (h : ¬ k' = k) : jsGet (rowSet r k v) k' = jsGet r k' := by
  simp [jsGet, rowGet_rowSet_ne _ _ _ _ h]

/-- A fold over the columns whose step leaves the key `k` untouched
preserves the lookup at `k`. -/
theorem foldl_get_congr {β : Type}
    (step : List (String × Index) → β → List (String × Index))
    (cols : List β) (idxs : List (String × Index)) (k : String)
    (hstep : ∀ m col, col ∈ cols → alistGet (step m col) k = alistGet m k) :
    alistGet (cols.foldl step idxs) k = alistGet idxs k := by
  induction cols generalizing idxs with
  | nil => rfl
  | cons c rest ih =>
    rw [List.foldl_cons, ih _ (fun m col hm => hstep m col (List.mem_cons_of_mem _ hm)),
      hstep idxs c (List.mem_cons_self _ _)]

theorem indexPassStep_get_ne (row : Row) (i : Nat)
    (m : List (String × Index)) (col : ColumnDefinition) (k : String)
    (h : ¬ col.name = k) :
    alistGet (indexPassStep row i m col) k = alistGet m k := by
  unfold indexPassStep
  by_cases hi : (col.primaryKey || col.unique) = true
  · simp only [hi, if_true]
    cases alistGet m col.name with
    | none => rfl
    | some ix =>
      cases hr : rowGet row col.name with
      | none => rfl
      | some c =>
        cases c with
        | none => rfl
        | some v =>
          rw [alistGet_set, if_neg (fun hk => h (hk : k = col.name).symm)]
  · simp [hi]

theorem deleteIndexStep_get_ne (row : Row) (i : Nat)
    (m : List (String × Index)) (col : ColumnDefinition) (k : String)
    (h : ¬ col.name = k) :
    alistGet (deleteIndexStep row i m col) k = alistGet m k := by
  unfold deleteIndexStep
  by_cases hi : (col.primaryKey || col.unique) = true
  · simp only [hi, if_true]
    cases alistGet m col.name with
    | none => rfl
    | some ix =>
      rw [alistGet_set, if_neg (fun hk => h (hk : k = col.name).symm)]
  · simp [hi]

theorem newIndexStep_get_ne (m : List (String × Index))
    (col : ColumnDefinition) (k : String) (h : ¬ col.name = k) :
    alistGet (newIndexStep m col) k = alistGet m k := by
  unfold newIndexStep
  by_cases hi : (col.primaryKey || col.unique) = true
  · simp only [hi, if_true]
    rw [alistGet_set, if_neg (fun hk => h (hk : k = col.name).symm)]
  · simp [hi]

/-! ## Index-fold characterizations -/

theorem alistGet_map_snd {κ α β : Type} [DecidableEq κ] (m : List (κ × α))
    (f : α → β) (k : κ) :
    alistGet (m.map (fun p => (p.1, f p.2))) k = (alistGet m k).map f := by
  induction m with
  | nil => rfl
  | cons p rest ih =>
    by_cases h : p.1 = k <;> simp [alistGet_cons, h, ih]

theorem foldl_indexPassStep_get (row : Row) (i : Nat)
    (cols : List ColumnDefinition) (idxs : List (String × Index))
    (col : ColumnDefinition) (hnd : (cols.map (·.name)).Nodup)
    (hmem : col ∈ cols) (hidx : (col.primaryKey || col.unique) = true) :
    alistGet (cols.foldl (indexPassStep row i) idxs) col.name =
      (alistGet idxs col.name).map (fun ix =>
        match rowGet row col.name with
        | some (some v) => ix.add (some v) i
        | _ => ix) := by
  induction cols generalizing idxs with
  | nil => cases hmem
  | cons c rest ih =>
    rw [List.map_cons, List.nodup_cons] at hnd
    rcases List.mem_cons.mp hmem with hc | hc
    · subst hc
      rw [List.foldl_cons,
        foldl_get_congr _ _ _ _ (fun m c2 hm2 =>
          indexPassStep_get_ne row i m c2 col.name
            (fun he => hnd.1 (he ▸ List.mem_map_of_mem (·.name) hm2)))]
      unfold indexPassStep
      rw [if_pos hidx]
      cases hg : alistGet idxs col.name with
      | none => simp [hg]
      | some ix =>
        cases hr : rowGet row col.name with
        | none => simp [hg, hr]
        | some c2 =>
          cases c2 with
          | none => simp [hg, hr]
          | some v => simp [alistGet_set, hg, hr]
    · have hne : ¬ c.name = col.name := fun he =>
        hnd.1 (he ▸ List.mem_map_of_mem (·.name) hc)
      rw [List.foldl_cons, ih _ hnd.2 hc]
      rw [indexPassStep_get_ne row i idxs c col.name hne]

theorem foldl_deleteIndexStep_get (row : Row) (i : Nat)
    (cols : List ColumnDefinition) (idxs : List (String × Index))
    (col : ColumnDefinition) (hnd : (cols.map (·.name)).Nodup)
    (hmem : col ∈ cols) (hidx : (col.primaryKey || col.unique) = true) :
    alistGet (cols.foldl (deleteIndexStep row i) idxs) col.name =
      (alistGet idxs col.name).map (fun ix =>
        ix.remove (jsGet row col.name) i) := by
  induction cols generalizing idxs with
  | nil => cases hmem
  | cons c rest ih =>
    rw [List.map_cons, List.nodup_cons] at hnd
    rcases List.mem_cons.mp hmem with hc | hc
    · subst hc
      rw [List.foldl_cons,
        foldl_get_congr _ _ _ _ (fun m c2 hm2 =>
          deleteIndexStep_get_ne row i m c2 col.name
            (fun he => hnd.1 (he ▸ List.mem_map_of_mem (·.name) hm2)))]
      unfold deleteIndexStep
      rw [if_pos hidx]
      cases hg : alistGet idxs col.name with
      | none => simp [hg]
      | some ix => simp [alistGet_set, hg]
    · have hne : ¬ c.name = col.name := fun he =>
        hnd.1 (he ▸ List.mem_map_of_mem (·.name) hc)
      rw [List.foldl_cons, ih _ hnd.2 hc]
      rw [deleteIndexStep_get_ne row i idxs c col.name hne]

theorem foldl_newIndexStep_get (cols : List ColumnDefinition)
    (m : List (String × Index)) (k : String) :
    alistGet (cols.foldl newIndexStep m) k =
      if cols.any (fun col => col.name = k && (col.primaryKey || col.unique))
      then some Index.empty else alistGet m k := by
  induction cols generalizing m with
  | nil => rfl
  | cons c rest ih =>
    rw [List.foldl_cons, ih]
    by_cases hi : (c.primaryKey || c.unique) = true
    · by_cases hk : c.name = k
      · have hany : (c :: rest).any
            (fun col => col.name = k && (col.primaryKey || col.unique)) = true := by
          simp [List.any_cons, hk, hi]
        rw [hany, if_pos rfl]
        by_cases hr : rest.any
            (fun col => col.name = k && (col.primaryKey || col.unique)) = true
        · rw [if_pos hr]
        · rw [if_neg hr]
          unfold newIndexStep
          rw [if_pos hi, hk, alistGet_set, if_pos rfl]
      · have : newIndexStep m c = alistSet m c.name Index.empty := by
          unfold newIndexStep; rw [if_pos hi]
        rw [this, alistGet_set, if_neg (fun he => hk (he : k = c.name).symm)]
        have : (c :: rest).any
            (fun col => col.name = k && (col.primaryKey || col.unique))
            = rest.any (fun col => col.name = k && (col.primaryKey || col.unique)) := by
          simp [List.any_cons, hk]
        rw [this]
    · have : newIndexStep m c = m := by
        unfold newIndexStep; rw [if_neg hi]
      rw [this]
      have : (c :: rest).any
          (fun col => col.name = k && (col.primaryKey || col.unique))
          = rest.any (fun col => col.name = k && (col.primaryKey || col.unique)) := by
        simp only [List.any_cons, Bool.or_eq_true]
        simp [hi]
      rw [this]

/-! ## Position lists and rebuild synchronisation -/

theorem matchesAt_nil (c : String) (v : Value) (i : Nat) :
    ¬ matchesAt [] c v i := by
  simp [matchesAt]

theorem matchesAt_cons (r : Row) (rest : List Row) (c : String) (v : Value)
    (i : Nat) :
    matchesAt (r :: rest) c v i ↔
      (i = 0 ∧ jsGet r c = some v) ∨
      (∃ j, i = j + 1 ∧ matchesAt rest c v j) := by
  cases i with
  | zero => simp [matchesAt]
  | succ j =>
    simp only [matchesAt, List.getElem?_cons_succ]
    constructor
    · rintro ⟨row, hrow, hv⟩
      exact Or.inr ⟨j, rfl, row, hrow, hv⟩
    · rintro (⟨h0, _⟩ | ⟨j2, hj2, row, hrow, hv⟩)
      · omega
      · have : j2 = j := by omega
        subst this
        exact ⟨row, hrow, hv⟩

theorem posOf_ge (c : String) (v : Value) :
    ∀ (rows : List Row) (i0 i : Nat), i ∈ posOf c v rows i0 → i0 ≤ i := by
  intro rows
  induction rows with
  | nil => intro i0 i h; simp [posOf] at h
  | cons r rest ih =>
    intro i0 i h
    by_cases hr : jsGet r c = some v
    · simp only [posOf, if_pos hr, List.mem_cons] at h
      rcases h with h | h
      · omega
      · have := ih (i0 + 1) i h; omega
    · simp only [posOf, if_neg hr] at h
      have := ih (i0 + 1) i h; omega

theorem posOf_nodup (c : String) (v : Value) :
    ∀ (rows : List Row) (i0 : Nat), (posOf c v rows i0).Nodup := by
  intro rows
  induction rows with
  | nil => intro i0; simp [posOf]
  | cons r rest ih =>
    intro i0
    by_cases hr : jsGet r c = some v
    · simp only [posOf, if_pos hr, List.nodup_cons]
      exact ⟨fun hmem => by have := posOf_ge c v rest (i0 + 1) i0 hmem; omega,
        ih (i0 + 1)⟩
    · simp only [posOf, if_neg hr]
      exact ih (i0 + 1)

theorem posOf_mem_iff (c : String) (v : Value) :
    ∀ (rows : List Row) (i0 i : Nat),
      i ∈ posOf c v rows i0 ↔ (i0 ≤ i ∧ matchesAt rows c v (i - i0)) := by
  intro rows
  induction rows with
  | nil =>
    intro i0 i
    simp [posOf, matchesAt]
  | cons r rest ih =>
    intro i0 i
    by_cases hr : jsGet r c = some v
    · simp only [posOf, if_pos hr, List.mem_cons, ih (i0 + 1) i,
        matchesAt_cons]
      constructor
      · rintro (h | ⟨hle, hm⟩)
        · exact ⟨by omega, Or.inl ⟨by omega, hr⟩⟩
        · exact ⟨by omega, Or.inr ⟨i - i0 - 1, by omega, by
            have : i - (i0 + 1) = i - i0 - 1 := by omega
            exact this ▸ hm⟩⟩
      · rintro ⟨hle, (⟨h0, _⟩ | ⟨j, hj, hm⟩)⟩
        · exact Or.inl (by omega)
        · exact Or.inr ⟨by omega, by
            have : i - (i0 + 1) = j := by omega
            exact this ▸ hm⟩
    · simp only [posOf, if_neg hr, ih (i0 + 1) i, matchesAt_cons]
      constructor
      · rintro ⟨hle, hm⟩
        exact ⟨by omega, Or.inr ⟨i - i0 - 1, by omega, by
          have : i - (i0 + 1) = i - i0 - 1 := by omega
          exact this ▸ hm⟩⟩
      · rintro ⟨hle, (⟨h0, hv⟩ | ⟨j, hj, hm⟩)⟩
        · exact absurd hv hr
        · exact ⟨by omega, by
            have : i - (i0 + 1) = j := by omega
            exact this ▸ hm⟩

/-- A fresh table's indexes are in sync (everything is empty). -/
theorem sync_new (schema : TableSchema) : SyncP (Table.new schema) := by
  intro col hmem hidx
  refine ⟨Index.empty, ?_, ?_⟩
  · show alistGet (schema.columns.foldl newIndexStep []) col.name = _
    rw [foldl_newIndexStep_get, if_pos]
    rw [List.any_eq_true]
    exact ⟨col, hmem, by simp [hidx]⟩
  · intro v
    refine ⟨by simp [Index.find_empty], fun i => ?_⟩
    simp [Index.find_empty, matchesAt, Table.new]

theorem alistGet_clear (m : List (String × Index)) (k : String) :
    alistGet (m.map (fun p => (p.1, Index.empty))) k =
      (alistGet m k).map (fun _ => Index.empty) := by
  induction m with
  | nil => rfl
  | cons p rest ih =>
    by_cases h : p.1 = k <;> simp [alistGet_cons, h, ih]

theorem rebuildAdd_find (schema : TableSchema) (col : ColumnDefinition)
    (hnd : NodupCols schema) (hmem : col ∈ schema.columns)
    (hidx : (col.primaryKey || col.unique) = true) :
    ∀ (rows : List Row) (i0 : Nat) (idxs : List (String × Index)) (ix : Index),
      alistGet idxs col.name = some ix →
      ∃ ix', alistGet (rebuildAdd schema rows i0 idxs) col.name = some ix' ∧
        ∀ v, ix'.find v = ix.find v ++ posOf col.name v rows i0 := by
  intro rows
  induction rows with
  | nil =>
    intro i0 idxs ix hget
    exact ⟨ix, hget, fun v => by simp [posOf]⟩
  | cons row rest ih =>
    intro i0 idxs ix hget
    have hpass : alistGet (insertIndexPass schema row i0 idxs) col.name =
        some (match rowGet row col.name with
          | some (some v) => ix.add (some v) i0
          | _ => ix) := by
      show alistGet (schema.columns.foldl (indexPassStep row i0) idxs) col.name = _
      rw [foldl_indexPassStep_get row i0 schema.columns idxs col hnd hmem hidx,
        hget]
      rfl
    cases hr : rowGet row col.name with
    | none =>
      rw [hr] at hpass
      obtain ⟨ix', hget', hfind⟩ := ih (i0 + 1) _ _ hpass
      refine ⟨ix', hget', fun v => ?_⟩
      rw [hfind v]
      have hjs : ¬ jsGet row col.name = some v := by simp [jsGet, hr]
      simp [posOf, hjs, rebuildAdd]
    | some cell =>
      cases cell with
      | none =>
        rw [hr] at hpass
        obtain ⟨ix', hget', hfind⟩ := ih (i0 + 1) _ _ hpass
        refine ⟨ix', hget', fun v => ?_⟩
        rw [hfind v]
        have hjs : ¬ jsGet row col.name = some v := by simp [jsGet, hr]
        simp [posOf, hjs, rebuildAdd]
      | some v0 =>
        rw [hr] at hpass
        obtain ⟨ix', hget', hfind⟩ := ih (i0 + 1) _ _ hpass
        refine ⟨ix', hget', fun v => ?_⟩
        rw [hfind v]
        have hjs : jsGet row col.name = some v0 := by simp [jsGet, hr]
        by_cases hv : v = v0
        · subst hv
          rw [Index.find_add_self]
          simp [posOf, hjs]
        · rw [Index.find_add_ne _ _ _ _ hv]
          have : ¬ jsGet row col.name = some v := by
            rw [hjs]; exact fun hc => hv (Option.some_injective _ hc).symm
          simp [posOf, this]

/-- `rebuildIndexes` restores full synchronisation, whatever the index
contents were, as long as every indexed column has an index entry. -/
theorem sync_rebuildIndexes (t : Table) (hnd : NodupCols t.schema)
    (hhas : ∀ col ∈ t.schema.columns, (col.primaryKey || col.unique) = true →
      (alistGet t.indexes col.name).isSome = true) :
    SyncP (rebuildIndexes t) := by
  intro col hmem hidx
  obtain ⟨ix0, hix0⟩ := Option.isSome_iff_exists.mp (hhas col hmem hidx)
  have hclear : alistGet (t.indexes.map (fun p => (p.1, Index.empty)))
      col.name = some Index.empty := by
    rw [alistGet_clear, hix0]
    rfl
  obtain ⟨ix', hget', hfind⟩ :=
    rebuildAdd_find t.schema col hnd hmem hidx t.rows 0 _ _ hclear
  refine ⟨ix', hget', fun v => ?_⟩
  rw [hfind v, Index.find_empty, List.nil_append]
  refine ⟨posOf_nodup _ _ _ _, fun i => ?_⟩
  rw [posOf_mem_iff]
  simp [rebuildIndexes]

/-! ## Delete: counts, idempotence (claim C6) -/

/-! Lemmas about `collectIdx`, `deleteLoop` and `Table.delete`. -/

theorem collectIdx_succ (pred : Row → Bool) :
    ∀ (rows : List Row) (i0 : Nat),
      collectIdx pred rows (i0 + 1) = (collectIdx pred rows i0).map (· + 1) := by
  intro rows
  induction rows with
  | nil => intro i0; rfl
  | cons r rest ih =>
    intro i0
    by_cases h : pred r <;> simp [collectIdx, h, ih]

theorem collectIdx_length (pred : Row → Bool) :
    ∀ (rows : List Row) (i0 : Nat),
      (collectIdx pred rows i0).length = (rows.filter pred).length := by
  intro rows
  induction rows with
  | nil => intro i0; rfl
  | cons r rest ih =>
    intro i0
    by_cases h : pred r <;> simp [collectIdx, h, ih, List.filter_cons]

theorem collectIdx_nil_of_no_match (pred : Row → Bool) :
    ∀ (rows : List Row) (i0 : Nat), (∀ r ∈ rows, pred r = false) →
      collectIdx pred rows i0 = [] := by
  intro rows
  induction rows with
  | nil => intro i0 _; rfl
  | cons r rest ih =>
    intro i0 h
    have hr := h r (List.mem_cons_self _ _)
    simp only [collectIdx, hr, Bool.false_eq_true, if_false]
    exact ih _ (fun r2 hr2 => h r2 (List.mem_cons_of_mem _ hr2))

theorem deleteLoop_fst (schema : TableSchema) :
    ∀ (l : List Nat) (rows : List Row) (idxs : List (String × Index)),
      (deleteLoop schema l rows idxs).1 =
        l.foldl (fun rs i => rs.eraseIdx i) rows := by
  intro l
  induction l with
  | nil => intro rows idxs; rfl
  | cons i rest ih => intro rows idxs; simp [deleteLoop, ih]

theorem foldl_erase_map_succ :
    ∀ (l : List Nat) (r : Row) (rows : List Row),
      (l.map (· + 1)).foldl (fun rs i => rs.eraseIdx i) (r :: rows) =
        r :: l.foldl (fun rs i => rs.eraseIdx i) rows := by
  intro l
  induction l with
  | nil => intro r rows; rfl
  | cons i rest ih =>
    intro r rows
    simp only [List.map_cons, List.foldl_cons, List.eraseIdx_cons_succ]
    exact ih r _

theorem erase_collect (pred : Row → Bool) :
    ∀ rows : List Row,
      ((collectIdx pred rows 0).reverse).foldl
          (fun rs i => rs.eraseIdx i) rows
        = rows.filter (fun r => ¬ pred r) := by
  intro rows
  induction rows with
  | nil => rfl
  | cons r rest ih =>
    by_cases h : pred r
    · simp only [collectIdx, h, if_true, collectIdx_succ, List.reverse_cons,
        List.foldl_append, List.foldl_cons, List.foldl_nil, List.filter_cons, h]
      rw [← List.map_reverse, foldl_erase_map_succ, ih]
      simp [h]
    · simp only [collectIdx, h, Bool.false_eq_true, if_false, collectIdx_succ,
        List.filter_cons]
      rw [← List.map_reverse, foldl_erase_map_succ, ih]
      simp [h]

theorem length_filter_not_add (pred : Row → Bool) (rows : List Row) :
    (rows.filter (fun r => ¬ pred r)).length + (rows.filter pred).length
      = rows.length := by
  induction rows with
  | nil => rfl
  | cons r rest ih =>
    by_cases h : pred r
    · rw [List.filter_cons, List.filter_cons, if_neg (by simp [h]),
        if_pos (by simp [h])]
      simp only [List.length_cons]
      omega
    · rw [List.filter_cons, List.filter_cons, if_pos (by simp [h]),
        if_neg (by simp [h])]
      simp only [List.length_cons]
      omega

theorem alistSet_keys_of_isSome {κ α : Type} [DecidableEq κ]
    (m : List (κ × α)) (k : κ) (v : α)
    (h : (m.find? (fun p => p.1 = k)).isSome = true) :
    (alistSet m k v).map (·.1) = m.map (·.1) := by
  unfold alistSet
  rw [if_pos h, List.map_map]
  apply List.map_congr_left
  intro p _
  by_cases hp : p.1 = k <;> simp [hp]

theorem alistGet_isSome_find {κ α : Type} [DecidableEq κ]
    (m : List (κ × α)) (k : κ) (h : (alistGet m k).isSome = true) :
    (m.find? (fun p => p.1 = k)).isSome = true := by
  unfold alistGet at h
  simpa using h

theorem deleteIndexStep_keys (row : Row) (i : Nat)
    (m : List (String × Index)) (col : ColumnDefinition) :
    (deleteIndexStep row i m col).map (·.1) = m.map (·.1) := by
  unfold deleteIndexStep
  by_cases hi : (col.primaryKey || col.unique) = true
  · rw [if_pos hi]
    cases hg : alistGet m col.name with
    | none => rfl
    | some ix =>
      exact alistSet_keys_of_isSome m col.name _
        (alistGet_isSome_find m col.name (by rw [hg]; rfl))
  · rw [if_neg hi]

theorem indexPassStep_keys (row : Row) (i : Nat)
    (m : List (String × Index)) (col : ColumnDefinition) :
    (indexPassStep row i m col).map (·.1) = m.map (·.1) := by
  unfold indexPassStep
  by_cases hi : (col.primaryKey || col.unique) = true
  · rw [if_pos hi]
    cases hg : alistGet m col.name with
    | none => rfl
    | some ix =>
      cases hr : rowGet row col.name with
      | none => rfl
      | some cell =>
        cases cell with
        | none => rfl
        | some v =>
          exact alistSet_keys_of_isSome m col.name _
            (alistGet_isSome_find m col.name (by rw [hg]; rfl))
  · rw [if_neg hi]

theorem foldl_keys {β : Type}
    (step : List (String × Index) → β → List (String × Index))
    (cols : List β) (idxs : List (String × Index))
    (hstep : ∀ m col, col ∈ cols → (step m col).map (·.1) = m.map (·.1)) :
    (cols.foldl step idxs).map (·.1) = idxs.map (·.1) := by
  induction cols generalizing idxs with
  | nil => rfl
  | cons c rest ih =>
    rw [List.foldl_cons, ih _ (fun m col hm => hstep m col (List.mem_cons_of_mem _ hm)),
      hstep idxs c (List.mem_cons_self _ _)]

theorem rebuildAdd_keys (schema : TableSchema) :
    ∀ (rows : List Row) (i : Nat) (idxs : List (String × Index)),
      (rebuildAdd schema rows i idxs).map (·.1) = idxs.map (·.1) := by
  intro rows
  induction rows with
  | nil => intro i idxs; rfl
  | cons row rest ih =>
    intro i idxs
    show (rebuildAdd schema rest (i + 1) (insertIndexPass schema row i idxs)).map _ = _
    rw [ih]
    exact foldl_keys _ _ _ (fun m col _ => indexPassStep_keys row i m col)

theorem deleteLoop_snd_keys (schema : TableSchema) :
    ∀ (l : List Nat) (rows : List Row) (idxs : List (String × Index)),
      ((deleteLoop schema l rows idxs).2).map (·.1) = idxs.map (·.1) := by
  intro l
  induction l with
  | nil => intro rows idxs; rfl
  | cons i rest ih =>
    intro rows idxs
    show ((deleteLoop schema rest _ _).2).map _ = _
    rw [ih]
    exact foldl_keys _ _ _ (fun m col _ => deleteIndexStep_keys _ i m col)

theorem map_clear_of_keys_eq (m1 m2 : List (String × Index))
    (h : m1.map (·.1) = m2.map (·.1)) :
    m1.map (fun p => (p.1, Index.empty)) = m2.map (fun p => (p.1, Index.empty)) := by
  have key : ∀ m : List (String × Index),
      m.map (fun p => (p.1, Index.empty))
        = (m.map (·.1)).map (fun n => (n, Index.empty)) := by
    intro m; rw [List.map_map]; rfl
  rw [key, key, h]

theorem rebuildIndexes_def (t : Table) :
    rebuildIndexes t = ⟨t.schema, t.rows,
      rebuildAdd t.schema t.rows 0
        (t.indexes.map (fun p => (p.1, Index.empty)))⟩ := rfl

/-- Rebuilding twice is the same as rebuilding once. -/
theorem rebuild_rebuild (t : Table) :
    rebuildIndexes (rebuildIndexes t) = rebuildIndexes t := by
  have hkeys : (rebuildIndexes t).indexes.map (·.1) = t.indexes.map (·.1) := by
    rw [rebuildIndexes_def]
    show (rebuildAdd t.schema t.rows 0
      (t.indexes.map (fun p => (p.1, Index.empty)))).map (·.1) = _
    rw [rebuildAdd_keys, List.map_map]
    rfl
  have hclear : (rebuildIndexes t).indexes.map (fun p => (p.1, Index.empty))
      = t.indexes.map (fun p => (p.1, Index.empty)) :=
    map_clear_of_keys_eq _ _ hkeys
  rw [rebuildIndexes_def (rebuildIndexes t),
    show (rebuildIndexes t).schema = t.schema from rfl,
    show (rebuildIndexes t).rows = t.rows from rfl, hclear]
  exact (rebuildIndexes_def t).symm

theorem delete_eq (t : Table) (pred : Row → Bool) :
    Table.delete t pred = ((collectIdx pred t.rows 0).length,
      rebuildIndexes ⟨t.schema,
        (deleteLoop t.schema (collectIdx pred t.rows 0).reverse t.rows t.indexes).1,
        (deleteLoop t.schema (collectIdx pred t.rows 0).reverse t.rows t.indexes).2⟩) :=
  rfl

theorem delete_fst (t : Table) (pred : Row → Bool) :
    (Table.delete t pred).1 = (t.rows.filter pred).length := by
  rw [delete_eq]
  exact collectIdx_length pred t.rows 0

theorem delete_rows (t : Table) (pred : Row → Bool) :
    (Table.delete t pred).2.rows = t.rows.filter (fun r => ¬ pred r) := by
  rw [delete_eq]
  show (deleteLoop t.schema (collectIdx pred t.rows 0).reverse t.rows t.indexes).1
    = _
  rw [deleteLoop_fst]
  exact erase_collect pred t.rows

theorem delete_delete (t : Table) (pred : Row → Bool) :
    Table.delete ((Table.delete t pred).2) pred = (0, (Table.delete t pred).2) := by
  have hnomatch : ∀ r ∈ (Table.delete t pred).2.rows, pred r = false := by
    rw [delete_rows]
    intro r hr
    have := (List.mem_filter.mp hr).2
    simpa using this
  have hcol : collectIdx pred (Table.delete t pred).2.rows 0 = [] :=
    collectIdx_nil_of_no_match pred _ 0 hnomatch
  have ht1 : rebuildIndexes (Table.delete t pred).2 = (Table.delete t pred).2 := by
    rw [delete_eq]
    exact rebuild_rebuild _
  rw [delete_eq ((Table.delete t pred).2), hcol]
  simp only [List.length_nil, List.reverse_nil]
  rw [show (deleteLoop (Table.delete t pred).2.schema []
      (Table.delete t pred).2.rows (Table.delete t pred).2.indexes)
    = ((Table.delete t pred).2.rows, (Table.delete t pred).2.indexes) from rfl]
  rw [show (⟨(Table.delete t pred).2.schema, (Table.delete t pred).2.rows,
      (Table.delete t pred).2.indexes⟩ : Table) = (Table.delete t pred).2 from rfl]
  rw [ht1]

/-- **C6** (delete count and idempotence): if the predicate matches exactly
`k` rows then `Table.delete` returns `k` and the row count decreases by
exactly `k`; immediately re-running the same delete returns `0` and leaves
the table (rows and indexes) unchanged. -/
theorem C6_delete_count_and_idempotence (t : Table) (pred : Row → Bool)
    (k : Nat) (h : (t.rows.filter pred).length = k) :
    (Table.delete t pred).1 = k ∧
    (Table.delete t pred).2.rows.length + k = t.rows.length ∧
    Table.delete (Table.delete t pred).2 pred = (0, (Table.delete t pred).2) := by
  refine ⟨h ▸ delete_fst t pred, ?_, delete_delete t pred⟩
  rw [delete_rows, ← h]
  exact length_filter_not_add pred t.rows

/-- Witness for C6 on a concrete two-row table and predicate matching one row. -/
theorem C6_delete_count_and_idempotence_witness :
    (tableT2.rows.filter (fun r => jsGet r "id" == some (Value.num 1))).length = 1 ∧
    (Table.delete tableT2 (fun r => jsGet r "id" == some (Value.num 1))).1 = 1 ∧
    (Table.delete tableT2 (fun r => jsGet r "id" == some (Value.num 1))).2.rows.length + 1
      = tableT2.rows.length ∧
    Table.delete (Table.delete tableT2 (fun r => jsGet r "id" == some (Value.num 1))).2
        (fun r => jsGet r "id" == some (Value.num 1))
      = (0, (Table.delete tableT2 (fun r => jsGet r "id" == some (Value.num 1))).2) :=
  ⟨by decide,
    C6_delete_count_and_idempotence tableT2
      (fun r => jsGet r "id" == some (Value.num 1)) 1 (by decide)⟩

/-! ## Join characterization (claim C7) -/

theorem joinOneLeft_eq (ltn rtn lc rc : String) (lr : Row) :
    ∀ rrows : List Row,
      joinOneLeft ltn rtn lc rc lr rrows =
        (((rrows.filter (fun rr => rowGet lr lc = rowGet rr rc)).map
            (fun rr => addQualified rtn rr (addQualified ltn lr []))),
          !(rrows.filter (fun rr => rowGet lr lc = rowGet rr rc)).isEmpty) := by
  intro rrows
  induction rrows with
  | nil => rfl
  | cons rr rest ih =>
    by_cases h : rowGet lr lc = rowGet rr rc
    · simp [joinOneLeft, ih, List.filter_cons, h]
    · simp [joinOneLeft, ih, List.filter_cons, h]

theorem executeJoin_cons (lr : Row) (rest rrows : List Row) (jt : JoinType)
    (olc orc ltn rtn : String) :
    executeJoin (lr :: rest) rrows jt olc orc ltn rtn =
      (if (!(joinOneLeft ltn rtn (String.mk ((splitOnChar '.' olc.data).getD 1 []))
              (String.mk ((splitOnChar '.' orc.data).getD 1 [])) lr rrows).2
            && decide (jt = JoinType.left)) = true
       then (joinOneLeft ltn rtn (String.mk ((splitOnChar '.' olc.data).getD 1 []))
              (String.mk ((splitOnChar '.' orc.data).getD 1 [])) lr rrows).1
            ++ [addQualified ltn lr []] ++ executeJoin rest rrows jt olc orc ltn rtn
       else (joinOneLeft ltn rtn (String.mk ((splitOnChar '.' olc.data).getD 1 []))
              (String.mk ((splitOnChar '.' orc.data).getD 1 [])) lr rrows).1
            ++ executeJoin rest rrows jt olc orc ltn rtn) := rfl

theorem executeJoin_cons_left (lr : Row) (rest rrows : List Row)
    (olc orc ltn rtn : String) :
    executeJoin (lr :: rest) rrows JoinType.left olc orc ltn rtn =
      (if (rrows.filter (fun rr =>
            rowGet lr (String.mk ((splitOnChar '.' olc.data).getD 1 []))
              = rowGet rr (String.mk ((splitOnChar '.' orc.data).getD 1 [])))).isEmpty
       then [addQualified ltn lr []]
       else (rrows.filter (fun rr =>
            rowGet lr (String.mk ((splitOnChar '.' olc.data).getD 1 []))
              = rowGet rr (String.mk ((splitOnChar '.' orc.data).getD 1 [])))).map
          (fun rr => addQualified rtn rr (addQualified ltn lr [])))
      ++ executeJoin rest rrows JoinType.left olc orc ltn rtn := by
  rw [executeJoin_cons, joinOneLeft_eq]
  by_cases he : (rrows.filter (fun rr =>
      rowGet lr (String.mk ((splitOnChar '.' olc.data).getD 1 []))
        = rowGet rr (String.mk ((splitOnChar '.' orc.data).getD 1 [])))).isEmpty
  · have hnil : rrows.filter (fun rr =>
        rowGet lr (String.mk ((splitOnChar '.' olc.data).getD 1 []))
          = rowGet rr (String.mk ((splitOnChar '.' orc.data).getD 1 []))) = [] := by
      simpa using he
    simp only [he, hnil, List.map_nil, Bool.not_false, Bool.and_self,
      decide_eq_true_eq, if_true, List.nil_append, if_pos trivial]
    rfl
  · have he' : (rrows.filter (fun rr =>
        rowGet lr (String.mk ((splitOnChar '.' olc.data).getD 1 []))
          = rowGet rr (String.mk ((splitOnChar '.' orc.data).getD 1 [])))).isEmpty = false := by
      simpa using he
    simp only [he', Bool.not_true, Bool.false_and, Bool.false_eq_true, if_false]
    rfl

theorem executeJoin_cons_inner (lr : Row) (rest rrows : List Row)
    (olc orc ltn rtn : String) :
    executeJoin (lr :: rest) rrows JoinType.inner olc orc ltn rtn =
      ((rrows.filter (fun rr =>
            rowGet lr (String.mk ((splitOnChar '.' olc.data).getD 1 []))
              = rowGet rr (String.mk ((splitOnChar '.' orc.data).getD 1 [])))).map
          (fun rr => addQualified rtn rr (addQualified ltn lr [])))
      ++ executeJoin rest rrows JoinType.inner olc orc ltn rtn := by
  rw [executeJoin_cons, joinOneLeft_eq]
  have : decide (JoinType.inner = JoinType.left) = false := by decide
  simp only [this, Bool.and_false, Bool.false_eq_true, if_false]

/-- **C7** (LEFT JOIN emits unmatched left rows without null padding):
over every left row, `executeJoin` emits one combined requalified row per
matching right row; with a LEFT join, a left row with zero matches is
emitted exactly once, requalified with only its own columns
(`addQualified` of the left row into an empty row — no right-side keys,
no null padding); with an INNER join such rows are dropped entirely. -/
theorem C7_left_join_unmatched_rows (leftRows rightRows : List Row)
    (onLeftColumn onRightColumn leftTableName rightTableName : String) :
    (executeJoin leftRows rightRows JoinType.left onLeftColumn onRightColumn
        leftTableName rightTableName =
      List.flatMap leftRows (fun lr =>
        if (rightRows.filter (fun rr =>
              rowGet lr (String.mk ((splitOnChar '.' onLeftColumn.data).getD 1 []))
                = rowGet rr (String.mk ((splitOnChar '.' onRightColumn.data).getD 1 [])))).isEmpty
        then [addQualified leftTableName lr []]
        else (rightRows.filter (fun rr =>
              rowGet lr (String.mk ((splitOnChar '.' onLeftColumn.data).getD 1 []))
                = rowGet rr (String.mk ((splitOnChar '.' onRightColumn.data).getD 1 [])))).map
          (fun rr =>
            addQualified rightTableName rr (addQualified leftTableName lr []))))
    ∧
    (executeJoin leftRows rightRows JoinType.inner onLeftColumn onRightColumn
        leftTableName rightTableName =
      List.flatMap leftRows (fun lr =>
        (rightRows.filter (fun rr =>
          rowGet lr (String.mk ((splitOnChar '.' onLeftColumn.data).getD 1 []))
            = rowGet rr (String.mk ((splitOnChar '.' onRightColumn.data).getD 1 [])))).map
          (fun rr =>
            addQualified rightTableName rr
              (addQualified leftTableName lr [])))) := by
  constructor
  · induction leftRows with
    | nil => rfl
    | cons lr rest ih =>
      rw [executeJoin_cons_left, List.flatMap_cons, ih]
  · induction leftRows with
    | nil => rfl
    | cons lr rest ih =>
      rw [executeJoin_cons_inner, List.flatMap_cons, ih]

/-! ## Column-type normalization (claim C9) -/

theorem isPrefixOf_head {a : Char} {p t : List Char}
    (h : (a :: p).isPrefixOf t = true) : ∃ t', t = a :: t' := by
  cases t with
  | nil => simp [List.isPrefixOf] at h
  | cons b t' =>
    simp [List.isPrefixOf] at h
    exact ⟨t', by rw [h.1]⟩

/-- The parse of `CREATE TABLE t (a integer)` records column type `string`:
`/^int(er)?$/i` matches only `int` and `inter`, not `integer`, which falls
through to the default, refuting "`integer` yields declared type number". -/
theorem C9_counterexample_integer :
    parse "CREATE TABLE t (a integer)" =
      .ok (.createTable "t"
        [{ name := "a", type := ColumnType.string, primaryKey := false,
           unique := false, nullable := true }]) ∧
    normalizeColumnType "integer".data = ColumnType.string := by
  exact ⟨by rfl, by rfl⟩

/-- **C9 (amended)**: type tokens normalize as the regexes dictate —
`serial...`, `int`, `inter`, `number`, `bigint...` give `number` (the token
`integer` is *not* among them and gives `string`); `varchar(...)`,
`char(...)`, `text`, `timestamp...` give `string`; `bool`/`boolean` give
`boolean`; and **every** token outside those families silently gives
`string` (the normalizer is total, so the statement is never rejected —
`CREATE TABLE t (a blob)` parses fine with column type `string`). -/
theorem C9_column_type_normalization_amended :
    (∀ t : List Char,
      (("serial".data.isPrefixOf t = true ∨ t = "int".data ∨ t = "inter".data
          ∨ t = "number".data ∨ "bigint".data.isPrefixOf t = true) →
        normalizeColumnType t = ColumnType.number)
      ∧ (("varchar(".data.isPrefixOf t = true
          ∨ "char(".data.isPrefixOf t = true
          ∨ t = "text".data ∨ "timestamp".data.isPrefixOf t = true) →
        normalizeColumnType t = ColumnType.string)
      ∧ ((t = "bool".data ∨ t = "boolean".data) →
        normalizeColumnType t = ColumnType.boolean)
      ∧ (¬ ("varchar(".data.isPrefixOf t = true
            ∨ "char(".data.isPrefixOf t = true
            ∨ t = "text".data ∨ "timestamp".data.isPrefixOf t = true) →
         ¬ ("serial".data.isPrefixOf t = true ∨ t = "int".data
            ∨ t = "inter".data ∨ t = "number".data
            ∨ "bigint".data.isPrefixOf t = true) →
         ¬ (t = "bool".data ∨ t = "boolean".data) →
        normalizeColumnType t = ColumnType.string))
    ∧ normalizeColumnType "integer".data = ColumnType.string
    ∧ parse "CREATE TABLE t (a blob)" =
        .ok (.createTable "t"
          [{ name := "a", type := ColumnType.string, primaryKey := false,
             unique := false, nullable := true }]) := by
  refine ⟨fun t => ⟨?_, ?_, ?_, ?_⟩, by rfl, by rfl⟩
  · rintro (hp | rfl | rfl | rfl | hp)
    · obtain ⟨t2, rfl⟩ := isPrefixOf_head (p := "erial".data) hp
      simp [normalizeColumnType, List.isPrefixOf] at hp ⊢
      simp [hp]
    · rfl
    · rfl
    · rfl
    · obtain ⟨t2, rfl⟩ := isPrefixOf_head (p := "igint".data) hp
      simp [normalizeColumnType, List.isPrefixOf] at hp ⊢
      simp [hp]
  · rintro (hp | hp | rfl | hp)
    · obtain ⟨t2, rfl⟩ := isPrefixOf_head (p := "archar(".data) hp
      simp [normalizeColumnType, List.isPrefixOf] at hp ⊢
    · obtain ⟨t2, rfl⟩ := isPrefixOf_head (p := "har(".data) hp
      simp [normalizeColumnType, List.isPrefixOf] at hp ⊢
    · rfl
    · obtain ⟨t2, rfl⟩ := isPrefixOf_head (p := "imestamp".data) hp
      simp [normalizeColumnType, List.isPrefixOf] at hp ⊢
  · rintro (rfl | rfl) <;> rfl
  · intro h1 h2 h3
    unfold normalizeColumnType
    rw [if_neg (by
      simp only [Bool.or_eq_true, decide_eq_true_eq]
      exact fun hc => h1 (by tauto))]
    rw [if_neg (by
      simp only [Bool.or_eq_true, decide_eq_true_eq]
      exact fun hc => h2 (by tauto))]
    rw [if_neg (by
      simp only [Bool.or_eq_true, decide_eq_true_eq]
      exact fun hc => h3 (by tauto))]

/-- Witness instantiating the amended C9 at concrete tokens, including an
unrecognized one. -/
theorem C9_column_type_normalization_amended_witness :
    normalizeColumnType "serial".data = ColumnType.number ∧
    normalizeColumnType "int".data = ColumnType.number ∧
    normalizeColumnType "varchar(255)".data = ColumnType.string ∧
    normalizeColumnType "boolean".data = ColumnType.boolean ∧
    normalizeColumnType "blob".data = ColumnType.string := by
  refine ⟨(C9_column_type_normalization_amended.1 "serial".data).1
      (Or.inl (by decide)),
    (C9_column_type_normalization_amended.1 "int".data).1
      (Or.inr (Or.inl (by decide))),
    (C9_column_type_normalization_amended.1 "varchar(255)".data).2.1
      (Or.inl (by decide)),
    (C9_column_type_normalization_amended.1 "boolean".data).2.2.1
      (Or.inr (by decide)),
    (C9_column_type_normalization_amended.1 "blob".data).2.2.2
      (by decide) (by decide) (by decide)⟩

/-! ## Pointwise character facts used in the symbolic regex proofs -/

theorem isDigit_not_space {d : Char} (h : d.isDigit = true) :
    isSpaceChar d = false := by
  unfold isSpaceChar
  by_contra hc
  have hws : d.isWhitespace = true := by
    cases hx : d.isWhitespace
    · exact absurd hx hc
    · rfl
  rcases (by simpa [Char.isWhitespace] using hws :
      ((d = ' ' ∨ d = '\t') ∨ d = '\x0d') ∨ d = '\n') with
    ((rfl | rfl) | rfl) | rfl <;> simp at h

theorem isWordChar_not_space {w : Char} (h : isWordChar w = true) :
    isSpaceChar w = false := by
  unfold isSpaceChar
  by_contra hc
  have hws : w.isWhitespace = true := by
    cases hx : w.isWhitespace
    · exact absurd hx hc
    · rfl
  rcases (by simpa [Char.isWhitespace] using hws :
      ((w = ' ' ∨ w = '\t') ∨ w = '\x0d') ∨ w = '\n') with
    ((rfl | rfl) | rfl) | rfl <;>
    simp [isWordChar, Char.isAlpha, Char.isUpper, Char.isLower,
      Char.isDigit] at h

theorem isDigit_toLower {d : Char} (h : d.isDigit = true) :
    d.toLower = d := by
  unfold Char.toLower
  rw [if_neg]
  intro hc
  have h1 : d.val ≤ 57 := by
    simp [Char.isDigit] at h
    exact h.2
  have h2 : 65 ≤ Char.toNat d := hc.1
  unfold Char.toNat at h2
  have h3 : d.val.toNat ≤ 57 := h1
  omega

theorem isDigit_ne_newline {d : Char} (h : d.isDigit = true) :
    ¬ d = '\n' := by
  rintro rfl
  simp at h

theorem isDigit_ne_quote {d : Char} (h : d.isDigit = true) :
    ¬ d = '\'' := by
  rintro rfl
  simp at h

/-! ## Compound comparison operators (claim C8) -/

theorem takeWhile_all_append (p : Char → Bool) (c m : List Char)
    (hc : ∀ x ∈ c, p x = true) :
    (c ++ m).takeWhile p = c ++ m.takeWhile p := by
  induction c with
  | nil => rfl
  | cons x rest ih =>
    simp only [List.cons_append, List.takeWhile_cons,
      hc x (List.mem_cons_self _ _), if_true]
    rw [ih (fun y hy => hc y (List.mem_cons_of_mem _ hy))]

theorem dropWhile_all_append (p : Char → Bool) (c m : List Char)
    (hc : ∀ x ∈ c, p x = true) :
    (c ++ m).dropWhile p = m.dropWhile p := by
  induction c with
  | nil => rfl
  | cons x rest ih =>
    simp only [List.cons_append, List.dropWhile_cons,
      hc x (List.mem_cons_self _ _), if_true]
    exact ih (fun y hy => hc y (List.mem_cons_of_mem _ hy))

theorem takeWhile_all (p : Char → Bool) (l : List Char)
    (h : ∀ x ∈ l, p x = true) : l.takeWhile p = l := by
  induction l with
  | nil => rfl
  | cons x rest ih =>
    simp only [List.takeWhile_cons, h x (List.mem_cons_self _ _), if_true]
    rw [ih (fun y hy => h y (List.mem_cons_of_mem _ hy))]

theorem dropWhile_head_false (p : Char → Bool) (l : List Char)
    (h : ∀ x, l.head? = some x → p x = false) : l.dropWhile p = l := by
  cases l with
  | nil => rfl
  | cons x rest => simp [List.dropWhile_cons, h x rfl]

theorem foldl_digits_none (l : List Char) :
    l.foldl
      (fun acc c =>
        match acc with
        | none => none
        | some n => if c.isDigit then some (n * 10 + (c.toNat - '0'.toNat)) else none)
      none = none := by
  induction l with
  | nil => rfl
  | cons x rest ih => simpa using ih

theorem digitsToNat_head_not_digit (x : Char) (rest : List Char)
    (h : x.isDigit = false) : digitsToNat (x :: rest) = none := by
  show (x :: rest).foldl _ (some 0) = none
  rw [List.foldl_cons]
  simp only [h, Bool.false_eq_true, if_false]
  exact foldl_digits_none rest

theorem trimChars_eq_veq (eqc : Char) (v : List Char) (heq : isSpaceChar eqc = false)
    (hv : ∀ x ∈ v, Char.isDigit x = true) (hne : ¬ v = []) :
    trimChars (eqc :: ' ' :: v) = eqc :: ' ' :: v := by
  unfold trimChars
  rw [List.dropWhile_cons]
  simp only [show isSpaceChar = Char.isWhitespace from rfl] at heq
  rw [if_neg (by simp [heq])]
  rw [dropWhile_head_false]
  · simp
  · intro x hx
    rw [List.head?_reverse] at hx
    cases v with
    | nil => exact absurd rfl hne
    | cons d v' =>
      have hmem : x ∈ d :: v' := by
        have h1 : (eqc :: ' ' :: d :: v').getLast? = (d :: v').getLast? := by
          rw [List.getLast?_cons_cons, List.getLast?_cons_cons]
        rw [h1] at hx
        obtain ⟨hne2, hxeq⟩ := List.mem_getLast?_eq_getLast hx
        exact hxeq ▸ List.getLast_mem hne2
      have := isDigit_not_space (hv x hmem)
      exact this

theorem parseValue_eq_str (eqc : Char) (v : List Char)
    (heq1 : isSpaceChar eqc = false) (heq2 : ¬ eqc.toLower = 't')
    (heq3 : ¬ eqc.toLower = 'f') (heq4 : ¬ eqc = '\'') (heq5 : ¬ eqc = '"')
    (heq6 : eqc.isDigit = false) (heq7 : ¬ eqc = '-') (heq8 : ¬ eqc = '+')
    (hv : ∀ x ∈ v, Char.isDigit x = true) (hne : ¬ v = []) :
    parseValue (eqc :: ' ' :: v) = Value.str (String.mk (eqc :: ' ' :: v)) := by
  unfold parseValue
  rw [trimChars_eq_veq eqc v heq1 hv hne]
  rw [if_neg (by
    simp only [List.map_cons]
    intro hcon
    exact heq2 (by
      have := congrArg List.head? hcon
      simpa using this))]
  rw [if_neg (by
    simp only [List.map_cons]
    intro hcon
    exact heq3 (by
      have := congrArg List.head? hcon
      simpa using this))]
  rw [if_neg (by simp [heq4])]
  rw [if_neg (by simp [heq5])]
  have hnum : strToNumber (eqc :: ' ' :: v) = none := by
    unfold strToNumber
    rw [trimChars_eq_veq eqc v heq1 hv hne]
    simp only [if_neg heq7, if_neg heq8]
    rw [digitsToNat_head_not_digit eqc _ heq6]
    rfl
  rw [hnum]

theorem tryCondAt_compound (c v : List Char) (opc : Char)
    (hop : opc = '>' ∨ opc = '<')
    (hcne : ¬ c = []) (hcw : ∀ x ∈ c, isWordChar x = true)
    (hv : ∀ x ∈ v, Char.isDigit x = true) :
    tryCondAt (c ++ ' ' :: opc :: '=' :: ' ' :: v)
      = some (String.mk c,
          (if opc = '>' then Operator.gt else Operator.lt),
          '=' :: ' ' :: v) := by
  have hword : word1 (c ++ ' ' :: opc :: '=' :: ' ' :: v)
      = some (c, ' ' :: opc :: '=' :: ' ' :: v) := by
    unfold word1
    rw [takeWhile_all_append _ _ _ hcw, dropWhile_all_append _ _ _ hcw]
    rw [List.takeWhile_cons, List.dropWhile_cons]
    simp only [show isWordChar ' ' = false from rfl, Bool.false_eq_true,
      if_false, List.append_nil]
    rw [if_neg (by cases c with
      | nil => exact absurd rfl hcne
      | cons x rest => simp)]
  unfold tryCondAt
  rw [hword]
  simp only [Option.some_bind]
  have hws0 : ws0 (' ' :: opc :: '=' :: ' ' :: v)
      = opc :: '=' :: ' ' :: v := by
    unfold ws0
    rw [List.dropWhile_cons, if_pos (by decide), List.dropWhile_cons,
      if_neg (by rcases hop with rfl | rfl <;> decide)]
  rw [hws0]
  have hopalt : opAlt (opc :: '=' :: ' ' :: v)
      = some ((if opc = '>' then Operator.gt else Operator.lt),
          '=' :: ' ' :: v) := by
    rcases hop with rfl | rfl <;> rfl
  rw [hopalt]
  simp only [Option.some_bind]
  have htw : List.takeWhile isSpaceChar ('=' :: ' ' :: v) = [] := by
    rw [List.takeWhile_cons]
    simp [isSpaceChar, Char.isWhitespace]
  rw [htw]
  have hv2 : List.takeWhile (fun x => !decide (x = '\n')) v = v :=
    takeWhile_all _ _ (fun x hx => by simpa using isDigit_ne_newline (hv x hx))
  simp only [List.length_nil, Nat.zero_add]
  rw [show List.range 1 = [0] from rfl]
  simp [List.findSome?, hv2]

theorem findAndSep_none_of (cs : List Char)
    (h : ∀ suf : List Char, suf <:+ cs →
      (∀ x, suf.head? = some x → isSpaceChar x = true) →
      ((matchCI "and".data (suf.dropWhile isSpaceChar)).bind ws1) = none) :
    ∀ acc, findAndSep acc cs = none := by
  induction cs with
  | nil => intro acc; rfl
  | cons ch rest ih =>
    intro acc
    unfold findAndSep
    by_cases hs : isSpaceChar ch
    · rw [if_pos hs]
      simp only [h (ch :: rest) (List.suffix_refl _)
        (fun x hx => by simp at hx; rw [← hx]; exact hs)]
      exact ih (fun suf hsuf hh =>
        h suf (hsuf.trans (List.suffix_cons ch rest)) hh) _
    · rw [if_neg hs]
      exact ih (fun suf hsuf hh =>
        h suf (hsuf.trans (List.suffix_cons ch rest)) hh) _

theorem suffix_split (c m s : List Char) (hs : s <:+ c ++ m) :
    (∃ c', c' <:+ c ∧ ¬ c' = [] ∧ s = c' ++ m) ∨ s <:+ m := by
  induction c with
  | nil => exact Or.inr hs
  | cons x rest ih =>
    rw [List.cons_append] at hs
    rcases List.suffix_cons_iff.mp hs with h | h
    · exact Or.inl ⟨x :: rest, List.suffix_refl _, by simp, h⟩
    · rcases ih h with ⟨c', hc1, hc2, hc3⟩ | h2
      · exact Or.inl ⟨c', hc1.trans (List.suffix_cons x rest), hc2, hc3⟩
      · exact Or.inr h2

theorem matchCI_and_digits (v : List Char)
    (hv : ∀ x ∈ v, Char.isDigit x = true) :
    matchCI "and".data v = none := by
  cases v with
  | nil => rfl
  | cons d rest =>
    show (if 'a'.toLower = d.toLower then matchCI "nd".data rest else none) = none
    rw [if_neg]
    intro hcon
    have hd : d.toLower = d := isDigit_toLower (hv d (List.mem_cons_self _ _))
    rw [hd] at hcon
    have : ('a' : Char).isDigit = true := by
      rw [show 'a'.toLower = 'a' from rfl] at hcon
      rw [hcon]
      exact hv d (List.mem_cons_self _ _)
    simp at this

theorem findAndSep_cond_none (c v : List Char) (opc : Char)
    (hop : opc = '>' ∨ opc = '<')
    (hcw : ∀ x ∈ c, isWordChar x = true)
    (hv : ∀ x ∈ v, Char.isDigit x = true) :
    ∀ acc, findAndSep acc (c ++ ' ' :: opc :: '=' :: ' ' :: v) = none := by
  apply findAndSep_none_of
  intro suf hsuf hhead
  rcases suffix_split c _ suf hsuf with ⟨c2, hc1, hc2, rfl⟩ | h2
  · cases c2 with
    | nil => exact absurd rfl hc2
    | cons x cx =>
      have hxw : isWordChar x = true :=
        hcw x (hc1.subset (List.mem_cons_self _ _))
      have := hhead x (by simp)
      rw [isWordChar_not_space hxw] at this
      exact absurd this (by simp)
  · rcases List.suffix_cons_iff.mp h2 with rfl | h3
    · rw [List.dropWhile_cons, if_pos (by decide), List.dropWhile_cons,
        if_neg (by rcases hop with rfl | rfl <;> decide)]
      have : matchCI "and".data (opc :: '=' :: ' ' :: v) = none := by
        show (if ('a' : Char).toLower = opc.toLower
          then matchCI ['n', 'd'] ('=' :: ' ' :: v) else none) = none
        rcases hop with rfl | rfl <;> rw [if_neg (by decide)]
      rw [this]
      rfl
    · rcases List.suffix_cons_iff.mp h3 with rfl | h4
      · have := hhead opc (by simp)
        rcases hop with rfl | rfl <;> exact absurd this (by decide)
      · rcases List.suffix_cons_iff.mp h4 with rfl | h5
        · have := hhead '=' (by simp)
          exact absurd this (by decide)
        · rcases List.suffix_cons_iff.mp h5 with rfl | h6
          · rw [List.dropWhile_cons, if_pos (by decide)]
            rw [matchCI_and_digits _ (fun x hx =>
              hv x ((List.dropWhile_sublist _).subset hx))]
            rfl
          · rw [matchCI_and_digits _ (fun x hx =>
              hv x (h6.subset ((List.dropWhile_sublist _).subset hx)))]
            rfl

theorem parseWhere_compound (c v : List Char) (opc : Char)
    (hop : opc = '>' ∨ opc = '<')
    (hcne : ¬ c = []) (hcw : ∀ x ∈ c, isWordChar x = true)
    (hvne : ¬ v = []) (hv : ∀ x ∈ v, Char.isDigit x = true) :
    parseWhere (c ++ ' ' :: opc :: '=' :: ' ' :: v)
      = .ok [⟨String.mk c, (if opc = '>' then Operator.gt else Operator.lt),
          Value.str (String.mk ('=' :: ' ' :: v))⟩] := by
  have hsplit : splitAnd (c ++ ' ' :: opc :: '=' :: ' ' :: v)
      = [c ++ ' ' :: opc :: '=' :: ' ' :: v] := by
    cases c with
    | nil => exact absurd rfl hcne
    | cons x c2 =>
      show splitAndFuel (x :: (c2 ++ ' ' :: opc :: '=' :: ' ' :: v)).length _ = _
      rw [List.length_cons]
      unfold splitAndFuel
      rw [findAndSep_cond_none (x :: c2) v opc hop hcw hv []]
  unfold parseWhere
  rw [hsplit]
  have hscan : scanFor tryCondAt (c ++ ' ' :: opc :: '=' :: ' ' :: v)
      = some (String.mk c,
          (if opc = '>' then Operator.gt else Operator.lt),
          '=' :: ' ' :: v) := by
    cases c with
    | nil => exact absurd rfl hcne
    | cons x c2 =>
      show scanFor tryCondAt (x :: (c2 ++ ' ' :: opc :: '=' :: ' ' :: v)) = _
      unfold scanFor
      rw [show (x :: (c2 ++ ' ' :: opc :: '=' :: ' ' :: v))
          = ((x :: c2) ++ ' ' :: opc :: '=' :: ' ' :: v) from rfl]
      rw [tryCondAt_compound (x :: c2) v opc hop hcne hcw hv]
  simp only [List.mapM_cons, List.mapM_nil, hscan]
  have hval : parseValue ('=' :: ' ' :: v)
      = Value.str (String.mk ('=' :: ' ' :: v)) := by
    apply parseValue_eq_str <;> first | decide | exact hv | exact hvne
  simp [hval]

theorem evaluateWhere_relational_numstr (row : Row) (col s : String) (n : Int)
    (op : Operator) (hop : op = Operator.gt ∨ op = Operator.lt)
    (hrow : rowGet row col = some (some (Value.num n)))
    (hs : strToNumber s.data = none) :
    evaluateWhere row [⟨col, op, Value.str s⟩] = false := by
  unfold evaluateWhere
  simp only [List.all_cons, List.all_nil, Bool.and_true]
  rcases hop with rfl | rfl
  · show jsGreater (rowGet row col) (Value.str s) = false
    rw [hrow]
    show (match toNumber (some (some (Value.num n))),
        toNumber (some (some (Value.str s))) with
      | some a, some b => decide (b < a)
      | _, _ => false) = false
    rw [show toNumber (some (some (Value.str s))) = strToNumber s.data from rfl,
      hs]
    rfl
  · show jsLess (rowGet row col) (Value.str s) = false
    rw [hrow]
    show (match toNumber (some (some (Value.num n))),
        toNumber (some (some (Value.str s))) with
      | some a, some b => decide (a < b)
      | _, _ => false) = false
    rw [show toNumber (some (some (Value.str s))) = strToNumber s.data from rfl,
      hs]
    rfl

/-! ## Compound comparison operators (claim C8) -/

/-- The WHERE condition `age >= 30` does **not** parse to operator `>=`:
the regex alternation `(=|!=|>|<|>=|<=)` tries `>` before `>=`, so the
parser yields operator `>` with the leftover literal string `"= 30"`, and
the executor's predicate then rejects the row with numeric `age = 30`
(`30 > ToNumber("= 30") = NaN` is false); symmetrically for `<=`. -/
theorem C8_counterexample_compound_operators :
    parseWhere "age >= 30".data
      = Except.ok [⟨"age", Operator.gt, Value.str "= 30"⟩]
    ∧ evaluateWhere [("age", some (Value.num 30))]
        [⟨"age", Operator.gt, Value.str "= 30"⟩] = false
    ∧ parseWhere "age <= 30".data
      = Except.ok [⟨"age", Operator.lt, Value.str "= 30"⟩]
    ∧ evaluateWhere [("age", some (Value.num 30))]
        [⟨"age", Operator.lt, Value.str "= 30"⟩] = false := by
  exact ⟨by rfl, by rfl, by rfl, by rfl⟩

/-- **C8 (amended)**: for every condition `c >= v` / `c <= v` (word-character
column `c`, digit literal `v`), the parser produces operator `>` (resp. `<`)
with the bare-token string value `"= v"` — never `>=`/`<=` — and the
executor's predicate rejects every row whose value for `c` is numeric, since
the comparison coerces `"= v"` to `NaN`. -/
theorem C8_compound_operators_amended (c v : List Char)
    (hcne : ¬ c = []) (hcw : ∀ x ∈ c, isWordChar x = true)
    (hvne : ¬ v = []) (hv : ∀ x ∈ v, Char.isDigit x = true)
    (row : Row) (n : Int)
    (hrow : rowGet row (String.mk c) = some (some (Value.num n))) :
    (parseWhere (c ++ ' ' :: '>' :: '=' :: ' ' :: v)
        = Except.ok [⟨String.mk c, Operator.gt,
            Value.str (String.mk ('=' :: ' ' :: v))⟩]
      ∧ evaluateWhere row [⟨String.mk c, Operator.gt,
            Value.str (String.mk ('=' :: ' ' :: v))⟩] = false)
    ∧ (parseWhere (c ++ ' ' :: '<' :: '=' :: ' ' :: v)
        = Except.ok [⟨String.mk c, Operator.lt,
            Value.str (String.mk ('=' :: ' ' :: v))⟩]
      ∧ evaluateWhere row [⟨String.mk c, Operator.lt,
            Value.str (String.mk ('=' :: ' ' :: v))⟩] = false) := by
  have hs : strToNumber (String.mk ('=' :: ' ' :: v)).data = none := by
    show strToNumber ('=' :: ' ' :: v) = none
    unfold strToNumber
    rw [trimChars_eq_veq '=' v (by decide) hv hvne]
    simp only [if_neg (show ¬ ('=' : Char) = '-' by decide),
      if_neg (show ¬ ('=' : Char) = '+' by decide)]
    rw [digitsToNat_head_not_digit '=' _ (by decide)]
    rfl
  refine ⟨⟨?_, ?_⟩, ⟨?_, ?_⟩⟩
  · have := parseWhere_compound c v '>' (Or.inl rfl) hcne hcw hvne hv
    simpa using this
  · exact evaluateWhere_relational_numstr row (String.mk c) _ n
      Operator.gt (Or.inl rfl) hrow hs
  · have := parseWhere_compound c v '<' (Or.inr rfl) hcne hcw hvne hv
    simpa using this
  · exact evaluateWhere_relational_numstr row (String.mk c) _ n
      Operator.lt (Or.inr rfl) hrow hs

/-- Witness instantiating the amended C8 at `age >= 30` / `age <= 30`
against the row `{age: 30}`. -/
theorem C8_compound_operators_amended_witness :
    (parseWhere (['a', 'g', 'e'] ++ ' ' :: '>' :: '=' :: ' ' :: ['3', '0'])
        = Except.ok [⟨String.mk ['a', 'g', 'e'], Operator.gt,
            Value.str (String.mk ('=' :: ' ' :: ['3', '0']))⟩]
      ∧ evaluateWhere [("age", some (Value.num 30))]
          [⟨String.mk ['a', 'g', 'e'], Operator.gt,
            Value.str (String.mk ('=' :: ' ' :: ['3', '0']))⟩] = false)
    ∧ (parseWhere (['a', 'g', 'e'] ++ ' ' :: '<' :: '=' :: ' ' :: ['3', '0'])
        = Except.ok [⟨String.mk ['a', 'g', 'e'], Operator.lt,
            Value.str (String.mk ('=' :: ' ' :: ['3', '0']))⟩]
      ∧ evaluateWhere [("age", some (Value.num 30))]
          [⟨String.mk ['a', 'g', 'e'], Operator.lt,
            Value.str (String.mk ('=' :: ' ' :: ['3', '0']))⟩] = false) :=
  C8_compound_operators_amended ['a', 'g', 'e'] ['3', '0']
    (by decide) (by decide) (by decide) (by decide)
    [("age", some (Value.num 30))] 30 (by rfl)

/-! ## Primary-key non-nullability (claim C4) -/

theorem insertLoop_cons_ok (t : Table) (r : Row) (c : ColumnDefinition)
    (rest : List ColumnDefinition) (acc nr : Row)
    (h : insertLoop t r (c :: rest) acc = .ok nr) :
    ∃ cell, insertLoop t r rest (rowSet acc c.name cell) = .ok nr ∧
      (jsGet r c.name = none → cell = none) := by
  unfold insertLoop at h
  cases hj : jsGet r c.name with
  | none =>
    rw [hj] at h
    simp only [] at h
    split at h
    · cases h
    · exact ⟨none, h, fun _ => rfl⟩
  | some v =>
    rw [hj] at h
    simp only [] at h
    split at h
    · cases h
    · split at h
      · split at h
        · split at h
          · cases h
          · exact ⟨some v, h, fun hn => Option.noConfusion hn⟩
        · exact ⟨some v, h, fun hn => Option.noConfusion hn⟩
      · exact ⟨some v, h, fun hn => Option.noConfusion hn⟩

theorem insertLoop_ok_get_notmem (t : Table) (r : Row)
    (cols : List ColumnDefinition) (acc nr : Row) (k : String)
    (hk : ¬ k ∈ cols.map (fun c => c.name))
    (h : insertLoop t r cols acc = .ok nr) :
    rowGet nr k = rowGet acc k := by
  induction cols generalizing acc with
  | nil =>
    cases h
    rfl
  | cons c rest ih =>
    obtain ⟨cell, h2, _⟩ := insertLoop_cons_ok t r c rest acc nr h
    have hk2 : ¬ k ∈ rest.map (fun c => c.name) := by
      intro hmem
      exact hk (by simp [hmem])
    have hne : ¬ k = c.name := by
      intro heq
      exact hk (by simp [heq])
    rw [ih _ hk2 h2, rowGet_rowSet_ne acc c.name k cell hne]

theorem insertLoop_null_mem (t : Table) (r : Row)
    (cols : List ColumnDefinition) (acc nr : Row) (col : ColumnDefinition)
    (hmem : col ∈ cols) (hnull : jsGet r col.name = none)
    (hnodup : (cols.map (fun c => c.name)).Nodup)
    (h : insertLoop t r cols acc = .ok nr) :
    rowGet nr col.name = some none := by
  induction cols generalizing acc with
  | nil => cases hmem
  | cons c rest ih =>
    obtain ⟨cell, h2, hcell⟩ := insertLoop_cons_ok t r c rest acc nr h
    rw [List.map_cons, List.nodup_cons] at hnodup
    rcases List.mem_cons.mp hmem with rfl | hmem2
    · rw [insertLoop_ok_get_notmem t r rest _ nr col.name hnodup.1 h2,
        hcell hnull, rowGet_rowSet_self]
    · exact ih _ hmem2 hnodup.2 h2

/-- Inserting into `t (id number PRIMARY KEY, name string)` a row that omits
`id` succeeds, and the stored row holds `null` in the primary-key column:
line 33's check `!col.nullable && !col.primaryKey` exempts primary keys, so
a null primary key is accepted, refuting both halves of the claim. -/
theorem C4_counterexample_null_primary_key :
    ((Table.new schemaT).insert [("name", some (Value.str "a"))]).1 = none
    ∧ ((Table.new schemaT).insert [("name", some (Value.str "a"))]).2.rows
        = [[("id", (none : Cell)), ("name", some (Value.str "a"))]]
    ∧ rowGet [("id", (none : Cell)), ("name", some (Value.str "a"))] "id"
        = some none := by
  exact ⟨by rfl, by rfl, by rfl⟩

/-- **C4 (amended)**: the null check fires only for columns that are
non-nullable **and not primary keys** — a null supplied for such a column
aborts the insert with `Column c cannot be null`, while a primary-key
column receiving null passes straight through (recorded as null), and a
successful insert of such a row stores `null` in the primary-key column of
the newly appended last row. -/
theorem C4_primary_key_nullability_amended (t : Table) (r : Row)
    (col : ColumnDefinition) (hnull : jsGet r col.name = none) :
    (col.nullable = false → col.primaryKey = false →
      ∀ rest acc, insertLoop t r (col :: rest) acc
        = .error ("Column " ++ col.name ++ " cannot be null"))
    ∧ (col.primaryKey = true →
      ∀ rest acc, insertLoop t r (col :: rest) acc
        = insertLoop t r rest (rowSet acc col.name none))
    ∧ (col ∈ t.schema.columns → NodupCols t.schema → (t.insert r).1 = none →
      ((t.insert r).2.rows.getLast?.bind (fun nr => rowGet nr col.name))
        = some none) := by
  refine ⟨?_, ?_, ?_⟩
  · intro hn hp rest acc
    simp [insertLoop, hnull, hn, hp]
  · intro hp rest acc
    simp [insertLoop, hnull, hp]
  · intro hmem hnodup hsucc
    cases heq : insertLoop t r t.schema.columns [] with
    | error e =>
      exfalso
      unfold Table.insert at hsucc
      rw [heq] at hsucc
      cases hsucc
    | ok nr =>
      unfold Table.insert
      rw [heq]
      show (t.rows ++ [nr]).getLast?.bind (fun nr => rowGet nr col.name)
        = some none
      rw [List.getLast?_concat]
      exact insertLoop_null_mem t r t.schema.columns [] nr col hmem hnull
        hnodup heq

/-- Witness instantiating the amended C4: inserting `{name: 'a'}` into
`t (id number PRIMARY KEY, name string)` succeeds and the appended row
holds `null` at `id`. -/
theorem C4_primary_key_nullability_amended_witness :
    ((Table.new schemaT).insert [("name", some (Value.str "a"))]).1 = none
    ∧ (((Table.new schemaT).insert
          [("name", some (Value.str "a"))]).2.rows.getLast?.bind
        (fun nr => rowGet nr "id")) = some none :=
  ⟨by rfl,
    (C4_primary_key_nullability_amended (Table.new schemaT)
      [("name", some (Value.str "a"))]
      ⟨"id", ColumnType.number, true, false, false⟩ (by rfl)).2.2
      (by decide) (by unfold NodupCols; decide) (by rfl)⟩

/-! ## Insert keeps indexes in sync -/

theorem matchesAt_lt (rows : List Row) (c : String) (v : Value) (i : Nat)
    (h : matchesAt rows c v i) : i < rows.length := by
  obtain ⟨r, hr, _⟩ := h
  exact (List.getElem?_eq_some.mp hr).1

theorem matchesAt_append_singleton (rows : List Row) (nr : Row) (c : String)
    (v : Value) (i : Nat) :
    matchesAt (rows ++ [nr]) c v i ↔
      (matchesAt rows c v i ∨ (i = rows.length ∧ jsGet nr c = some v)) := by
  by_cases hi : i < rows.length
  · constructor
    · rintro ⟨r, hr, hv⟩
      rw [List.getElem?_append, if_pos hi] at hr
      exact Or.inl ⟨r, hr, hv⟩
    · rintro (⟨r, hr, hv⟩ | ⟨heq, _⟩)
      · exact ⟨r, by rw [List.getElem?_append, if_pos hi]; exact hr, hv⟩
      · omega
  · constructor
    · rintro ⟨r, hr, hv⟩
      rw [List.getElem?_append, if_neg (by omega)] at hr
      cases hd : i - rows.length with
      | zero =>
        rw [hd] at hr
        simp only [List.getElem?_cons_zero, Option.some.injEq] at hr
        subst hr
        exact Or.inr ⟨by omega, hv⟩
      | succ j =>
        rw [hd] at hr
        simp at hr
    · rintro (hm | ⟨heq, hv⟩)
      · exact absurd (matchesAt_lt rows c v i hm) hi
      · subst heq
        refine ⟨nr, ?_, hv⟩
        rw [List.getElem?_append, if_neg (by omega)]
        simp

/-- A successful insert leaves every index in sync with the extended row
list; a failed insert leaves the table untouched. -/
theorem sync_insert (t : Table) (r : Row) (hnd : NodupCols t.schema)
    (hs : SyncP t) : SyncP (t.insert r).2 := by
  unfold Table.insert
  cases heq : insertLoop t r t.schema.columns [] with
  | error e => exact hs
  | ok nr =>
    intro col hmem hidx
    obtain ⟨ix, hget, hprop⟩ := hs col hmem hidx
    have hpass : alistGet
        (insertIndexPass t.schema nr t.rows.length t.indexes) col.name
        = some (match rowGet nr col.name with
            | some (some v) => ix.add (some v) t.rows.length
            | _ => ix) := by
      show alistGet (t.schema.columns.foldl
        (indexPassStep nr t.rows.length) t.indexes) col.name = _
      rw [foldl_indexPassStep_get nr t.rows.length t.schema.columns t.indexes
        col hnd hmem hidx, hget]
      rfl
    cases hr : rowGet nr col.name with
    | none =>
      rw [hr] at hpass
      refine ⟨ix, hpass, fun v => ?_⟩
      obtain ⟨hnodup, hiff⟩ := hprop v
      refine ⟨hnodup, fun i => ?_⟩
      rw [matchesAt_append_singleton]
      have hjs : jsGet nr col.name = none := by simp [jsGet, hr]
      constructor
      · intro hmem2
        exact Or.inl ((hiff i).mp hmem2)
      · rintro (hm | ⟨_, hv⟩)
        · exact (hiff i).mpr hm
        · rw [hjs] at hv
          cases hv
    | some cell =>
      cases cell with
      | none =>
        rw [hr] at hpass
        refine ⟨ix, hpass, fun v => ?_⟩
        obtain ⟨hnodup, hiff⟩ := hprop v
        refine ⟨hnodup, fun i => ?_⟩
        rw [matchesAt_append_singleton]
        have hjs : jsGet nr col.name = none := by simp [jsGet, hr]
        constructor
        · intro hmem2
          exact Or.inl ((hiff i).mp hmem2)
        · rintro (hm | ⟨_, hv⟩)
          · exact (hiff i).mpr hm
          · rw [hjs] at hv
            cases hv
      | some v0 =>
        rw [hr] at hpass
        refine ⟨ix.add (some v0) t.rows.length, hpass, fun v => ?_⟩
        obtain ⟨hnodup, hiff⟩ := hprop v
        have hjs : jsGet nr col.name = some v0 := by simp [jsGet, hr]
        by_cases hv : v = v0
        · subst hv
          rw [Index.find_add_self]
          have hnotin : ¬ t.rows.length ∈ ix.find v := fun hin => by
            have := matchesAt_lt _ _ _ _ ((hiff _).mp hin)
            omega
          constructor
          · rw [List.nodup_append]
            exact ⟨hnodup, List.nodup_singleton _, fun a ha hb => by
              rw [List.mem_singleton] at hb
              subst hb
              exact hnotin ha⟩
          · intro i
            rw [List.mem_append, List.mem_singleton,
              matchesAt_append_singleton]
            constructor
            · rintro (hin | rfl)
              · exact Or.inl ((hiff i).mp hin)
              · exact Or.inr ⟨rfl, hjs⟩
            · rintro (hm | ⟨rfl, _⟩)
              · exact Or.inl ((hiff i).mpr hm)
              · exact Or.inr rfl
        · rw [Index.find_add_ne _ _ _ _ hv]
          refine ⟨hnodup, fun i => ?_⟩
          rw [matchesAt_append_singleton]
          constructor
          · intro hin
            exact Or.inl ((hiff i).mp hin)
          · rintro (hm | ⟨_, hv2⟩)
            · exact (hiff i).mpr hm
            · rw [hjs] at hv2
              exact absurd (Option.some_injective _ hv2).symm hv

/-! ## Insert atomicity on duplicates (claim C2) -/

theorem string_data_append (s t : String) : (s ++ t).data = s.data ++ t.data := by
  cases s
  cases t
  rfl

theorem isPrefixOf_self_append (l m : List Char) :
    l.isPrefixOf (l ++ m) = true := by
  induction l with
  | nil => simp [List.isPrefixOf]
  | cons a rest ih => simp [List.isPrefixOf, ih]

theorem bool_or_elim {a b : Bool} (h : (a || b) = true) :
    a = true ∨ b = true := by
  cases a
  · cases b
    · cases h
    · exact Or.inr rfl
  · exact Or.inl rfl

theorem insertLoop_dup (t : Table) (r : Row) (col : ColumnDefinition)
    (v : Value) (hs : SyncP t) :
    ∀ (cols : List ColumnDefinition) (acc : Row),
      col ∈ cols → (∀ c ∈ cols, c ∈ t.schema.columns) →
      (col.primaryKey || col.unique) = true →
      jsGet r col.name = some v →
      (∃ i, matchesAt t.rows col.name v i) →
      (∀ c ∈ cols,
        (match jsGet r c.name with
         | none => c.nullable || c.primaryKey
         | some w => validateType w c.type) = true) →
      ∃ cname isPk, insertLoop t r cols acc
        = .error ("Duplicate value for "
            ++ (if isPk = true then "primary key" else "unique")
            ++ " column " ++ cname) := by
  intro cols
  induction cols with
  | nil =>
    intro acc hmem
    cases hmem
  | cons c rest ih =>
    intro acc hmem hsub hidx hval hex hok
    have hsubr : ∀ c2 ∈ rest, c2 ∈ t.schema.columns :=
      fun c2 h2 => hsub c2 (List.mem_cons_of_mem _ h2)
    have hokr : ∀ c2 ∈ rest,
        (match jsGet r c2.name with
         | none => c2.nullable || c2.primaryKey
         | some w => validateType w c2.type) = true :=
      fun c2 h2 => hok c2 (List.mem_cons_of_mem _ h2)
    have hokc := hok c (List.mem_cons_self _ _)
    rcases List.mem_cons.mp hmem with rfl | hmemr
    · rw [hval] at hokc
      simp only [] at hokc
      have hcu : (col.unique || col.primaryKey) = true := by
        rcases bool_or_elim hidx with h | h <;> simp [h]
      obtain ⟨ix, hget, hprop⟩ :=
        hs col (hsub col (List.mem_cons_self _ _)) hidx
      obtain ⟨i, hmatch⟩ := hex
      have hfind : i ∈ ix.find v := ((hprop v).2 i).mpr hmatch
      have hlen : 0 < (ix.find v).length :=
        List.length_pos.mpr (fun he => by rw [he] at hfind; cases hfind)
      refine ⟨col.name, col.primaryKey, ?_⟩
      simp [insertLoop, hval, hokc, hcu, hget, hlen]
    · cases hj : jsGet r c.name with
      | none =>
        rw [hj] at hokc
        simp only [] at hokc
        have hstep : insertLoop t r (c :: rest) acc
            = insertLoop t r rest (rowSet acc c.name none) := by
          rcases bool_or_elim hokc with h | h
          · simp [insertLoop, hj, h]
          · simp [insertLoop, hj, h]
        rw [hstep]
        exact ih _ hmemr hsubr hidx hval hex hokr
      | some w =>
        rw [hj] at hokc
        simp only [] at hokc
        by_cases hcu : (c.unique || c.primaryKey) = true
        · have hcu2 : (c.primaryKey || c.unique) = true := by
            rcases bool_or_elim hcu with h | h <;> simp [h]
          obtain ⟨ixc, hgetc, hpropc⟩ :=
            hs c (hsub c (List.mem_cons_self _ _)) hcu2
          by_cases hl : 0 < (ixc.find w).length
          · refine ⟨c.name, c.primaryKey, ?_⟩
            simp [insertLoop, hj, hokc, hcu, hgetc, hl]
          · have hstep : insertLoop t r (c :: rest) acc
                = insertLoop t r rest (rowSet acc c.name (some w)) := by
              simp [insertLoop, hj, hokc, hcu, hgetc, hl]
            rw [hstep]
            exact ih _ hmemr hsubr hidx hval hex hokr
        · have hstep : insertLoop t r (c :: rest) acc
              = insertLoop t r rest (rowSet acc c.name (some w)) := by
            simp [insertLoop, hj, hokc, hcu]
          rw [hstep]
          exact ih _ hmemr hsubr hidx hval hex hokr

/-- **C2**: inserting a row that duplicates, in a primary-key/unique
column, a value already held by a live row fails with a
`Duplicate value for …` error and returns the table completely unchanged
(same row sequence and same indexes).  The row is assumed to pass the
null/type checks of the other columns, as in the specification's scenario
of re-inserting an existing key. -/
theorem C2_insert_duplicate_atomic (t : Table) (r : Row)
    (col : ColumnDefinition) (v : Value)
    (hs : SyncP t) (hmem : col ∈ t.schema.columns)
    (hidx : (col.primaryKey || col.unique) = true)
    (hval : jsGet r col.name = some v)
    (hdup : ∃ r' ∈ t.rows, jsGet r' col.name = some v)
    (hok : ∀ c ∈ t.schema.columns,
      (match jsGet r c.name with
       | none => c.nullable || c.primaryKey
       | some w => validateType w c.type) = true) :
    (t.insert r).2 = t ∧
      (t.insert r).1.map
        (fun e => "Duplicate value for ".data.isPrefixOf e.data) = some true := by
  have hex : ∃ i, matchesAt t.rows col.name v i := by
    obtain ⟨r', hr', hv'⟩ := hdup
    obtain ⟨i, hi⟩ := List.mem_iff_getElem?.mp hr'
    exact ⟨i, r', hi, hv'⟩
  obtain ⟨cname, isPk, herr⟩ :=
    insertLoop_dup t r col v hs t.schema.columns [] hmem (fun c h => h)
      hidx hval hex hok
  constructor
  · unfold Table.insert
    rw [herr]
  · unfold Table.insert
    rw [herr]
    show some ("Duplicate value for ".data.isPrefixOf
      ("Duplicate value for "
        ++ (if isPk = true then "primary key" else "unique")
        ++ " column " ++ cname).data) = some true
    rw [string_data_append, string_data_append, string_data_append,
      List.append_assoc, List.append_assoc, isPrefixOf_self_append]

/-- Witness: re-inserting key `1` into the one-row table `t` fails with a
duplicate-value error and leaves the table unchanged. -/
theorem C2_insert_duplicate_atomic_witness :
    (tableT1.insert [("id", some (Value.num 1)),
        ("name", some (Value.str "b"))]).2 = tableT1 ∧
      (tableT1.insert [("id", some (Value.num 1)),
        ("name", some (Value.str "b"))]).1.map
        (fun e => "Duplicate value for ".data.isPrefixOf e.data) = some true :=
  C2_insert_duplicate_atomic tableT1
    [("id", some (Value.num 1)), ("name", some (Value.str "b"))]
    ⟨"id", ColumnType.number, true, false, false⟩ (Value.num 1)
    (sync_insert (Table.new schemaT)
      [("id", some (.num 1)), ("name", some (.str "a"))]
      (by unfold NodupCols; decide) (sync_new schemaT))
    (by decide) (by decide) (by rfl) (by decide) (by decide)

/-! ## Update keeps indexes in sync -/

theorem matchesAt_middle_self (pre suf : List Row) (r : Row) (c : String)
    (u : Value) :
    matchesAt (pre ++ r :: suf) c u pre.length ↔ jsGet r c = some u := by
  unfold matchesAt
  rw [List.getElem?_append, if_neg (by omega)]
  simp

theorem matchesAt_middle_congr (pre suf : List Row) (r r' : Row) (c : String)
    (u : Value) (i : Nat) (hne : ¬ i = pre.length) :
    matchesAt (pre ++ r' :: suf) c u i ↔ matchesAt (pre ++ r :: suf) c u i := by
  unfold matchesAt
  by_cases hi : i < pre.length
  · rw [List.getElem?_append, if_pos hi, List.getElem?_append, if_pos hi]
  · have h2 : pre.length < i := by omega
    rw [List.getElem?_append, if_neg (by omega),
      List.getElem?_append, if_neg (by omega)]
    cases hd : i - pre.length with
    | zero => omega
    | succ j => simp

/-- Replacing a row by one with equal `jsGet` on all indexed columns keeps
the indexes in sync. -/
theorem sync_congr_row (schema : TableSchema) (pre suf : List Row)
    (row row' : Row) (idxs : List (String × Index))
    (hs : SyncRI schema (pre ++ row :: suf) idxs)
    (hcong : ∀ c ∈ schema.columns, (c.primaryKey || c.unique) = true →
      jsGet row' c.name = jsGet row c.name) :
    SyncRI schema (pre ++ row' :: suf) idxs := by
  intro col hmem hidx
  obtain ⟨ix, hget, hprop⟩ := hs col hmem hidx
  refine ⟨ix, hget, fun v => ⟨(hprop v).1, fun i => ?_⟩⟩
  rw [(hprop v).2 i]
  by_cases hi : i = pre.length
  · subst hi
    rw [matchesAt_middle_self, matchesAt_middle_self,
      hcong col hmem hidx]
  · rw [matchesAt_middle_congr pre suf row row' col.name v i hi]

theorem remove_add_find_mem (ix : Index) (old v : Cell) (idx : Nat)
    (hnodup : ∀ u, (ix.find u).Nodup)
    (hidxmem : ∀ u, idx ∈ ix.find u ↔ old = some u) :
    ∀ u, (((ix.remove old idx).add v idx).find u).Nodup ∧
      ∀ i, i ∈ ((ix.remove old idx).add v idx).find u ↔
        ((¬ i = idx ∧ i ∈ ix.find u) ∨ (i = idx ∧ v = some u)) := by
  have hR : ∀ u, (ix.remove old idx).find u
      = if old = some u then (ix.find u).filter (fun i => ¬ i = idx)
        else ix.find u := by
    intro u
    cases old with
    | none =>
      rw [Index.remove_none, if_neg (by simp)]
    | some ov =>
      by_cases hu : u = ov
      · subst hu
        rw [Index.find_remove_self, if_pos rfl]
      · rw [Index.find_remove_ne _ _ _ _ hu, if_neg (fun h => by
          rw [Option.some_inj] at h
          exact hu h.symm)]
  have hRnodup : ∀ u, ((ix.remove old idx).find u).Nodup := by
    intro u
    rw [hR u]
    split
    · exact (hnodup u).filter _
    · exact hnodup u
  have hRmem : ∀ u i, i ∈ (ix.remove old idx).find u ↔
      (i ∈ ix.find u ∧ ¬ (i = idx ∧ old = some u)) := by
    intro u i
    rw [hR u]
    by_cases ho : old = some u
    · rw [if_pos ho, List.mem_filter]
      simp [ho]
    · rw [if_neg ho]
      simp [ho]
  have hRidx : ∀ u, ¬ idx ∈ (ix.remove old idx).find u := by
    intro u hin
    obtain ⟨h1, h2⟩ := (hRmem u idx).mp hin
    exact h2 ⟨rfl, (hidxmem u).mp h1⟩
  intro u
  cases v with
  | none =>
    rw [Index.add_none]
    refine ⟨hRnodup u, fun i => ?_⟩
    rw [hRmem u i]
    constructor
    · rintro ⟨h1, h2⟩
      refine Or.inl ⟨fun he => ?_, h1⟩
      subst he
      exact h2 ⟨rfl, (hidxmem u).mp h1⟩
    · rintro (⟨h1, h2⟩ | ⟨_, h2⟩)
      · exact ⟨h2, fun hc => h1 hc.1⟩
      · cases h2
  | some w =>
    by_cases hu : u = w
    · subst hu
      rw [Index.find_add_self]
      constructor
      · rw [List.nodup_append]
        exact ⟨hRnodup u, List.nodup_singleton _, fun a ha hb => by
          rw [List.mem_singleton] at hb
          subst hb
          exact hRidx u ha⟩
      · intro i
        rw [List.mem_append, List.mem_singleton, hRmem u i]
        constructor
        · rintro (⟨h1, h2⟩ | rfl)
          · refine Or.inl ⟨fun he => ?_, h1⟩
            subst he
            exact h2 ⟨rfl, (hidxmem u).mp h1⟩
          · exact Or.inr ⟨rfl, rfl⟩
        · rintro (⟨h1, h2⟩ | ⟨h1, _⟩)
          · exact Or.inl ⟨h2, fun hc => h1 hc.1⟩
          · exact Or.inr h1
    · rw [Index.find_add_ne _ _ _ _ hu]
      refine ⟨hRnodup u, fun i => ?_⟩
      rw [hRmem u i]
      constructor
      · rintro ⟨h1, h2⟩
        refine Or.inl ⟨fun he => ?_, h1⟩
        subst he
        exact h2 ⟨rfl, (hidxmem u).mp h1⟩
      · rintro (⟨h1, h2⟩ | ⟨_, h2⟩)
        · exact ⟨h2, fun hc => h1 hc.1⟩
        · rw [Option.some_inj] at h2
          exact absurd h2.symm hu

/-- Writing value `v` into the row at position `pre.length` for an indexed
column, with the source's paired `remove`/`add`, keeps the indexes in sync. -/
theorem sync_write_indexed (schema : TableSchema) (pre suf : List Row)
    (row : Row) (idxs : List (String × Index)) (key : String) (v : Cell)
    (col : ColumnDefinition) (ix : Index)
    (hnd : NodupCols schema)
    (hs : SyncRI schema (pre ++ row :: suf) idxs)
    (hname : col.name = key) (hmem : col ∈ schema.columns)
    (hidx : (col.primaryKey || col.unique) = true)
    (hget : alistGet idxs key = some ix) :
    SyncRI schema (pre ++ (rowSet row key v) :: suf)
      (alistSet idxs key
        ((ix.remove (jsGet row key) pre.length).add v pre.length)) := by
  intro col2 hmem2 hidx2
  obtain ⟨ix2, hget2, hprop2⟩ := hs col2 hmem2 hidx2
  by_cases hc : col2.name = key
  · rw [hc, hget] at hget2
    have hixeq : ix2 = ix := (Option.some_inj.mp hget2).symm
    subst hixeq
    refine ⟨(ix2.remove (jsGet row key) pre.length).add v pre.length, ?_, ?_⟩
    · rw [hc, alistGet_set, if_pos rfl]
    · have hnodup : ∀ u, (ix2.find u).Nodup := fun u => (hprop2 u).1
      have hidxmem : ∀ u, pre.length ∈ ix2.find u ↔
          jsGet row key = some u := by
        intro u
        rw [(hprop2 u).2 pre.length, hc]
        exact matchesAt_middle_self pre suf row key u
      obtain hra := remove_add_find_mem ix2 (jsGet row key) v pre.length
        hnodup hidxmem
      intro u
      refine ⟨(hra u).1, fun i => ?_⟩
      rw [(hra u).2 i]
      by_cases hi : i = pre.length
      · subst hi
        rw [hc]
        rw [matchesAt_middle_self]
        have hrs : jsGet (rowSet row key v) key = v := jsGet_rowSet_self row key v
        rw [hrs]
        constructor
        · rintro (⟨h1, _⟩ | ⟨_, h2⟩)
          · exact absurd rfl h1
          · exact h2
        · intro h
          exact Or.inr ⟨rfl, h⟩
      · rw [hc, matchesAt_middle_congr pre suf row (rowSet row key v) key u i hi]
        rw [← hc, ← (hprop2 u).2 i]
        constructor
        · rintro (⟨_, h2⟩ | ⟨h1, _⟩)
          · exact h2
          · exact absurd h1 hi
        · intro h
          exact Or.inl ⟨hi, h⟩
  · refine ⟨ix2, ?_, ?_⟩
    · rw [alistGet_set, if_neg hc]
      exact hget2
    · intro u
      refine ⟨(hprop2 u).1, fun i => ?_⟩
      rw [(hprop2 u).2 i]
      by_cases hi : i = pre.length
      · subst hi
        rw [matchesAt_middle_self, matchesAt_middle_self,
          jsGet_rowSet_ne row key col2.name v hc]
      · rw [matchesAt_middle_congr pre suf row (rowSet row key v)
          col2.name u i hi]

theorem find_name_unique (schema : TableSchema) (hnd : NodupCols schema)
    (c1 c2 : ColumnDefinition) (h1 : c1 ∈ schema.columns)
    (h2 : c2 ∈ schema.columns) (heq : c1.name = c2.name) : c1 = c2 :=
  List.inj_on_of_nodup_map hnd h1 h2 heq

/-- One update entry keeps the indexes in sync with the row list. -/
theorem applyUpdateEntry_sync (schema : TableSchema) (pre suf : List Row)
    (row : Row) (idxs : List (String × Index)) (kv : String × Cell)
    (hnd : NodupCols schema)
    (hs : SyncRI schema (pre ++ row :: suf) idxs) :
    SyncRI schema
      (pre ++ (applyUpdateEntry schema pre.length (row, idxs) kv).1 :: suf)
      (applyUpdateEntry schema pre.length (row, idxs) kv).2 := by
  have hwrite_skip : ∀ v : Cell,
      (¬ ((∃ c ∈ schema.columns, c.name = kv.1 ∧
          (c.primaryKey || c.unique) = true)) ∨ rowGet row kv.1 = some v) →
      SyncRI schema (pre ++ (rowSet row kv.1 v) :: suf) idxs := by
    intro v hv
    apply sync_congr_row schema pre suf row _ idxs hs
    intro c hcmem hcidx
    by_cases hcn : c.name = kv.1
    · rcases hv with hno | hsome
      · exact absurd ⟨c, hcmem, hcn, hcidx⟩ hno
      · rw [hcn, jsGet_rowSet_self]
        show v = jsGet row kv.1
        unfold jsGet
        rw [hsome]
        rfl
    · exact jsGet_rowSet_ne row kv.1 c.name v hcn
  cases hfind : schema.columns.find? (fun c => c.name = kv.1) with
  | none =>
    have hred : applyUpdateEntry schema pre.length (row, idxs) kv
        = (row, idxs) := by
      unfold applyUpdateEntry
      rw [hfind]
    rw [hred]
    exact hs
  | some col =>
    have hcolname : col.name = kv.1 := by
      have := List.find?_some hfind
      simpa using this
    have hcolmem : col ∈ schema.columns := List.mem_of_find?_eq_some hfind
    have hmain : ∀ v : Cell,
        SyncRI schema
          (pre ++ (if (col.unique || col.primaryKey)
                && ¬ (rowGet row kv.1 = some v) then
              match alistGet idxs kv.1 with
              | some ix =>
                (rowSet row kv.1 v, alistSet idxs kv.1
                  ((ix.remove (jsGet row kv.1) pre.length).add v pre.length))
              | none => (rowSet row kv.1 v, idxs)
            else (rowSet row kv.1 v, idxs)).1 :: suf)
          ((if (col.unique || col.primaryKey)
                && ¬ (rowGet row kv.1 = some v) then
              match alistGet idxs kv.1 with
              | some ix =>
                (rowSet row kv.1 v, alistSet idxs kv.1
                  ((ix.remove (jsGet row kv.1) pre.length).add v pre.length))
              | none => (rowSet row kv.1 v, idxs)
            else (rowSet row kv.1 v, idxs)).2) := by
      intro v
      by_cases hcond : ((col.unique || col.primaryKey)
          && decide (¬ (rowGet row kv.1 = some v))) = true
      · rw [if_pos hcond]
        have hcu : (col.primaryKey || col.unique) = true := by
          have h1 := (Bool.and_eq_true _ _).mp hcond
          rcases bool_or_elim h1.1 with h | h <;> simp [h]
        obtain ⟨ix, hget, _⟩ := hs col hcolmem hcu
        rw [hcolname] at hget
        rw [hget]
        exact sync_write_indexed schema pre suf row idxs kv.1 v col ix
          hnd hs hcolname hcolmem hcu hget
      · rw [if_neg hcond]
        apply hwrite_skip v
        by_cases hval : rowGet row kv.1 = some v
        · exact Or.inr hval
        · refine Or.inl ?_
          rintro ⟨c, hcm, hcn, hci⟩
          have hceq : c = col := find_name_unique schema hnd c col hcm hcolmem
            (by rw [hcn, hcolname])
          subst hceq
          apply hcond
          rw [Bool.and_eq_true]
          constructor
          · rcases bool_or_elim hci with h | h <;> simp [h]
          · simpa using hval
    cases hv : kv.2 with
    | some w =>
      have hred : applyUpdateEntry schema pre.length (row, idxs) kv
          = (if ¬ validateType w col.type then (row, idxs)
             else if (col.unique || col.primaryKey)
                  && ¬ (rowGet row kv.1 = some (some w)) then
                match alistGet idxs kv.1 with
                | some ix =>
                  (rowSet row kv.1 (some w), alistSet idxs kv.1
                    ((ix.remove (jsGet row kv.1) pre.length).add
                      (some w) pre.length))
                | none => (rowSet row kv.1 (some w), idxs)
              else (rowSet row kv.1 (some w), idxs)) := by
        unfold applyUpdateEntry
        rw [hfind, hv]
      rw [hred]
      by_cases hty : ¬ validateType w col.type = true
      · rw [if_pos hty]
        exact hs
      · rw [if_neg hty]
        exact hmain (some w)
    | none =>
      have hred : applyUpdateEntry schema pre.length (row, idxs) kv
          = (if (col.unique || col.primaryKey)
                && ¬ (rowGet row kv.1 = some none) then
              match alistGet idxs kv.1 with
              | some ix =>
                (rowSet row kv.1 none, alistSet idxs kv.1
                  ((ix.remove (jsGet row kv.1) pre.length).add none pre.length))
              | none => (rowSet row kv.1 none, idxs)
            else (rowSet row kv.1 none, idxs)) := by
        unfold applyUpdateEntry
        rw [hfind, hv]
      rw [hred]
      exact hmain none

/-- All entries of one update applied to one row keep the sync invariant. -/
theorem applyUpdates_sync (schema : TableSchema)
    (updates : List (String × Cell)) (pre suf : List Row) (row : Row)
    (idxs : List (String × Index)) (hnd : NodupCols schema)
    (hs : SyncRI schema (pre ++ row :: suf) idxs) :
    SyncRI schema
      (pre ++ (applyUpdates schema updates row idxs pre.length).1 :: suf)
      (applyUpdates schema updates row idxs pre.length).2 := by
  induction updates generalizing row idxs with
  | nil => exact hs
  | cons kv rest ih =>
    have hstep := applyUpdateEntry_sync schema pre suf row idxs kv hnd hs
    have heq : applyUpdates schema (kv :: rest) row idxs pre.length
        = applyUpdates schema rest
            (applyUpdateEntry schema pre.length (row, idxs) kv).1
            (applyUpdateEntry schema pre.length (row, idxs) kv).2
            pre.length := by
      unfold applyUpdates
      rw [List.foldl_cons]
    rw [heq]
    exact ih _ _ hstep

/-- The row loop of `update` keeps the indexes in sync. -/
theorem updateLoop_sync (schema : TableSchema)
    (updates : List (String × Cell)) (pred : Row → Bool)
    (hnd : NodupCols schema) :
    ∀ (rest : List Row) (idxs : List (String × Index)) (pre : List Row),
      SyncRI schema (pre ++ rest) idxs →
      SyncRI schema
        (pre ++ (updateLoop schema updates pred rest idxs pre.length).1)
        (updateLoop schema updates pred rest idxs pre.length).2.1 := by
  intro rest
  induction rest with
  | nil =>
    intro idxs pre hs
    exact hs
  | cons r rest ih =>
    intro idxs pre hs
    by_cases hp : pred r = true
    · rcases ha : applyUpdates schema updates r idxs pre.length with ⟨r', idxs'⟩
      rcases hb : updateLoop schema updates pred rest idxs' (pre.length + 1)
        with ⟨rest', idxs'', c⟩
      have hstep : updateLoop schema updates pred (r :: rest) idxs pre.length
          = (r' :: rest', idxs'', c + 1) := by
        simp [updateLoop, hp, ha, hb]
      rw [hstep]
      have hs' : SyncRI schema (pre ++ r' :: rest) idxs' := by
        have := applyUpdates_sync schema updates pre rest r idxs hnd hs
        rw [ha] at this
        exact this
      have hs'' : SyncRI schema ((pre ++ [r']) ++ rest) idxs' := by
        rw [List.append_assoc]
        exact hs'
      have := ih idxs' (pre ++ [r']) hs''
      rw [show (pre ++ [r']).length = pre.length + 1 by simp, hb] at this
      simp only [List.append_assoc, List.singleton_append] at this
      exact this
    · rcases hb : updateLoop schema updates pred rest idxs (pre.length + 1)
        with ⟨rest', idxs'', c⟩
      have hstep : updateLoop schema updates pred (r :: rest) idxs pre.length
          = (r :: rest', idxs'', c) := by
        simp [updateLoop, hp, hb]
      rw [hstep]
      have hs'' : SyncRI schema ((pre ++ [r]) ++ rest) idxs := by
        rw [List.append_assoc]
        exact hs
      have := ih idxs (pre ++ [r]) hs''
      rw [show (pre ++ [r]).length = pre.length + 1 by simp, hb] at this
      simp only [List.append_assoc, List.singleton_append] at this
      exact this

/-- `update` keeps every index in sync with the rows. -/
theorem sync_update (t : Table) (updates : List (String × Cell))
    (pred : Row → Bool) (hnd : NodupCols t.schema) (hs : SyncP t) :
    SyncP (t.update updates pred).2 := by
  rcases hu : updateLoop t.schema updates pred t.rows t.indexes 0
    with ⟨rows', idxs', count⟩
  have hgoal : (t.update updates pred).2
      = { t with rows := rows', indexes := idxs' } := by
    unfold Table.update
    rw [hu]
  rw [hgoal]
  show SyncRI t.schema rows' idxs'
  have := updateLoop_sync t.schema updates pred hnd t.rows t.indexes [] hs
  rw [show ([] : List Row).length = 0 from rfl, hu] at this
  simpa using this

/-! ## Delete keeps indexes in sync (via rebuild); reachability (claim C3) -/

theorem alistGet_isSome_iff_mem_keys {κ α : Type} [DecidableEq κ]
    (m : List (κ × α)) (k : κ) :
    (alistGet m k).isSome = true ↔ k ∈ m.map (fun p => p.1) := by
  induction m with
  | nil => simp [alistGet]
  | cons p rest ih =>
    by_cases h : p.1 = k
    · simp [alistGet_cons, h]
    · simp only [alistGet_cons, if_neg h, List.map_cons, List.mem_cons, ih]
      constructor
      · intro h2
        exact Or.inr h2
      · rintro (h2 | h2)
        · exact absurd h2.symm h
        · exact h2

/-- `delete` leaves the table fully re-synchronised: whatever `deleteLoop`
did, `rebuildIndexes` restores sync, and the keys of the index map are
preserved throughout. -/
theorem sync_delete (t : Table) (pred : Row → Bool) (hnd : NodupCols t.schema)
    (hhas : ∀ col ∈ t.schema.columns, (col.primaryKey || col.unique) = true →
      (alistGet t.indexes col.name).isSome = true) :
    SyncP (t.delete pred).2 := by
  rw [delete_eq]
  show SyncP (rebuildIndexes ⟨t.schema,
    (deleteLoop t.schema (collectIdx pred t.rows 0).reverse t.rows t.indexes).1,
    (deleteLoop t.schema (collectIdx pred t.rows 0).reverse t.rows t.indexes).2⟩)
  refine sync_rebuildIndexes ⟨t.schema,
    (deleteLoop t.schema (collectIdx pred t.rows 0).reverse t.rows t.indexes).1,
    (deleteLoop t.schema (collectIdx pred t.rows 0).reverse t.rows t.indexes).2⟩
    hnd ?_
  intro col hm hi
  have hkeys := deleteLoop_snd_keys t.schema
    ((collectIdx pred t.rows 0).reverse) t.rows t.indexes
  show (alistGet (deleteLoop t.schema (collectIdx pred t.rows 0).reverse
    t.rows t.indexes).2 col.name).isSome = true
  rw [alistGet_isSome_iff_mem_keys, hkeys,
    ← alistGet_isSome_iff_mem_keys]
  exact hhas col hm hi

theorem insert_schema (t : Table) (r : Row) :
    (t.insert r).2.schema = t.schema := by
  unfold Table.insert
  cases insertLoop t r t.schema.columns [] <;> rfl

theorem update_schema (t : Table) (updates : List (String × Cell))
    (pred : Row → Bool) : (t.update updates pred).2.schema = t.schema := by
  rcases hu : updateLoop t.schema updates pred t.rows t.indexes 0
    with ⟨rows', idxs', count⟩
  unfold Table.update
  rw [hu]

theorem delete_schema (t : Table) (pred : Row → Bool) :
    (t.delete pred).2.schema = t.schema := by
  rw [delete_eq]
  rfl

/-- Any table reachable by insert/update/delete operations from a fresh one
is in sync, and keeps its schema. -/
theorem sync_applyOps : ∀ (ops : List Op) (t : Table),
    NodupCols t.schema → SyncP t →
    SyncP (applyOps t ops) ∧ (applyOps t ops).schema = t.schema := by
  intro ops
  induction ops with
  | nil =>
    intro t hnd hs
    exact ⟨hs, rfl⟩
  | cons op rest ih =>
    intro t hnd hs
    have hstep : SyncP (applyOp t op) ∧ (applyOp t op).schema = t.schema := by
      cases op with
      | ins r => exact ⟨sync_insert t r hnd hs, insert_schema t r⟩
      | upd u p => exact ⟨sync_update t u p hnd hs, update_schema t u p⟩
      | del p =>
        refine ⟨sync_delete t p hnd (fun col hm hi => ?_), delete_schema t p⟩
        obtain ⟨ix, hget, _⟩ := hs col hm hi
        rw [hget]
        rfl
    have hnd2 : NodupCols (applyOp t op).schema := by
      show ((applyOp t op).schema.columns.map (fun c => c.name)).Nodup
      rw [hstep.2]
      exact hnd
    obtain ⟨h1, h2⟩ := ih (applyOp t op) hnd2 hstep.1
    refine ⟨h1, ?_⟩
    show (applyOps (applyOp t op) rest).schema = t.schema
    rw [h2, hstep.2]

theorem posOf_map (c : String) (v : Value) :
    ∀ (rows : List Row) (i0 : Nat) (f : Nat → Row),
      (∀ i r, rows[i]? = some r → f (i0 + i) = r) →
      (posOf c v rows i0).map f
        = rows.filter (fun r => jsGet r c = some v) := by
  intro rows
  induction rows with
  | nil =>
    intro i0 f _
    rfl
  | cons r rest ih =>
    intro i0 f hf
    have hf0 : f i0 = r := by
      have := hf 0 r (by simp)
      simpa using this
    have hfr : ∀ i r2, rest[i]? = some r2 → f ((i0 + 1) + i) = r2 := by
      intro i r2 hi
      have := hf (i + 1) r2 (by simpa using hi)
      rw [show i0 + (i + 1) = i0 + 1 + i by omega] at this
      exact this
    by_cases hr : jsGet r c = some v
    · simp only [posOf, if_pos hr, List.map_cons, hf0, ih (i0 + 1) f hfr,
        List.filter_cons]
      rw [if_pos (by simp [hr])]
    · simp only [posOf, if_neg hr, ih (i0 + 1) f hfr, List.filter_cons]
      rw [if_neg (by simp [hr])]

/-- On a synchronised table, `findByIndex` returns exactly the matching
rows (as a permutation of the scan). -/
theorem findByIndex_perm (t : Table) (col : ColumnDefinition) (v : Value)
    (hs : SyncP t) (hmem : col ∈ t.schema.columns)
    (hidx : (col.primaryKey || col.unique) = true) :
    (t.findByIndex col.name v).Perm
      (t.rows.filter (fun r => jsGet r col.name = some v)) := by
  obtain ⟨ix, hget, hprop⟩ := hs col hmem hidx
  unfold Table.findByIndex
  rw [hget]
  show ((ix.find v).map (fun i => t.rows.getD i [])).Perm _
  have hperm : (ix.find v).Perm (posOf col.name v t.rows 0) := by
    rw [List.perm_ext_iff_of_nodup (hprop v).1 (posOf_nodup _ _ _ _)]
    intro i
    rw [posOf_mem_iff]
    rw [(hprop v).2 i]
    constructor
    · intro h
      exact ⟨Nat.zero_le _, by simpa using h⟩
    · rintro ⟨_, h⟩
      simpa using h
  have hmap := hperm.map (fun i => t.rows.getD i [])
  rw [posOf_map col.name v t.rows 0 _ (fun i r hi => by
    simp [List.getD_eq_getElem?_getD, hi])] at hmap
  exact hmap

/-- **C3**: after any sequence of inserts, updates and deletes applied to a
fresh table (including deletes, which shift row positions and trigger an
index rebuild), `findByIndex(col, v)` returns exactly the rows whose value
at the indexed column `col` is `v` — the same multiset as a full scan. -/
theorem C3_index_scan_equivalence (schema : TableSchema) (ops : List Op)
    (col : ColumnDefinition) (v : Value)
    (hnd : NodupCols schema) (hmem : col ∈ schema.columns)
    (hidx : (col.primaryKey || col.unique) = true) :
    ((applyOps (Table.new schema) ops).findByIndex col.name v).Perm
      ((applyOps (Table.new schema) ops).rows.filter
        (fun r => jsGet r col.name = some v)) := by
  obtain ⟨hsync, hschema⟩ :=
    sync_applyOps ops (Table.new schema) hnd (sync_new schema)
  refine findByIndex_perm _ col v hsync ?_ hidx
  have : (applyOps (Table.new schema) ops).schema.columns = schema.columns := by
    rw [hschema]
    rfl
  rw [this]
  exact hmem

/-- Witness: insert two rows, delete the first, then look up the surviving
key by index. -/
theorem C3_index_scan_equivalence_witness :
    ((applyOps (Table.new schemaT)
        [Op.ins [("id", some (Value.num 1)), ("name", some (Value.str "a"))],
         Op.ins [("id", some (Value.num 2)), ("name", some (Value.str "b"))],
         Op.del (fun r => decide (jsGet r "id" = some (Value.num 1)))]).findByIndex
        "id" (Value.num 2)).Perm
      ((applyOps (Table.new schemaT)
        [Op.ins [("id", some (Value.num 1)), ("name", some (Value.str "a"))],
         Op.ins [("id", some (Value.num 2)), ("name", some (Value.str "b"))],
         Op.del (fun r => decide (jsGet r "id" = some (Value.num 1)))]).rows.filter
        (fun r => jsGet r "id" = some (Value.num 2))) :=
  C3_index_scan_equivalence schemaT
    [Op.ins [("id", some (Value.num 1)), ("name", some (Value.str "a"))],
     Op.ins [("id", some (Value.num 2)), ("name", some (Value.str "b"))],
     Op.del (fun r => decide (jsGet r "id" = some (Value.num 1)))]
    ⟨"id", ColumnType.number, true, false, false⟩ (Value.num 2)
    (by unfold NodupCols; decide) (by decide) (by decide)

/-! ## Uniqueness invariant (claim C1) -/

theorem insertLoop_cons_ok_some (t : Table) (r : Row) (c : ColumnDefinition)
    (rest : List ColumnDefinition) (acc nr : Row) (w : Value)
    (hj : jsGet r c.name = some w)
    (h : insertLoop t r (c :: rest) acc = .ok nr) :
    insertLoop t r rest (rowSet acc c.name (some w)) = .ok nr := by
  unfold insertLoop at h
  rw [hj] at h
  simp only [] at h
  split at h
  · cases h
  · split at h
    · split at h
      · split at h
        · cases h
        · exact h
      · exact h
    · exact h

theorem insertLoop_some_mem (t : Table) (r : Row)
    (cols : List ColumnDefinition) (acc nr : Row) (col : ColumnDefinition)
    (w : Value) (hmem : col ∈ cols) (hval : jsGet r col.name = some w)
    (hnodup : (cols.map (fun c => c.name)).Nodup)
    (h : insertLoop t r cols acc = .ok nr) :
    rowGet nr col.name = some (some w) := by
  induction cols generalizing acc with
  | nil => cases hmem
  | cons c rest ih =>
    rw [List.map_cons, List.nodup_cons] at hnodup
    rcases List.mem_cons.mp hmem with rfl | hmem2
    · have h2 := insertLoop_cons_ok_some t r col rest acc nr w hval h
      rw [insertLoop_ok_get_notmem t r rest _ nr col.name hnodup.1 h2,
        rowGet_rowSet_self]
    · obtain ⟨cell, h2, _⟩ := insertLoop_cons_ok t r c rest acc nr h
      exact ih _ hmem2 hnodup.2 h2

theorem insertLoop_no_dup (t : Table) (r : Row) (col : ColumnDefinition)
    (v : Value) (ix : Index)
    (hcu : (col.unique || col.primaryKey) = true)
    (hget : alistGet t.indexes col.name = some ix)
    (hval : jsGet r col.name = some v) :
    ∀ (cols : List ColumnDefinition) (acc nr : Row), col ∈ cols →
      insertLoop t r cols acc = .ok nr → ¬ 0 < (ix.find v).length := by
  intro cols
  induction cols with
  | nil =>
    intro acc nr hmem
    cases hmem
  | cons c rest ih =>
    intro acc nr hmem h
    rcases List.mem_cons.mp hmem with rfl | hmem2
    · simp only [insertLoop, hval, hcu, hget, if_true] at h
      by_cases hty : ¬ validateType v col.type = true
      · rw [if_pos hty] at h
        cases h
      · rw [if_neg hty] at h
        intro hl
        rw [if_pos hl] at h
        cases h
    · obtain ⟨cell, h2, _⟩ := insertLoop_cons_ok t r c rest acc nr h
      exact ih _ _ hmem2 h2

/-- `insert` preserves the uniqueness invariant (on a synchronised table):
the duplicate check aborts any insert that would repeat an indexed value. -/
theorem uniq_insert (t : Table) (r : Row) (hnd : NodupCols t.schema)
    (hs : SyncP t) (hu : Uniq t) : Uniq (t.insert r).2 := by
  unfold Table.insert
  cases heq : insertLoop t r t.schema.columns [] with
  | error e => exact hu
  | ok nr =>
    intro col hmem hidx
    show UniqAt (t.rows ++ [nr]) col.name
    have hcu : (col.unique || col.primaryKey) = true := by
      rcases bool_or_elim hidx with h | h <;> simp [h]
    have hUold : UniqAt t.rows col.name := hu col hmem hidx
    unfold UniqAt at hUold ⊢
    rw [List.pairwise_append]
    refine ⟨hUold, by simp, fun r1 h1 rn hn => ?_⟩
    rw [List.mem_singleton] at hn
    subst hn
    cases hjr : jsGet r col.name with
    | none =>
      have hget := insertLoop_null_mem t r t.schema.columns [] rn col
        hmem hjr hnd heq
      refine Or.inr (Or.inl ?_)
      show jsGet rn col.name = none
      unfold jsGet
      rw [hget]
      rfl
    | some w =>
      have hget := insertLoop_some_mem t r t.schema.columns [] rn col w
        hmem hjr hnd heq
      have hjnr : jsGet rn col.name = some w := by
        unfold jsGet
        rw [hget]
        rfl
      refine Or.inr (Or.inr ?_)
      rw [hjnr]
      intro hcon
      obtain ⟨ix, hgetix, hprop⟩ := hs col hmem hidx
      have hnd2 := insertLoop_no_dup t r col w ix hcu hgetix hjr
        t.schema.columns [] rn hmem heq
      obtain ⟨i, hi⟩ := List.mem_iff_getElem?.mp h1
      have hin : i ∈ ix.find w := ((hprop w).2 i).mpr ⟨r1, hi, hcon⟩
      exact hnd2 (List.length_pos.mpr
        (fun he => by rw [he] at hin; cases hin))

/-- `delete` preserves the uniqueness invariant: the surviving rows are a
sublist of the original rows. -/
theorem uniq_delete (t : Table) (pred : Row → Bool) (hu : Uniq t) :
    Uniq (t.delete pred).2 := by
  intro col hmem hidx
  unfold UniqAt
  rw [delete_rows]
  exact List.Pairwise.sublist (List.filter_sublist _) (hu col hmem hidx)

/-- `UPDATE` can merge two distinct primary keys: the two-row table with
keys 1 and 2 satisfies the uniqueness invariant, but updating the row with
`id = 2` to `id = 1` (source `update` performs **no** duplicate check)
leaves two live rows sharing primary-key value 1. -/
theorem C1_counterexample_update_breaks_uniqueness :
    Uniq tableT2 ∧
    ¬ Uniq ((tableT2.update [("id", some (Value.num 1))]
        (fun r => decide (jsGet r "id" = some (Value.num 2)))).2) := by
  constructor
  · intro col hmem hidx
    have hcols : tableT2.schema.columns
        = [⟨"id", ColumnType.number, true, false, false⟩,
           ⟨"name", ColumnType.string, false, false, true⟩] := by rfl
    rw [hcols] at hmem
    rcases List.mem_cons.mp hmem with rfl | hmem2
    · unfold UniqAt
      decide
    · rcases List.mem_cons.mp hmem2 with rfl | hmem3
      · exact absurd hidx (by decide)
      · cases hmem3
  · intro h
    have hmem : (⟨"id", ColumnType.number, true, false, false⟩
        : ColumnDefinition) ∈ ((tableT2.update [("id", some (Value.num 1))]
          (fun r => decide (jsGet r "id" = some (Value.num 2)))).2).schema.columns := by
      decide
    have h2 := h _ hmem (by decide)
    have hrows : ((tableT2.update [("id", some (Value.num 1))]
        (fun r => decide (jsGet r "id" = some (Value.num 2)))).2).rows
        = [[("id", some (Value.num 1)), ("name", some (Value.str "a"))],
           [("id", some (Value.num 1)), ("name", some (Value.str "b"))]] := by
      rfl
    unfold UniqAt at h2
    rw [hrows] at h2
    have h3 := (List.pairwise_cons.mp h2).1 _ (List.mem_cons_self _ _)
    rcases h3 with h4 | h4 | h4
    · exact absurd h4 (by decide)
    · exact absurd h4 (by decide)
    · exact h4 (by decide)

/-- **C1 (amended)**: on a synchronised table the uniqueness invariant is
preserved by `insert` (duplicate check) and by `delete` (rows only
removed) — but **not** by `update`, which performs no duplicate check (see
the counterexample). -/
theorem C1_uniqueness_amended (t : Table) (hnd : NodupCols t.schema)
    (hs : SyncP t) (hu : Uniq t) :
    (∀ r, Uniq (t.insert r).2) ∧ (∀ pred, Uniq (t.delete pred).2) :=
  ⟨fun r => uniq_insert t r hnd hs hu,
   fun pred => uniq_delete t pred hu⟩

/-- Witness for the amended C1 at the one-row table `t`. -/
theorem C1_uniqueness_amended_witness :
    Uniq ((tableT1.insert
        [("id", some (Value.num 2)), ("name", some (Value.str "b"))]).2)
    ∧ Uniq ((tableT1.delete
        (fun r => decide (jsGet r "id" = some (Value.num 1)))).2) := by
  have hnd : NodupCols tableT1.schema := by
    unfold NodupCols
    decide
  have hs : SyncP tableT1 :=
    sync_insert (Table.new schemaT)
      [("id", some (.num 1)), ("name", some (.str "a"))]
      (by unfold NodupCols; decide) (sync_new schemaT)
  have hu : Uniq tableT1 := by
    intro col hmem hidx
    have hcols : tableT1.schema.columns
        = [⟨"id", ColumnType.number, true, false, false⟩,
           ⟨"name", ColumnType.string, false, false, true⟩] := by rfl
    rw [hcols] at hmem
    rcases List.mem_cons.mp hmem with rfl | hmem2
    · unfold UniqAt
      decide
    · rcases List.mem_cons.mp hmem2 with rfl | hmem3
      · exact absurd hidx (by decide)
      · cases hmem3
  exact ⟨(C1_uniqueness_amended tableT1 hnd hs hu).1
      [("id", some (Value.num 2)), ("name", some (Value.str "b"))],
    (C1_uniqueness_amended tableT1 hnd hs hu).2
      (fun r => decide (jsGet r "id" = some (Value.num 1)))⟩

/-! ## The facade never raises and reports uniform results (claim C5) -/

theorem len_pos_append_left (s t : String) (h : 0 < s.data.length) :
    0 < (s ++ t).data.length := by
  rw [string_data_append, List.length_append]
  omega

theorem insertLoop_error_nonempty (t : Table) (r : Row) :
    ∀ (cols : List ColumnDefinition) (acc : Row) (e : String),
      insertLoop t r cols acc = .error e → 0 < e.data.length := by
  intro cols
  induction cols with
  | nil =>
    intro acc e h
    cases h
  | cons c rest ih =>
    intro acc e h
    unfold insertLoop at h
    cases hj : jsGet r c.name with
    | none =>
      rw [hj] at h
      simp only [] at h
      split at h
      · injection h with h2
        subst h2
        exact len_pos_append_left _ _ (len_pos_append_left _ _ (by decide))
      · exact ih _ _ h
    | some v =>
      rw [hj] at h
      simp only [] at h
      split at h
      · injection h with h2
        subst h2
        exact len_pos_append_left _ _ (by decide)
      · split at h
        · split at h
          · split at h
            · injection h with h2
              subst h2
              exact len_pos_append_left _ _ (len_pos_append_left _ _
                (len_pos_append_left _ _ (by decide)))
            · exact ih _ _ h
          · exact ih _ _ h
        · exact ih _ _ h

theorem insert_error_nonempty (t : Table) (r : Row) (e : String)
    (h : (t.insert r).1 = some e) : 0 < e.data.length := by
  unfold Table.insert at h
  cases heq : insertLoop t r t.schema.columns [] with
  | error e2 =>
    rw [heq] at h
    have h2 : some e2 = some e := h
    injection h2 with h3
    subst h3
    exact insertLoop_error_nonempty t r _ _ _ heq
  | ok nr =>
    rw [heq] at h
    have h2 : (none : Option String) = some e := h
    cases h2

theorem createTable_error_nonempty (db : Database) (schema : TableSchema)
    (e : String) (h : (db.createTable schema).1 = some e) :
    0 < e.data.length := by
  unfold Database.createTable at h
  simp only [] at h
  split at h
  · have h2 : some ("Table " ++ schema.name ++ " already exists") = some e := h
    injection h2 with h3
    subst h3
    exact len_pos_append_left _ _ (len_pos_append_left _ _ (by decide))
  · split at h
    · have h2 : some "Multiple primary keys not supported" = some e := h
      injection h2 with h3
      subst h3
      decide
    · have h2 : (none : Option String) = some e := h
      cases h2

theorem dropTable_error_nonempty (db : Database) (n : String)
    (e : String) (h : (db.dropTable n).1 = some e) : 0 < e.data.length := by
  unfold Database.dropTable at h
  split at h
  · have h2 : (none : Option String) = some e := h
    cases h2
  · have h2 : some ("Table " ++ n ++ " does not exist") = some e := h
    injection h2 with h3
    subst h3
    exact len_pos_append_left _ _ (len_pos_append_left _ _ (by decide))

theorem mapM_error_nonempty {α β : Type} (f : α → Except String β)
    (hf : ∀ a e, f a = .error e → 0 < e.data.length) :
    ∀ (l : List α) (e : String), l.mapM f = .error e → 0 < e.data.length := by
  intro l
  induction l with
  | nil =>
    intro e h
    cases h
  | cons a rest ih =>
    intro e h
    rw [List.mapM_cons] at h
    cases hfa : f a with
    | error e2 =>
      rw [hfa] at h
      have h2 : (Except.error e2 : Except String (List β)) = .error e := h
      injection h2 with h3
      subst h3
      exact hf a _ hfa
    | ok b =>
      rw [hfa] at h
      cases hr : rest.mapM f with
      | error e2 =>
        rw [hr] at h
        have h2 : (Except.error e2 : Except String (List β)) = .error e := h
        injection h2 with h3
        subst h3
        exact ih _ hr
      | ok bs =>
        rw [hr] at h
        have h2 : (Except.ok (b :: bs) : Except String (List β)) = .error e := h
        cases h2

theorem parseWhere_error_nonempty (cs : List Char) (e : String)
    (h : parseWhere cs = .error e) : 0 < e.data.length := by
  unfold parseWhere at h
  refine mapM_error_nonempty _ (fun cond e2 h2 => ?_) _ _ h
  simp only [] at h2
  split at h2
  · injection h2 with h3
    subst h3
    exact len_pos_append_left _ _ (by decide)
  · cases h2

theorem foldlM_error_nonempty {α β : Type} (f : β → α → Except String β)
    (hf : ∀ b a e, f b a = .error e → 0 < e.data.length) :
    ∀ (l : List α) (init : β) (e : String),
      l.foldlM f init = .error e → 0 < e.data.length := by
  intro l
  induction l with
  | nil =>
    intro init e h
    cases h
  | cons a rest ih =>
    intro init e h
    rw [List.foldlM_cons] at h
    cases hfa : f init a with
    | error e2 =>
      rw [hfa] at h
      have h2 : (Except.error e2 : Except String β) = .error e := h
      injection h2 with h3
      subst h3
      exact hf _ _ _ hfa
    | ok b =>
      rw [hfa] at h
      exact ih b e h

theorem parseSetClause_error_nonempty (cs : List Char) (e : String)
    (h : parseSetClause cs = .error e) : 0 < e.data.length := by
  unfold parseSetClause at h
  refine foldlM_error_nonempty _ (fun m pair e2 h2 => ?_) _ _ _ h
  simp only [] at h2
  split at h2
  · cases h2
  · injection h2 with h3
    subst h3
    decide

theorem parseCreateTable_error_nonempty (cs : List Char) (e : String)
    (h : parseCreateTable cs = .error e) : 0 < e.data.length := by
  unfold parseCreateTable at h
  split at h
  · injection h with h2
    subst h2
    decide
  · cases h

theorem parseDropTable_error_nonempty (cs : List Char) (e : String)
    (h : parseDropTable cs = .error e) : 0 < e.data.length := by
  unfold parseDropTable at h
  split at h
  · injection h with h2
    subst h2
    decide
  · cases h

theorem parseInsert_error_nonempty (cs : List Char) (e : String)
    (h : parseInsert cs = .error e) : 0 < e.data.length := by
  unfold parseInsert at h
  split at h
  · injection h with h2
    subst h2
    decide
  · cases h

theorem parseDescribe_error_nonempty (cs : List Char) (e : String)
    (h : parseDescribe cs = .error e) : 0 < e.data.length := by
  unfold parseDescribe at h
  split at h
  · injection h with h2
    subst h2
    decide
  · cases h

theorem parseSelect_error_nonempty (cs : List Char) (e : String)
    (h : parseSelect cs = .error e) : 0 < e.data.length := by
  unfold parseSelect at h
  split at h
  · injection h with h2
    subst h2
    decide
  · rename_i name fromChars restRaw heq
    simp only [] at h
    split at h
    · have h2 : (Except.ok (ParsedQuery.select _ _ none _)
          : Except String ParsedQuery) = .error e := h
      cases h2
    · rename_i w hw
      cases hpw : parseWhere w with
      | error e2 =>
        rw [hpw] at h
        have h2 : (Except.error e2 : Except String ParsedQuery) = .error e := h
        injection h2 with h3
        subst h3
        exact parseWhere_error_nonempty _ _ hpw
      | ok l =>
        rw [hpw] at h
        have h2 : (Except.ok (ParsedQuery.select _ _ (some l) _)
            : Except String ParsedQuery) = .error e := h
        cases h2

theorem parseUpdate_error_nonempty (cs : List Char) (e : String)
    (h : parseUpdate cs = .error e) : 0 < e.data.length := by
  unfold parseUpdate at h
  split at h
  · injection h with h2
    subst h2
    decide
  · rename_i name setChars whereChars heq
    cases hset : parseSetClause setChars with
    | error e2 =>
      rw [hset] at h
      have h2 : (Except.error e2 : Except String ParsedQuery) = .error e := h
      injection h2 with h3
      subst h3
      exact parseSetClause_error_nonempty _ _ hset
    | ok s =>
      rw [hset] at h
      simp only [] at h
      split at h
      · have h2 : (Except.ok (ParsedQuery.update _ _ none)
            : Except String ParsedQuery) = .error e := h
        cases h2
      · rename_i w
        cases hpw : parseWhere w with
        | error e2 =>
          rw [hpw] at h
          have h2 : (Except.error e2 : Except String ParsedQuery) = .error e := h
          injection h2 with h3
          subst h3
          exact parseWhere_error_nonempty _ _ hpw
        | ok l =>
          rw [hpw] at h
          have h2 : (Except.ok (ParsedQuery.update _ _ (some l))
              : Except String ParsedQuery) = .error e := h
          cases h2

theorem parseDelete_error_nonempty (cs : List Char) (e : String)
    (h : parseDelete cs = .error e) : 0 < e.data.length := by
  unfold parseDelete at h
  split at h
  · injection h with h2
    subst h2
    decide
  · rename_i name whereChars heq
    simp only [] at h
    split at h
    · have h2 : (Except.ok (ParsedQuery.delete _ none)
          : Except String ParsedQuery) = .error e := h
      cases h2
    · rename_i w
      cases hpw : parseWhere w with
      | error e2 =>
        rw [hpw] at h
        have h2 : (Except.error e2 : Except String ParsedQuery) = .error e := h
        injection h2 with h3
        subst h3
        exact parseWhere_error_nonempty _ _ hpw
      | ok l =>
        rw [hpw] at h
        have h2 : (Except.ok (ParsedQuery.delete _ (some l))
            : Except String ParsedQuery) = .error e := h
        cases h2

theorem parse_dispatch_error_nonempty (sql : String) (cs : List Char)
    (e : String)
    (h : (if startsWithCI "create table" cs then parseCreateTable cs
      else if startsWithCI "drop table" cs then parseDropTable cs
      else if startsWithCI "insert into" cs then parseInsert cs
      else if startsWithCI "select" cs then parseSelect cs
      else if startsWithCI "update" cs then parseUpdate cs
      else if startsWithCI "delete from" cs then parseDelete cs
      else if cs.map Char.toUpper = "SHOW TABLES".data then
        .ok .showTables
      else if startsWithCI "describe" cs || startsWithCI "desc" cs then
        parseDescribe cs
      else .error ("Unsupported query: " ++ sql)) = .error e) :
    0 < e.data.length := by
  split at h
  · exact parseCreateTable_error_nonempty _ _ h
  · split at h
    · exact parseDropTable_error_nonempty _ _ h
    · split at h
      · exact parseInsert_error_nonempty _ _ h
      · split at h
        · exact parseSelect_error_nonempty _ _ h
        · split at h
          · exact parseUpdate_error_nonempty _ _ h
          · split at h
            · exact parseDelete_error_nonempty _ _ h
            · split at h
              · cases h
              · split at h
                · exact parseDescribe_error_nonempty _ _ h
                · injection h with h2
                  subst h2
                  exact len_pos_append_left _ _ (by decide)

theorem parse_error_nonempty (sql : String) (e : String)
    (h : parse sql = .error e) : 0 < e.data.length := by
  unfold parse at h
  simp only [] at h
  exact parse_dispatch_error_nonempty sql _ e h

theorem insertTail_uniform (db : Database) (n : String) (table : Table)
    (row : Row) :
    UniformResult ((match table.insert row with
      | (err, table2) =>
        (match err with
        | none => (({ success := true
                      message := some "1 row inserted"
                      rowCount := some 1 } : QueryResult), db.putTable n table2)
        | some e => ({ success := false, error := some e },
            db.putTable n table2))) : QueryResult × Database).1 := by
  rcases hi : table.insert row with ⟨err, table2⟩
  cases err with
  | none =>
    left
    rfl
  | some e =>
    right
    have hne := insert_error_nonempty table row e (by rw [hi])
    refine ⟨rfl, ?_⟩
    show some (decide (0 < e.data.length)) = some true
    rw [decide_eq_true hne]

theorem selectTail_uniform (db : Database) (f : String) (rows : List Row)
    (j : Option JoinClause) :
    UniformResult ((match j with
      | none => (({ success := true
                    rows := some rows
                    rowCount := some rows.length } : QueryResult), db)
      | some j =>
        match db.getTable j.table with
        | none => ({ success := false
                     error := some ("Join table " ++ j.table
                       ++ " does not exist") }, db)
        | some joinTable =>
          let rows2 := executeJoin rows (joinTable.select) j.type
            j.leftColumn j.rightColumn f j.table
          ({ success := true
             rows := some rows2
             rowCount := some rows2.length }, db)) : QueryResult × Database).1 := by
  cases j with
  | none =>
    left
    rfl
  | some jc =>
    show UniformResult ((match db.getTable jc.table with
      | none => ({ success := false
                   error := some ("Join table " ++ jc.table
                     ++ " does not exist") }, db)
      | some joinTable =>
        ({ success := true
           rows := some (executeJoin rows (joinTable.select) jc.type
             jc.leftColumn jc.rightColumn f jc.table)
           rowCount := some (executeJoin rows (joinTable.select) jc.type
             jc.leftColumn jc.rightColumn f jc.table).length }, db))
      : QueryResult × Database).1
    cases hg2 : db.getTable jc.table with
    | none =>
      right
      refine ⟨rfl, ?_⟩
      have hne : 0 < ("Join table " ++ jc.table
          ++ " does not exist").data.length :=
        len_pos_append_left _ _ (len_pos_append_left _ _ (by decide))
      show some (decide (0 < ("Join table " ++ jc.table
          ++ " does not exist").data.length)) = some true
      rw [decide_eq_true hne]
    | some jt =>
      left
      rfl

theorem updateTail_uniform (db : Database) (n : String) (table : Table)
    (updates : List (String × Cell)) (pred : Row → Bool) :
    UniformResult (match table.update updates pred with
      | (count, table2) => (({ success := true
                               message := some (toString count ++ " row(s) updated")
                               rowCount := some count } : QueryResult),
          db.putTable n table2)).1 := by
  rcases hu : table.update updates pred with ⟨count, table2⟩
  left
  rfl

theorem deleteTail_uniform (db : Database) (f : String) (table : Table)
    (pred : Row → Bool) :
    UniformResult (match table.delete pred with
      | (count, table2) => (({ success := true
                               message := some (toString count ++ " row(s) deleted")
                               rowCount := some count } : QueryResult),
          db.putTable f table2)).1 := by
  rcases hd : table.delete pred with ⟨count, table2⟩
  left
  rfl

theorem execute_uniform (db : Database) (q : ParsedQuery) :
    UniformResult (execute db q).1 := by
  cases q with
  | createTable n cols =>
    show UniformResult (executeCreateTable db n cols).1
    rcases hc : db.createTable { name := n, columns := cols } with ⟨err, db2⟩
    cases err with
    | none =>
      left
      simp [executeCreateTable, hc]
    | some e =>
      right
      have hne : 0 < e.data.length :=
        createTable_error_nonempty db _ e (by rw [hc])
      constructor
      · simp [executeCreateTable, hc]
      · have hmap : (executeCreateTable db n cols).1.error = some e := by
          simp [executeCreateTable, hc]
        rw [hmap]
        show some (decide (0 < e.data.length)) = some true
        rw [decide_eq_true hne]
  | dropTable n =>
    show UniformResult (executeDropTable db n).1
    rcases hc : db.dropTable n with ⟨err, db2⟩
    cases err with
    | none =>
      left
      simp [executeDropTable, hc]
    | some e =>
      right
      have hne : 0 < e.data.length :=
        dropTable_error_nonempty db n e (by rw [hc])
      constructor
      · simp [executeDropTable, hc]
      · have hmap : (executeDropTable db n).1.error = some e := by
          simp [executeDropTable, hc]
        rw [hmap]
        show some (decide (0 < e.data.length)) = some true
        rw [decide_eq_true hne]
  | insert n cols vals =>
    show UniformResult (executeInsert db n cols vals).1
    unfold executeInsert
    cases hg : db.getTable n with
    | none =>
      right
      refine ⟨rfl, ?_⟩
      have hne : 0 < ("Table " ++ n ++ " does not exist").data.length :=
        len_pos_append_left _ _ (len_pos_append_left _ _ (by decide))
      show some (decide (0 < ("Table " ++ n ++ " does not exist").data.length))
        = some true
      rw [decide_eq_true hne]
    | some table =>
      exact insertTail_uniform db n table _
  | select cols f w j =>
    show UniformResult (executeSelect db cols f w j).1
    unfold executeSelect
    cases hg : db.getTable f with
    | none =>
      right
      refine ⟨rfl, ?_⟩
      have hne : 0 < ("Table " ++ f ++ " does not exist").data.length :=
        len_pos_append_left _ _ (len_pos_append_left _ _ (by decide))
      show some (decide (0 < ("Table " ++ f ++ " does not exist").data.length))
        = some true
      rw [decide_eq_true hne]
    | some table =>
      exact selectTail_uniform db f _ j
  | update n s w =>
    show UniformResult (executeUpdate db n s w).1
    unfold executeUpdate
    cases hg : db.getTable n with
    | none =>
      right
      refine ⟨rfl, ?_⟩
      have hne : 0 < ("Table " ++ n ++ " does not exist").data.length :=
        len_pos_append_left _ _ (len_pos_append_left _ _ (by decide))
      show some (decide (0 < ("Table " ++ n ++ " does not exist").data.length))
        = some true
      rw [decide_eq_true hne]
    | some table =>
      exact updateTail_uniform db n table _ _
  | delete f w =>
    show UniformResult (executeDelete db f w).1
    unfold executeDelete
    cases hg : db.getTable f with
    | none =>
      right
      refine ⟨rfl, ?_⟩
      have hne : 0 < ("Table " ++ f ++ " does not exist").data.length :=
        len_pos_append_left _ _ (len_pos_append_left _ _ (by decide))
      show some (decide (0 < ("Table " ++ f ++ " does not exist").data.length))
        = some true
      rw [decide_eq_true hne]
    | some table =>
      exact deleteTail_uniform db f table _
  | showTables =>
    left
    rfl
  | describe n =>
    show UniformResult (executeDescribe db n).1
    unfold executeDescribe
    cases hg : db.getTable n with
    | none =>
      right
      refine ⟨rfl, ?_⟩
      have hne : 0 < ("Table " ++ n ++ " does not exist").data.length :=
        len_pos_append_left _ _ (len_pos_append_left _ _ (by decide))
      show some (decide (0 < ("Table " ++ n ++ " does not exist").data.length))
        = some true
      rw [decide_eq_true hne]
    | some table =>
      left
      rfl

/-- **C5**: for every database state and every input string, the facade's
`query` entry point returns a plain result value: either `success = true`,
or `success = false` together with a non-empty error message — parser
failures included (the source's `try`/`catch` turns the parser's thrown
`Error`s, whose messages are all non-empty, into such results; the
executor's branches are total). -/
theorem C5_query_uniform_result (db : Database) (sql : String) :
    (RDBMS.query db sql).1.success = true
    ∨ ((RDBMS.query db sql).1.success = false
       ∧ (RDBMS.query db sql).1.error.map
           (fun e => decide (0 < e.data.length)) = some true) := by
  show UniformResult (RDBMS.query db sql).1
  unfold RDBMS.query
  cases hp : parse sql with
  | error e =>
    right
    have hne := parse_error_nonempty sql e hp
    refine ⟨rfl, ?_⟩
    show some (decide (0 < e.data.length)) = some true
    rw [decide_eq_true hne]
  | ok q =>
    exact execute_uniform db q

/-! ## WHERE applies to already-projected rows (claim C10) -/

theorem proj_foldl_get_none (row : Row) (c : String) :
    ∀ (columns : List String) (sel : Row), ¬ c ∈ columns →
      rowGet sel c = none →
      rowGet (columns.foldl (fun sel c2 =>
        match rowGet row c2 with
        | some cell => rowSet sel c2 cell
        | none => sel) sel) c = none := by
  intro columns
  induction columns with
  | nil =>
    intro sel _ h
    exact h
  | cons c2 rest ih =>
    intro sel hc hsel
    rw [List.foldl_cons]
    apply ih _ (fun hm => hc (List.mem_cons_of_mem _ hm))
    cases hr : rowGet row c2 with
    | none =>
      simp only [hr]
      exact hsel
    | some cell =>
      simp only [hr]
      rw [rowGet_rowSet_ne]
      · exact hsel
      · exact fun he => hc (by rw [he]; exact List.mem_cons_self _ _)

theorem select_get_none (t : Table) (columns : List String) (c : String)
    (hne : ¬ columns.length = 0) (hstar : ¬ columns.headD "" = "*")
    (hc : ¬ c ∈ columns) :
    ∀ row ∈ t.select columns, rowGet row c = none := by
  intro row hrow
  unfold Table.select at hrow
  rw [if_neg (by
    simp only [Bool.or_eq_true, decide_eq_true_eq]
    rintro (h | h)
    · exact hne h
    · exact hstar h)] at hrow
  obtain ⟨row0, _, rfl⟩ := List.mem_map.mp hrow
  exact proj_foldl_get_none row0 c columns [] hc rfl

theorem evaluateWhere_absent_false (row : Row) (c : String) (op : Operator)
    (v : Value) (h : rowGet row c = none) (hop : ¬ op = Operator.ne) :
    evaluateWhere row [⟨c, op, v⟩] = false := by
  cases op <;>
    simp [evaluateWhere, h, jsGreater, jsLess, jsGreaterEq, jsLessEq,
      toNumber] at hop ⊢

theorem evaluateWhere_absent_ne (row : Row) (c : String) (v : Value)
    (h : rowGet row c = none) :
    evaluateWhere row [⟨c, Operator.ne, v⟩] = true := by
  simp [evaluateWhere, h]

/-- **C10**: `executeSelect` projects first and filters afterwards, so a
WHERE condition naming a column that the explicit column list dropped
compares against an absent value: with `=`, `>`, `<`, `>=` or `<=` the
result is empty, while with `!=` every projected row is kept. -/
theorem C10_where_after_projection (db : Database) (t : Table)
    (fromName : String) (columns : List String) (c : String)
    (op : Operator) (v : Value)
    (hdb : db.getTable fromName = some t)
    (hne : ¬ columns.length = 0) (hstar : ¬ columns.headD "" = "*")
    (hc : ¬ c ∈ columns) :
    ((op = .eq ∨ op = .gt ∨ op = .lt ∨ op = .ge ∨ op = .le) →
      (executeSelect db columns fromName (some [⟨c, op, v⟩]) none).1.rows
        = some [])
    ∧ (op = .ne →
      (executeSelect db columns fromName (some [⟨c, op, v⟩]) none).1.rows
        = some (t.select columns)) := by
  have hproj := select_get_none t columns c hne hstar hc
  constructor
  · intro hop
    unfold executeSelect
    rw [hdb]
    show some (filterRows (t.select columns) [⟨c, op, v⟩]) = some []
    have hfil : filterRows (t.select columns) [⟨c, op, v⟩] = [] := by
      unfold filterRows
      rw [List.filter_eq_nil_iff]
      intro row hrow
      have h0 := hproj row hrow
      have hopne : ¬ op = Operator.ne := by
        rcases hop with rfl | rfl | rfl | rfl | rfl <;> simp
      rw [evaluateWhere_absent_false row c op v h0 hopne]
      simp
    rw [hfil]
  · intro hop
    subst hop
    unfold executeSelect
    rw [hdb]
    show some (filterRows (t.select columns) [⟨c, Operator.ne, v⟩])
      = some (t.select columns)
    have hfil : filterRows (t.select columns) [⟨c, Operator.ne, v⟩]
        = t.select columns := by
      unfold filterRows
      rw [List.filter_eq_self]
      intro row hrow
      rw [evaluateWhere_absent_ne row c v (hproj row hrow)]
    rw [hfil]

/-- Witness: `SELECT name FROM t WHERE id > 0` returns no rows even though
a row with `id = 1` exists, and `SELECT name FROM t WHERE id != 0` keeps
every projected row. -/
theorem C10_where_after_projection_witness :
    (executeSelect ⟨[("t", tableT1)]⟩ ["name"] "t"
        (some [⟨"id", Operator.gt, Value.num 0⟩]) none).1.rows = some []
    ∧ (executeSelect ⟨[("t", tableT1)]⟩ ["name"] "t"
        (some [⟨"id", Operator.ne, Value.num 0⟩]) none).1.rows
      = some (tableT1.select ["name"]) :=
  ⟨(C10_where_after_projection ⟨[("t", tableT1)]⟩ tableT1 "t" ["name"]
      "id" Operator.gt (Value.num 0) (by rfl) (by decide) (by decide)
      (by decide)).1 (Or.inr (Or.inl rfl)),
   (C10_where_after_projection ⟨[("t", tableT1)]⟩ tableT1 "t" ["name"]
      "id" Operator.ne (Value.num 0) (by rfl) (by decide) (by decide)
      (by decide)).2 rfl⟩
